import Mathlib

/-!
# RINGMesh: global indexing of the mesh elements of a GeoModel

A shallow embedding of `ringmesh/geo_model_mesh.h` (the classes
`GeoModelMeshVertices`, `GeoModelMeshFacets`, `GeoModelMeshCells`,
`GeoModelMeshOrder`, `GeoModelMesh`), of the Adeli and MFEM exporters of
`ringmesh/io/io_full_geomodel.cpp`, of the functions of
`ringmesh/geomodel/geomodel_builder_gocad.cpp` that build the surfaces, the
region boundaries and the contacts of a Gocad model, and of the selection of
tetrahedra of `ringmesh/tetrahedralize/tetgen_mesher.cpp`, followed by the
properties proved about them.

Conventions.
* `index_t` is a 32-bit unsigned integer; it is embedded as `Nat`. The code
  embedded from the sources reduces its arithmetic modulo `2 ^ 32`; the
  functions modelled from the written specification count in natural numbers.
* A C++ member function that mutates its object becomes a function from the
  old state to the new state.
* A member function whose body is not part of the available sources is either
  taken as a parameter of the functions that call it, or modelled from the
  written specification; the latter definitions say so in their doc comment.
-/

namespace RINGMesh

/-! ## Basic types -/

/-- The largest `index_t` plus one: `index_t` is an unsigned 32-bit integer. -/
def index_t_size : Nat := 2 ^ 32

/-- The value `NO_ID` of `ringmesh/common.h`: `index_t( -1 )`. -/
def NO_ID : Nat := 4294967295

/-- The enum `GeoModelMeshCells::DuplicateMode`:
`NONE` = no duplication, `FAULT` = duplication along faults,
`HORIZON` = duplication along horizons, `ALL` = duplication along faults and
horizons. -/
inductive DuplicateMode where
  | NONE
  | FAULT
  | HORIZON
  | ALL
  deriving DecidableEq, Repr

/-! ## GeoModelMesh: the duplicate mode and the order -/

/-- The class `GeoModelMesh`. The five public members `vertices`, `edges`,
`facets`, `cells` and `order` are kept abstract here: the two setters below
only call `cells.clear_duplication()` and `order.clear()` on them. The
references `gm_` and `mesh_` are never assigned after construction. -/
structure GeoModelMesh (V E F C O : Type) where
  /-- Optional duplication mode to compute the duplication of cells on surfaces -/
  mode_ : DuplicateMode
  /-- Order of the GeoModelMesh -/
  order_value_ : Nat
  vertices : V
  edges : E
  facets : F
  cells : C
  order : O

section Setters

variable {V E F C O : Type}

/-- `GeoModelMesh::duplicate_mode`. -/
def GeoModelMesh.duplicate_mode (s : GeoModelMesh V E F C O) : DuplicateMode :=
  s.mode_

/-- `GeoModelMesh::set_duplicate_mode`:
```
if( mode_ == mode ) return ;
mode_ = mode ;
const_cast< GeoModelMesh* >( this )->cells.clear_duplication() ;
```
The member function `GeoModelMeshCells::clear_duplication` is the first
argument. -/
def GeoModelMesh.set_duplicate_mode (clear_duplication : C → C)
    (mode : DuplicateMode) (s : GeoModelMesh V E F C O) : GeoModelMesh V E F C O :=
  if s.mode_ = mode then s
  else { s with mode_ := mode, cells := clear_duplication s.cells }

/-- `GeoModelMesh::get_order`. -/
def GeoModelMesh.get_order (s : GeoModelMesh V E F C O) : Nat :=
  s.order_value_

/-- `GeoModelMesh::set_order`:
```
if( new_order != order_value_ ) {
    order.clear() ;
}
order_value_ = new_order ;
```
The member function `GeoModelMeshOrder::clear` is the first argument. -/
def GeoModelMesh.set_order (clear : O → O) (new_order : Nat)
    (s : GeoModelMesh V E F C O) : GeoModelMesh V E F C O :=
  let s1 := if new_order ≠ s.order_value_ then { s with order := clear s.order } else s
  { s1 with order_value_ := new_order }

end Setters

/-! ## GeoModelMeshCells: the duplication of the cell corners -/

/-- Modelled from the spec: the duplication state of `GeoModelMeshCells`.
The header gives the fields `mode_` ("current duplicate mode applied on the
mesh") and `duplicated_vertex_indices_` ("each value is a duplicated vertex,
the index corresponds to vertex index in mesh.vertices"); the storage of the
rebound corners is missing from the sources and follows spec 4.3 step 5: a
table with one entry `((c, v), d)` for every cell corner `(c, v)` that was
rebound to the duplicated vertex `d`, all other corners implicitly
referencing their unique vertex. The field `region_cell_ptr_` is the one of the
header; it is filled by `GeoModelMeshCells.initialize` below. -/
structure GeoModelMeshCells where
  /-- Vector storing the index of the starting cell index for a given region
  and a given cell type -/
  region_cell_ptr_ : List Nat
  /-- Current duplicate mode applied on the mesh -/
  mode_ : DuplicateMode
  /-- Vector of duplicated vertices -/
  duplicated_vertex_indices_ : List Nat
  /-- The rebound cell corners -/
  duplicated_corners_ : List ((Nat × Nat) × Nat)
  deriving DecidableEq, Repr

/-- Modelled from the spec: `GeoModelMeshCells::clear_duplication`, whose body
is missing from the sources ("Remove the duplication of the mesh cell
facets"; spec 4.3: "clears all duplication state"; spec 3: duplicated
vertices are "cleared wholesale when duplication mode changes"). Every corner
references its unique vertex again, no duplicated vertex is left, and no mode
is applied any more; the cells themselves stay. -/
def GeoModelMeshCells.clear_duplication (c : GeoModelMeshCells) : GeoModelMeshCells :=
  { c with
    mode_ := DuplicateMode.NONE
    duplicated_vertex_indices_ := []
    duplicated_corners_ := [] }

/-- A `GeoModelMesh` whose cells carry the duplication state above. -/
abbrev GeoModelMeshD (V E F O : Type) := GeoModelMesh V E F GeoModelMeshCells O

section Duplication

variable {V E F O : Type}

/-- Modelled from the spec: `GeoModelMeshCells::is_duplication_initialized`
("Test if the mesh cells are duplicated"), body missing from the sources. The
cells are duplicated according to the duplication mode when the mode applied
on them is the mode of the owning `GeoModelMesh`; a cleared duplication
(applied mode `NONE`) is therefore rebuilt exactly when the duplication data
is read under a non-`NONE` mode (spec 4.3). -/
def is_duplication_initialized (s : GeoModelMeshD V E F O) : Bool :=
  decide (s.cells.mode_ = s.mode_)

/-- Modelled from the spec: `GeoModelMeshCells::test_and_initialize_duplication`
("Test if the mesh cell are duplicated according the duplication mode, if not
duplicate them"), body missing from the sources. The duplication algorithm
`initialize_duplication` (spec 4.3, steps 1 to 5) is an argument: it receives
the mode to apply and the current cells; the mode it was run for is then the
mode applied on the cells. -/
def test_and_initialize_duplication
    (initialize_duplication : DuplicateMode → GeoModelMeshCells → GeoModelMeshCells)
    (s : GeoModelMeshD V E F O) : GeoModelMeshD V E F O :=
  if is_duplication_initialized s then s
  else { s with cells := { initialize_duplication s.mode_ s.cells with mode_ := s.mode_ } }

/-- Modelled from the spec: `GeoModelMeshCells::nb_duplicated_vertices`
("Gets the number of duplicated points by the DuplicateMode algorithm"), body
missing from the sources: a read accessor, so the lazy rebuild comes first. -/
def nb_duplicated_vertices
    (initialize_duplication : DuplicateMode → GeoModelMeshCells → GeoModelMeshCells)
    (s : GeoModelMeshD V E F O) : Nat :=
  (test_and_initialize_duplication initialize_duplication s).cells.duplicated_vertex_indices_.length

/-- Modelled from the spec: `GeoModelMeshCells::is_corner_duplicated`
("Check if the corner in a cell is duplicated, if so give the duplicated
vertex index"), body missing from the sources: the per-(cell, local corner)
lookup of spec 3 and 4.3 step 5. The result is `none` when the corner is not
duplicated (the C++ function returns `false`), and `some d` when it is (the
C++ function returns `true` and sets `duplicate_vertex_index` to `d`). -/
def is_corner_duplicated
    (initialize_duplication : DuplicateMode → GeoModelMeshCells → GeoModelMeshCells)
    (s : GeoModelMeshD V E F O) (c v : Nat) : Option Nat :=
  ((test_and_initialize_duplication initialize_duplication s).cells.duplicated_corners_.lookup (c, v))

end Duplication

/-- A mesh in mode `FAULT` whose duplication is built: one duplicated vertex
(a copy of vertex 4), to which corner 1 of cell 0 is rebound. -/
def faultMesh : GeoModelMeshD Unit Unit Unit (List Nat) :=
  { mode_ := DuplicateMode.FAULT, order_value_ := 1, vertices := (), edges := (),
    facets := (), order := [7, 8],
    cells := { region_cell_ptr_ := [0, 2, 2, 2, 2, 2, 2, 2, 2, 2],
               mode_ := DuplicateMode.FAULT, duplicated_vertex_indices_ := [4],
               duplicated_corners_ := [((0, 1), 0)] } }

/-! ## Surfaces to duplicate -/

section SurfaceToDuplicate

variable {V E F O G : Type}

/-- Modelled from the spec: `GeoModelMeshCells::is_surface_to_duplicate` ("Test
if we need to duplicate mesh cell along the given surface according the
duplicate mode"), body missing from the sources. Spec 4.3 step 1: a surface is
to duplicate iff its geological category matches the active mode, fault
surfaces under `FAULT`/`ALL`, horizon surfaces under `HORIZON`/`ALL`. The
geological feature of each surface of the GeoModel (`geological_feature`) and
the two tests `GeoModelEntity::is_fault` and
`GeoModelEntity::is_stratigraphic_limit` (a horizon) on a feature are
arguments. -/
def is_surface_to_duplicate (geological_feature : Nat → G)
    (is_fault is_stratigraphic_limit : G → Bool)
    (m : GeoModelMeshD V E F O) (s : Nat) : Bool :=
  match m.duplicate_mode with
  | DuplicateMode.NONE => false
  | DuplicateMode.FAULT => is_fault (geological_feature s)
  | DuplicateMode.HORIZON => is_stratigraphic_limit (geological_feature s)
  | DuplicateMode.ALL =>
      is_fault (geological_feature s) || is_stratigraphic_limit (geological_feature s)

end SurfaceToDuplicate

/-! ## The cache protocol -/

/-- Modelled from the spec: the state shared by the five caches
(`GeoModelMeshVertices`, `GeoModelMeshEdges`, `GeoModelMeshFacets`,
`GeoModelMeshCells`, `GeoModelMeshOrder`); the bodies of `is_initialized`,
`test_and_initialize` and `clear` are missing from the sources. Spec 3: "every
cache carries a boolean/enum initialized state"; `data` is the derived data of
the cache, of type `D`. The header declares no field for this state in the
five classes, so how `is_initialized` reads it off the stored data is not
visible in the sources; the field `initialized` stands for it. -/
structure Cache (D : Type) where
  initialized : Bool
  data : D
  deriving DecidableEq, Repr

section CacheOps

variable {D R : Type}

/-- Modelled from the spec: `is_initialized()` of a cache (spec 4.4). -/
def Cache.is_initialized (c : Cache D) : Bool :=
  c.initialized

/-- Modelled from the spec: `test_and_initialize()` of a cache (spec 4.4): "if
not initialized, run the rebuild algorithm, mark initialized; otherwise
no-op". `rebuild` is the rebuild algorithm of the cache, run on the entity
store `gm`, which the cache reads and never writes. -/
def Cache.test_and_initialize {GM : Type} (rebuild : GM → D) (gm : GM) (c : Cache D) :
    Cache D :=
  if c.is_initialized then c else { initialized := true, data := rebuild gm }

/-- Modelled from the spec: `clear()` of a cache (spec 4.4): "drop all derived
data and mark uninitialized; does not touch the entity store". `empty` is the
cache's data when nothing is stored. -/
def Cache.clear (empty : D) (_c : Cache D) : Cache D :=
  { initialized := false, data := empty }

/-- Modelled from the spec: a read accessor of a cache (`nb()`, `vertex( v )`,
`facet( s, f )`, `cell( r, c )`, ...): "every accessor performs a
test-and-initialize check and transparently rebuilds its cache if invalidated,
before returning data" (spec 2). `get` reads the answer in the derived data. -/
def Cache.read {GM : Type} (rebuild : GM → D) (gm : GM) (get : D → R) (c : Cache D) : R :=
  get ( Cache.test_and_initialize rebuild gm c).data

end CacheOps

/-! ## The element index caches: prefix-offset tables -/

/-- The enum `GeoModelMeshFacets::FacetType`. -/
inductive FacetType where
  | TRIANGLE
  | QUAD
  | POLYGON
  | ALL
  | NO_FACET
  deriving DecidableEq, Repr

/-- The integer value of a `FacetType` enumerator: `TRIANGLE` = 0, `QUAD` = 1,
`POLYGON` = 2, `ALL` = 3, `NO_FACET` = 4. -/
def FacetType.toNat : FacetType → Nat
  | FacetType.TRIANGLE => 0
  | FacetType.QUAD => 1
  | FacetType.POLYGON => 2
  | FacetType.ALL => 3
  | FacetType.NO_FACET => 4

/-- Modelled from the spec: the enum `GEO::MeshCellType` of the mesh library,
which the header uses and the sources do not contain; spec 3 lists the cell
types "tet/hex/prism/pyramid/connector", and `MESH_NB_CELL_TYPES`, their number,
stands for "all types" in the default arguments of the header. -/
inductive MeshCellType where
  | MESH_TET
  | MESH_HEX
  | MESH_PRISM
  | MESH_PYRAMID
  | MESH_CONNECTOR
  | MESH_NB_CELL_TYPES
  deriving DecidableEq, Repr

/-- The integer value of a `MeshCellType` enumerator. -/
def MeshCellType.toNat : MeshCellType → Nat
  | MeshCellType.MESH_TET => 0
  | MeshCellType.MESH_HEX => 1
  | MeshCellType.MESH_PRISM => 2
  | MeshCellType.MESH_PYRAMID => 3
  | MeshCellType.MESH_CONNECTOR => 4
  | MeshCellType.MESH_NB_CELL_TYPES => 5

/-- The running offsets of a list of block sizes: the offset `start` of the
first block, then the offset of each following block, then the total. -/
def running_offsets : Nat → List Nat → List Nat
  | start, [] => [start]
  | start, c :: cs => start :: running_offsets (start + c) cs

/-- The number of local elements of each of the `nb_types` types, in the
canonical order of the types, in an entity given by the types of its local
elements. -/
def entity_type_counts (nb_types : Nat) (elements : List Nat) : List Nat :=
  (List.range nb_types).map (fun t => elements.count t)

/-- The sizes of the blocks of the flattened array: for each owning entity in
index order, for each element type in canonical order, the number of local
elements of that type; padded so that the table built on it has
`(#entities + 1) * #types` entries (spec 3). -/
def offset_counts (nb_types : Nat) (entities : List (List Nat)) : List Nat :=
  entities.flatMap (entity_type_counts nb_types) ++ List.replicate (nb_types - 1) 0

/-- Modelled from the spec: the prefix-offset table computed by
`GeoModelMeshFacets::initialize` and `GeoModelMeshCells::initialize`, whose
bodies are missing from the sources. Spec 4.2: "for each owning entity in index
order, for each element type in a fixed canonical order, append that entity's
local elements of that type and record the running offset into the
prefix-offset table". -/
def initialize_ptr (nb_types : Nat) (entities : List (List Nat)) : List Nat :=
  running_offsets 0 (offset_counts nb_types entities)

/-- The class `GeoModelMeshFacets` (its stored fields). -/
structure GeoModelMeshFacets where
  /-- Vector storing the index of the starting facet index for a given surface
  and a given facet type -/
  surface_facet_ptr_ : List Nat
  /-- Number of triangles in the GeoModelMesh -/
  nb_triangle_ : Nat
  /-- Number of quads in the GeoModelMesh -/
  nb_quad_ : Nat
  /-- Number of polygons in the GeoModelMesh -/
  nb_polygon_ : Nat
  deriving DecidableEq, Repr

/-- Modelled from the spec: `GeoModelMeshFacets::initialize` ("Initialize the
facets of the GeoModelMesh and sort them per surface and facet type"), body
missing from the sources. A surface is given by the types of its local facets,
in local order. -/
def GeoModelMeshFacets.initialize (surfaces : List (List FacetType)) : GeoModelMeshFacets :=
  { surface_facet_ptr_ :=
      initialize_ptr FacetType.ALL.toNat (surfaces.map (fun s => s.map FacetType.toNat))
    nb_triangle_ := (surfaces.map (fun s => s.count FacetType.TRIANGLE)).sum
    nb_quad_ := (surfaces.map (fun s => s.count FacetType.QUAD)).sum
    nb_polygon_ := (surfaces.map (fun s => s.count FacetType.POLYGON)).sum }

/-- Modelled from the spec: `GeoModelMeshFacets::nb_facets( s, type )` ("the
number of facets of the corresponding type in the given surface"), body
missing from the sources; read in the prefix-offset table as the length of
the block of `(s, type)`, and for `ALL` as the length of the blocks of `s`. -/
def GeoModelMeshFacets.nb_facets (m : GeoModelMeshFacets) (s : Nat)
    (type : FacetType := FacetType.ALL) : Nat :=
  match type with
  | FacetType.NO_FACET => 0
  | FacetType.ALL =>
      m.surface_facet_ptr_.getD (FacetType.ALL.toNat * (s + 1)) 0
        - m.surface_facet_ptr_.getD (FacetType.ALL.toNat * s) 0
  | t =>
      m.surface_facet_ptr_.getD (FacetType.ALL.toNat * s + t.toNat + 1) 0
        - m.surface_facet_ptr_.getD (FacetType.ALL.toNat * s + t.toNat) 0

/-- Modelled from the spec: `GeoModelMeshFacets::facet( s, f, type )`, body
missing from the sources. Header: "the 2nd quad index of the surface index S
will be found here: surface_facet_ptr_[ALL*S + QUAD] + 2"; with `type = ALL`,
`f` is the index among all the facets of the surface. `NO_FACET` is not a
valid argument. -/
def GeoModelMeshFacets.facet (m : GeoModelMeshFacets) (s f : Nat)
    (type : FacetType := FacetType.ALL) : Nat :=
  match type with
  | FacetType.NO_FACET => NO_ID
  | FacetType.ALL => m.surface_facet_ptr_.getD (FacetType.ALL.toNat * s) 0 + f
  | t => m.surface_facet_ptr_.getD (FacetType.ALL.toNat * s + t.toNat) 0 + f

/-- Modelled from the spec: `GeoModelMeshCells::initialize` ("Initialize the
cells from the cells of the GeoModel Region cells"), body missing from the
sources. A region is given by the types of its local cells, in local order;
no duplication is computed yet. -/
def GeoModelMeshCells.initialize (regions : List (List MeshCellType)) : GeoModelMeshCells :=
  { region_cell_ptr_ :=
      initialize_ptr MeshCellType.MESH_NB_CELL_TYPES.toNat
        (regions.map (fun r => r.map MeshCellType.toNat))
    mode_ := DuplicateMode.NONE
    duplicated_vertex_indices_ := []
    duplicated_corners_ := [] }

/-- Modelled from the spec: `GeoModelMeshCells::nb_cells( r, type )`, body
missing from the sources; read in the prefix-offset table like `nb_facets`. -/
def GeoModelMeshCells.nb_cells (m : GeoModelMeshCells) (r : Nat)
    (type : MeshCellType := MeshCellType.MESH_NB_CELL_TYPES) : Nat :=
  match type with
  | MeshCellType.MESH_NB_CELL_TYPES =>
      m.region_cell_ptr_.getD (MeshCellType.MESH_NB_CELL_TYPES.toNat * (r + 1)) 0
        - m.region_cell_ptr_.getD (MeshCellType.MESH_NB_CELL_TYPES.toNat * r) 0
  | t =>
      m.region_cell_ptr_.getD (MeshCellType.MESH_NB_CELL_TYPES.toNat * r + t.toNat + 1) 0
        - m.region_cell_ptr_.getD (MeshCellType.MESH_NB_CELL_TYPES.toNat * r + t.toNat) 0

/-- Modelled from the spec: `GeoModelMeshCells::cell( r, c, type )`, body
missing from the sources. Header: "the 2nd hex index of the region index R will
be found here: [GEO::MESH_NB_CELL_TYPES*R + HEX] + 2". -/
def GeoModelMeshCells.cell (m : GeoModelMeshCells) (r c : Nat)
    (type : MeshCellType := MeshCellType.MESH_NB_CELL_TYPES) : Nat :=
  match type with
  | MeshCellType.MESH_NB_CELL_TYPES =>
      m.region_cell_ptr_.getD (MeshCellType.MESH_NB_CELL_TYPES.toNat * r) 0 + c
  | t => m.region_cell_ptr_.getD (MeshCellType.MESH_NB_CELL_TYPES.toNat * r + t.toNat) 0 + c

/-- Two surfaces: the first with the facets triangle, quad, triangle, the second
with a polygon and a triangle. -/
def exampleSurfaces : List (List FacetType) :=
  [[FacetType.TRIANGLE, FacetType.QUAD, FacetType.TRIANGLE],
   [FacetType.POLYGON, FacetType.TRIANGLE]]

/-! ## The Adeli exporter (`io_full_geomodel.cpp`) -/

/-- What one `out << x` writes to the output stream: a keyword, an `index_t`,
or the coordinates of a point. The separators `" "` are not recorded, and each
`std::endl` ends a line. -/
inductive Token (P : Type) where
  | str (s : String)
  | num (n : Nat)
  | point (p : P)
  deriving DecidableEq, Repr

/-- A line of the output file. -/
abbrev Line (P : Type) := List (Token P)

/-- What the exporter reads of a `Corner`: `index()`, `nb_vertices()` and
`geomodel.mesh.vertices.geomodel_vertex_id( gme_id(), 0 )`. -/
structure Corner where
  index : Nat
  nb_vertices : Nat
  geomodel_vertex_id : Nat
  deriving DecidableEq, Repr

/-- What the exporter reads of a `GeoModelMeshEntity` (a Line, a Surface or a
Region): `index()` and, for each of its `nb_mesh_elements()` mesh elements
`elt`, the values `geomodel_vertex_id( gme_id(), elt, v )` for
`v < nb_mesh_element_vertices( elt )`. -/
structure GeoModelMeshEntity where
  index : Nat
  mesh_elements : List (List Nat)
  deriving DecidableEq, Repr

/-- What the exporter reads of a `GeoModel`: the points of `mesh.vertices`, the
numbers `mesh.cells.nb()` and `mesh.cells.nb_tet()`, the corners, and the mesh
entities of the other three types. -/
structure GeoModel (P : Type) where
  vertices : List P
  cells_nb : Nat
  cells_nb_tet : Nat
  corners : List Corner
  lines : List GeoModelMeshEntity
  surfaces : List GeoModelMeshEntity
  regions : List GeoModelMeshEntity

/-- `reg_phys`: "The reg phys field in the GMSH format is set to 0 for each
element". -/
def reg_phys : Nat := 0

/-- `adeli_cell_types[4] = { adeli_point_type, adeli_line_type,
adeli_triangle_type, adeli_tet_type }`, that is 15, 1, 2, 4. -/
def adeli_cell_types : List Nat := [15, 1, 2, 4]

/-- `id_offset_adeli`: "The index begins at 1." -/
def id_offset_adeli : Nat := 1

/-- Modelled from the spec: `EntityTypeManager::nb_mesh_entity_types()`, missing
from the sources; the mesh entity types are the corners, lines, surfaces and
regions (spec 1, and the comment of `AdeliIOHandler`), one per entry of
`adeli_cell_types`. -/
def nb_mesh_entity_types : Nat := 4

/-- Modelled from the spec: the mesh entities of the type of index `t` in
`EntityTypeManager::mesh_entity_types()`, missing from the sources: Corner (0),
Line (1), Surface (2), Region (3). The exporter only asks for `t ≥ 1`. -/
def GeoModel.mesh_entities {P : Type} (gm : GeoModel P) (t : Nat) : List GeoModelMeshEntity :=
  match t with
  | 1 => gm.lines
  | 2 => gm.surfaces
  | 3 => gm.regions
  | _ => []

/-- The sum of two `index_t`. -/
def index_add (a b : Nat) : Nat := (a + b) % index_t_size

section Adeli

variable {P : Type}

/-- The loop of `AdeliIOHandler::write_vertices`, from vertex `v` on:
`out << v + id_offset_adeli << " " << geomodel_mesh.vertices.vertex( v )`. -/
def write_vertices_loop : List P → Nat → List (Line P)
  | [], _ => []
  | p :: ps, v =>
    [Token.num (index_add v id_offset_adeli), Token.point p]
      :: write_vertices_loop ps (index_add v 1)

/-- `AdeliIOHandler::write_vertices`. -/
def AdeliIOHandler.write_vertices (gm : GeoModel P) : List (Line P) :=
  [[Token.str "$NOD"], [Token.num gm.vertices.length]]
    ++ write_vertices_loop gm.vertices 0 ++ [[Token.str "$ENDNOD"]]

/-- `AdeliIOHandler::nb_total_elements`: starting from `nb_corners()`, add
`nb_mesh_elements()` of every entity of the types 1 to
`nb_mesh_entity_types() - 1`. -/
def AdeliIOHandler.nb_total_elements (gm : GeoModel P) : Nat :=
  (List.range' 1 (nb_mesh_entity_types - 1)).foldl
    (fun nb t => (gm.mesh_entities t).foldl
      (fun nb e => index_add nb e.mesh_elements.length) nb)
    (gm.corners.length % index_t_size)

/-- The loop of `AdeliIOHandler::write_corners`; `elt` is the running element
id, returned after the loop (it is passed by reference). -/
def write_corners_loop : List Corner → Nat → List (Line P) × Nat
  | [], elt => ([], elt)
  | c :: cs, elt =>
    let r := write_corners_loop cs (index_add elt 1)
    ([Token.num elt, Token.num (adeli_cell_types.getD 0 0), Token.num reg_phys,
       Token.num (index_add c.index id_offset_adeli), Token.num c.nb_vertices,
       Token.num (index_add c.geomodel_vertex_id id_offset_adeli)] :: r.1, r.2)

/-- `AdeliIOHandler::write_corners`. -/
def AdeliIOHandler.write_corners (gm : GeoModel P) (elt : Nat) : List (Line P) × Nat :=
  let r := write_corners_loop gm.corners elt
  ([Token.str "$ELM"] :: [Token.num ( AdeliIOHandler.nb_total_elements gm)] :: r.1, r.2)

/-- The loop of `AdeliIOHandler::write_mesh_elements_for_a_mesh_entity` over the
mesh elements of the entity of index `index`. -/
def write_elements_loop (index cell_descriptor : Nat) :
    List (List Nat) → Nat → List (Line P) × Nat
  | [], elt_id => ([], elt_id)
  | vs :: rest, elt_id =>
    let r := write_elements_loop index cell_descriptor rest (index_add elt_id 1)
    (([Token.num elt_id, Token.num cell_descriptor, Token.num reg_phys,
        Token.num (index_add index id_offset_adeli), Token.num vs.length]
        ++ vs.map (fun v => Token.num (index_add v id_offset_adeli))) :: r.1, r.2)

/-- `AdeliIOHandler::write_mesh_elements_for_a_mesh_entity`. -/
def AdeliIOHandler.write_mesh_elements_for_a_mesh_entity (e : GeoModelMeshEntity)
    (cell_descriptor elt_id : Nat) : List (Line P) × Nat :=
  write_elements_loop e.index cell_descriptor e.mesh_elements elt_id

/-- The inner loop of `AdeliIOHandler::write_mesh_elements`, over the entities
of one type. -/
def write_entities_loop (cell_descriptor : Nat) :
    List GeoModelMeshEntity → Nat → List (Line P) × Nat
  | [], elt => ([], elt)
  | e :: es, elt =>
    let r1 := AdeliIOHandler.write_mesh_elements_for_a_mesh_entity e cell_descriptor elt
    let r2 := write_entities_loop cell_descriptor es r1.2
    (r1.1 ++ r2.1, r2.2)

/-- The outer loop of `AdeliIOHandler::write_mesh_elements`, over the entity
types. -/
def write_types_loop (gm : GeoModel P) : List Nat → Nat → List (Line P) × Nat
  | [], elt => ([], elt)
  | t :: ts, elt =>
    let r1 := write_entities_loop (adeli_cell_types.getD t 0) (gm.mesh_entities t) elt
    let r2 := write_types_loop gm ts r1.2
    (r1.1 ++ r2.1, r2.2)

/-- `AdeliIOHandler::write_mesh_elements`: "Corners are already written so we
start this loop at 1". -/
def AdeliIOHandler.write_mesh_elements (gm : GeoModel P) (elt : Nat) : List (Line P) × Nat :=
  let r := write_types_loop gm (List.range' 1 (nb_mesh_entity_types - 1)) elt
  (r.1 ++ [[Token.str "$ENDELM"]], r.2)

/-- `AdeliIOHandler::save`: the lines written to the file, or the message of the
`RINGMeshException` thrown. -/
def AdeliIOHandler.save (gm : GeoModel P) : Except String (List (Line P)) :=
  if gm.cells_nb ≠ gm.cells_nb_tet then
    Except.error "Adeli supports only tet meshes"
  else
    let r1 := AdeliIOHandler.write_corners gm 1
    let r2 := AdeliIOHandler.write_mesh_elements gm r1.2
    Except.ok ( AdeliIOHandler.write_vertices gm ++ r1.1 ++ r2.1)

/-! ### The numbering the Adeli file is expected to have -/

/-- An element as the Adeli file lists it: its cell type, the index of its
entity, its number of vertices and its vertices (all 0-based). -/
structure AdeliElement where
  cell_type : Nat
  entity : Nat
  nb_vertices : Nat
  vertices : List Nat
  deriving DecidableEq, Repr

/-- The mesh elements of an entity, in local order. -/
def entity_elements (cell_type : Nat) (e : GeoModelMeshEntity) : List AdeliElement :=
  e.mesh_elements.map (fun vs => ⟨cell_type, e.index, vs.length, vs⟩)

/-- The elements of a GeoModel in the order of the Adeli file: the corners,
then the edges of the lines, then the facets of the surfaces, then the cells
of the regions. -/
def adeli_elements (gm : GeoModel P) : List AdeliElement :=
  gm.corners.map (fun c => ⟨15, c.index, c.nb_vertices, [c.geomodel_vertex_id]⟩)
    ++ gm.lines.flatMap (entity_elements 1)
    ++ gm.surfaces.flatMap (entity_elements 2)
    ++ gm.regions.flatMap (entity_elements 4)

/-- The line of an element written with the id `id`: the entity index and the
vertex indices are the 0-based values plus one. -/
def adeli_element_line (id : Nat) (x : AdeliElement) : Line P :=
  [Token.num id, Token.num x.cell_type, Token.num 0, Token.num (x.entity + 1),
    Token.num x.nb_vertices] ++ x.vertices.map (fun v => Token.num (v + 1))

/-- The lines of a list of elements numbered consecutively from `id`. -/
def numbered_from : Nat → List AdeliElement → List (Line P)
  | _, [] => []
  | id, x :: xs => adeli_element_line id x :: numbered_from (id + 1) xs

/-- The lines of a list of points numbered consecutively from `v + 1`. -/
def nodes_from : Nat → List P → List (Line P)
  | _, [] => []
  | v, p :: ps => [Token.num (v + 1), Token.point p] :: nodes_from (v + 1) ps

/-- The element id a line starts with. -/
def element_id : Line P → Option Nat
  | Token.num id :: _ => some id
  | _ => none

/-- The sum of `nb_mesh_elements()` over a list of entities. -/
def nb_mesh_elements_sum (es : List GeoModelMeshEntity) : Nat :=
  (es.map (fun e => e.mesh_elements.length)).sum

/-- The number of elements of a GeoModel, as a natural number: `nb_corners` plus
the sum of `nb_mesh_elements` over all lines, surfaces and regions. -/
def nb_elements (gm : GeoModel P) : Nat :=
  gm.corners.length + nb_mesh_elements_sum gm.lines + nb_mesh_elements_sum gm.surfaces
    + nb_mesh_elements_sum gm.regions

/-- The index of the entity and the vertex indices of its elements are indices,
not `NO_ID`. -/
def entity_indices_valid (e : GeoModelMeshEntity) : Bool :=
  decide (e.index < NO_ID)
    && e.mesh_elements.all (fun vs => vs.all (fun v => decide (v < NO_ID)))

/-- Every entity index and vertex index the exporter reads is an index, not
`NO_ID`. -/
def GeoModel.indices_valid (gm : GeoModel P) : Bool :=
  gm.corners.all (fun c => decide (c.index < NO_ID) && decide (c.geomodel_vertex_id < NO_ID))
    && gm.lines.all entity_indices_valid && gm.surfaces.all entity_indices_valid
    && gm.regions.all entity_indices_valid

end Adeli

/-- A GeoModel with one tetrahedron: two corners, one line with one edge, two
surfaces with one triangle each, one region with one tetrahedron. -/
def exampleGeoModel : GeoModel (Int × Int × Int) :=
  { vertices := [(0, 0, 0), (1, 0, 0), (0, 1, 0), (0, 0, 1)]
    cells_nb := 1, cells_nb_tet := 1
    corners := [⟨0, 1, 0⟩, ⟨1, 1, 1⟩]
    lines := [⟨0, [[0, 1]]⟩]
    surfaces := [⟨0, [[0, 1, 2]]⟩, ⟨1, [[0, 1, 3]]⟩]
    regions := [⟨0, [[0, 1, 2, 3]]⟩] }

/-! ## GeoModelMeshVertices: the unique vertices -/

/-- Modelled from the spec: the class `GMEVertex` of `geo_model_element.h`, which
the sources do not contain: "index of GME and of the vertex in that GME"
(header), the `EntityVertexRef` = (entity-type, entity-index,
local-vertex-index) of spec 3. -/
structure GMEVertex where
  entity_type : Nat
  entity_index : Nat
  v_id : Nat
  deriving DecidableEq, Repr

/-- The class `GeoModelMeshVertices`: the points of `mesh_.vertices`, the field
`gme_vertices_` ("vertices in GeoModelElements corresponding to each vertex"),
and, of the attached GeoModel `gm_`, the index of a unique vertex that each
entity stores for each of its local vertices (the "model_vertx_id in the
GeoModelMeshElement" of the header, the "local-to-global mapping" of spec 3),
as the list of its entries. -/
structure GeoModelMeshVertices (P : Type) where
  points : List P
  gme_vertices_ : List (List GMEVertex)
  model_vertex_id_ : List (GMEVertex × Nat)
  deriving Repr

section Vertices

variable {P : Type}

/-- Modelled from the spec: `GeoModelMeshVertices::nb` ("Number of vertices
stored"), on an initialized store. -/
def GeoModelMeshVertices.nb (s : GeoModelMeshVertices P) : Nat := s.points.length

/-- Modelled from the spec: `GeoModelMeshVertices::gme_vertices` ("Get the
vertices in GME corresponding to the given unique vertex"). -/
def GeoModelMeshVertices.gme_vertices (s : GeoModelMeshVertices P) (v : Nat) : List GMEVertex :=
  s.gme_vertices_.getD v []

/-- The vertex `v` is kept by `erase_vertices( to_delete )`. Spec 4.1:
"`mapping[v]` is either `NONE` (keep `v`, assign it a new compacted index) or
the index of another vertex `v'` with which `v` is merged". An entry equal to
`v` itself, which the precondition "`mapping[v]` is `NONE` or ≤ `v`" allows,
names no other vertex: `v` is kept as well. -/
def is_kept (to_delete : List Nat) (v : Nat) : Bool :=
  to_delete.getD v NO_ID == NO_ID || to_delete.getD v NO_ID == v

/-- The kept vertices among the first `n`, in increasing order. -/
def kept_vertices (to_delete : List Nat) (n : Nat) : List Nat :=
  (List.range n).filter (is_kept to_delete)

/-- The new, compacted index of a kept vertex: the number of kept vertices
before it. -/
def compacted_index (to_delete : List Nat) (v : Nat) : Nat :=
  ((List.range v).filter (is_kept to_delete)).length

/-- The vertex reached from `v` by going from a vertex to the vertex it is
merged with, `fuel` times at most, until a kept vertex is met. -/
def survivor (to_delete : List Nat) : Nat → Nat → Nat
  | 0, v => v
  | fuel + 1, v =>
    if is_kept to_delete v then v else survivor to_delete fuel (to_delete.getD v NO_ID)

/-- The kept vertex that holds the vertex `v` after the merges: `v` itself when
it is kept, and otherwise the kept vertex that holds the vertex `v` is merged
with. Under the precondition every step goes to a smaller index, so `v` steps
are enough. -/
def merged_with (to_delete : List Nat) (v : Nat) : Nat :=
  survivor to_delete v v

/-- The mapping between old and new vertex indices that `to_delete` is
overwritten with (spec 4.1: "the old→new index translation"): the compacted
index of the kept vertex that holds `v`. -/
def old2new (to_delete : List Nat) (v : Nat) : Nat :=
  compacted_index to_delete (merged_with to_delete v)

/-- The vertices among the first `n` other than `v` that end up merged with the
kept vertex `v`, in increasing order. -/
def merged_into (to_delete : List Nat) (n v : Nat) : List Nat :=
  (List.range n).filter (fun w => decide (w ≠ v ∧ merged_with to_delete w = v))

/-- Modelled from the spec: `GeoModelMeshVertices::erase_vertices`, the
`erase(mapping)` of spec 4.1, whose body is missing from the sources.
"`mapping[v]` is either `NONE` (keep `v`, assign it a new compacted index) or
the index of another vertex `v'` with which `v` is merged (its back-references
are appended to `v'`'s and `v` is dropped). Precondition: `mapping[v]` is
`NONE` or ≤ `v`. Postcondition: `mapping` is overwritten in place to hold the
old→new index translation", and the operation updates "for every
surviving/merged vertex, the local vertex index stored in every entity whose
local mesh used the old global index". When `v'` is merged in its turn, the
back-references appended to it go with its own. The result is the new state
and the overwritten `to_delete`. -/
def GeoModelMeshVertices.erase_vertices (to_delete : List Nat) (s : GeoModelMeshVertices P) :
    GeoModelMeshVertices P × List Nat :=
  ({ points := (kept_vertices to_delete s.nb).filterMap (fun v => s.points[v]?)
     gme_vertices_ := (kept_vertices to_delete s.nb).map (fun v =>
        s.gme_vertices v ++ (merged_into to_delete s.nb v).flatMap s.gme_vertices)
     model_vertex_id_ := s.model_vertex_id_.map (fun rg => (rg.1, old2new to_delete rg.2)) },
   (List.range s.nb).map (old2new to_delete))

section Colocation

variable {D : Type} [LinearOrder D]

/-- The lowest index of the colocated group of the vertex `v`, of point `p`:
the first vertex at distance `< ε` of `p`, and `v` itself when no vertex before
it is. `dist` is the distance the spatial index is queried with. -/
def lowest_colocated (dist : P → P → D) (ε : D) (points : List P) (v : Nat) (p : P) : Nat :=
  min v (points.findIdx (fun q => decide (dist p q < ε)))

/-- The `to_delete` vector of the colocation removal: every vertex is sent to
the lowest index of its colocated group. -/
def colocated_to_delete (dist : P → P → D) (ε : D) (points : List P) : List Nat :=
  points.enum.map (fun vp => lowest_colocated dist ε points vp.1 vp.2)

/-- Modelled from the spec: `GeoModelMeshVertices::remove_colocated` ("Remove
colocated vertices"), body missing from the sources. Spec 4.1: "query each
vertex's neighbors within ε, merge greater indices into the lowest index of
the colocated group (stable tie-break: lowest index survives), drop merged
duplicates, and rewrite every entity's local vertex index table to point at
the surviving global index". -/
def GeoModelMeshVertices.remove_colocated (dist : P → P → D) (ε : D)
    (s : GeoModelMeshVertices P) : GeoModelMeshVertices P :=
  (s.erase_vertices (colocated_to_delete dist ε s.points)).1

/-- The first step of the initial build (spec 4.1): "concatenate every local
vertex of every corner/line/surface entity into the unique array in
entity-then-local order". `entity_vertices` lists these local vertices in that
order, each with its point. -/
def GeoModelMeshVertices.fill (entity_vertices : List (GMEVertex × P)) :
    GeoModelMeshVertices P :=
  { points := entity_vertices.map Prod.snd
    gme_vertices_ := entity_vertices.map (fun e => [e.1])
    model_vertex_id_ := entity_vertices.enum.map (fun ie => (ie.2.1, ie.1)) }

/-- Modelled from the spec: `GeoModelMeshVertices::initialize` ("Initialize the
vertices from the vertices of the GeoModel Corners, Lines, and Surfaces.
Fills the mesh_.vertices, gme_vertices_ and delete colocated vertices"), body
missing from the sources; the initial build algorithm of spec 4.1. -/
def GeoModelMeshVertices.initialize (dist : P → P → D) (ε : D)
    (entity_vertices : List (GMEVertex × P)) : GeoModelMeshVertices P :=
  ( GeoModelMeshVertices.fill entity_vertices).remove_colocated dist ε

/-- Modelled from the spec: `GeoModelMeshVertices::index` ("Returns the index of
the given vertex in the model if found (distance < epsilon), otherwise
NO_ID"), body missing from the sources. Spec 4.1: "nearest-neighbor query
against the spatial index; returns a match only if distance < ε". -/
def GeoModelMeshVertices.index (dist : P → P → D) (ε : D) (s : GeoModelMeshVertices P)
    (p : P) : Nat :=
  match s.points.enum.argmin (fun iq => dist p iq.2) with
  | some iq => if dist p iq.2 < ε then iq.1 else NO_ID
  | none => NO_ID

end Colocation

end Vertices

/-- Points with integer coordinates, on which distances are computed exactly. -/
abbrev vec3 := Int × Int × Int

/-- The squared distance of two points; it is compared with the squared
tolerance. -/
def length2 (p q : vec3) : Int :=
  (p.1 - q.1) * (p.1 - q.1) + (p.2.1 - q.2.1) * (p.2.1 - q.2.1)
    + (p.2.2 - q.2.2) * (p.2.2 - q.2.2)

/-- Four unique vertices: two corners, the two ends of a line, a vertex of a
second line. -/
def fourVertices : GeoModelMeshVertices vec3 :=
  { points := [(0, 0, 0), (0, 0, 0), (3, 0, 0), (3, 0, 0)]
    gme_vertices_ := [[⟨0, 0, 0⟩], [⟨1, 0, 0⟩], [⟨0, 1, 0⟩, ⟨1, 0, 1⟩], [⟨1, 1, 0⟩]]
    model_vertex_id_ := [(⟨0, 0, 0⟩, 0), (⟨1, 0, 0⟩, 1), (⟨0, 1, 0⟩, 2), (⟨1, 0, 1⟩, 2),
      (⟨1, 1, 0⟩, 3)] }

/-- Scenario A of the spec: two corners, each with the point (0, 0, 0). -/
def twoCorners : List (GMEVertex × vec3) :=
  [(⟨0, 0, 0⟩, (0, 0, 0)), (⟨0, 1, 0⟩, (0, 0, 0))]

/-- Three corners on a line, at the abscissas 0, 2 and 5. -/
def threeCorners : List (GMEVertex × vec3) :=
  [(⟨0, 0, 0⟩, (0, 0, 0)), (⟨0, 1, 0⟩, (2, 0, 0)), (⟨0, 2, 0⟩, (5, 0, 0))]

/-! ## The exporters: what is written when `save` throws -/

section AdeliWritten

variable {P : Type}

/-- The lines that `AdeliIOHandler::save` has written to `out` when it returns
or throws. The stream is opened first; the `throw` comes before
`write_vertices`, the first statement that writes to it. -/
def AdeliIOHandler.save_written (gm : GeoModel P) : List (Line P) :=
  if gm.cells_nb ≠ gm.cells_nb_tet then
    []
  else
    let r1 := AdeliIOHandler.write_corners gm 1
    let r2 := AdeliIOHandler.write_mesh_elements gm r1.2
    AdeliIOHandler.write_vertices gm ++ r1.1 ++ r2.1

end AdeliWritten

/-- A GeoModel whose only cell is a hexahedron: `cells.nb()` is 1 and
`cells.nb_tet()` is 0. -/
def hexGeoModel : GeoModel (Int × Int × Int) :=
  { vertices := [(0, 0, 0), (1, 0, 0), (1, 1, 0), (0, 1, 0), (0, 0, 1), (1, 0, 1), (1, 1, 1),
      (0, 1, 1)]
    cells_nb := 1, cells_nb_tet := 0
    corners := [⟨0, 1, 0⟩]
    lines := []
    surfaces := []
    regions := [⟨0, [[0, 1, 2, 3, 4, 5, 6, 7]]⟩] }

/-! ## The MFEM exporter (`io_full_geomodel.cpp`) -/

/-- `cell_type_mfem[4] = { 4, 5, NO_ID, NO_ID }`: "Convert the cell type of
RINGMesh to the MFEM one; NO_ID for pyramids and prims because there are not
supported by MFEM". -/
def cell_type_mfem : List Nat := [4, 5, NO_ID, NO_ID]

/-- `facet_type_mfem[3] = { 2, 3, NO_ID }`. -/
def facet_type_mfem : List Nat := [2, 3, NO_ID]

/-- `cell2mfem[8] = { 0, 1, 3, 2, 4, 5, 7, 6 }`: "Convert the numerotation from
RINGMesh to MFEM". -/
def cell2mfem : List Nat := [0, 1, 3, 2, 4, 5, 7, 6]

/-- `mfem_offset`: "MFEM works with Surface and Region index begin with 1". -/
def mfem_offset : Nat := 1

/-- `MFEMIOHandler::dimension`. -/
def MFEMIOHandler.dimension : Nat := 3

/-- What the MFEM exporter reads of a cell `c` of the `GeoModelMesh`:
`cells.region( c )`, `cells.type( c )` as an integer, and `cells.vertex( c, v )`
for `v < cells.nb_vertices( c )`. -/
structure MeshCell where
  region : Nat
  type : Nat
  vertices : List Nat
  deriving DecidableEq, Repr

/-- What the MFEM exporter reads of a facet `f` of the `GeoModelMesh`:
`facets.surface( f )`, `facets.type( f, _ )` as an integer, and
`facets.vertex( f, v )` for `v < facets.nb_vertices( f )`. -/
structure MeshFacet where
  surface : Nat
  type : Nat
  vertices : List Nat
  deriving DecidableEq, Repr

/-- What the MFEM exporter reads of `geomodel.mesh`: the cells (`cells.nb()` is
their number), the counters `cells.nb_tet()` and `cells.nb_hex()`, the facets
and the points of the vertices. -/
structure MeshView (P : Type) where
  cells : List MeshCell
  cells_nb_tet : Nat
  cells_nb_hex : Nat
  facets : List MeshFacet
  vertices : List P

section MFEM

variable {P : Type}

/-- `MFEMIOHandler::write_header`. An empty line is `out << std::endl`. -/
def MFEMIOHandler.write_header (_m : MeshView P) : List (Line P) :=
  [[Token.str "MFEM mesh v1.0"], [], [Token.str "dimension"],
    [Token.num MFEMIOHandler.dimension], []]

/-- `MFEMIOHandler::write_cells`. Reading an array past its end is undefined in
the program; here it reads `NO_ID`. -/
def MFEMIOHandler.write_cells (m : MeshView P) : List (Line P) :=
  [[Token.str "elements"], [Token.num m.cells.length]]
    ++ m.cells.map (fun c =>
        [Token.num (index_add c.region mfem_offset),
          Token.num (cell_type_mfem.getD c.type NO_ID)]
          ++ (List.range c.vertices.length).map (fun v =>
              Token.num (c.vertices.getD (cell2mfem.getD v NO_ID) NO_ID)))
    ++ [[]]

/-- `MFEMIOHandler::write_facets`. -/
def MFEMIOHandler.write_facets (m : MeshView P) : List (Line P) :=
  [[Token.str "boundary"], [Token.num m.facets.length]]
    ++ m.facets.map (fun f =>
        [Token.num (index_add f.surface mfem_offset),
          Token.num (facet_type_mfem.getD f.type NO_ID)]
          ++ f.vertices.map Token.num)
    ++ [[]]

/-- `MFEMIOHandler::write_vertices`. -/
def MFEMIOHandler.write_vertices (m : MeshView P) : List (Line P) :=
  [[Token.str "vertices"], [Token.num m.vertices.length],
    [Token.num MFEMIOHandler.dimension]]
    ++ m.vertices.map (fun p => [Token.point p])

/-- `MFEMIOHandler::save`: the content of the file written, or the message of
the `RINGMeshException` thrown. The test and the `throw` come before
`std::ofstream out( filename.c_str() )`: when it throws, the file is not even
opened. -/
def MFEMIOHandler.save (m : MeshView P) : Except String (List (Line P)) :=
  let nb_cells := m.cells.length
  if m.cells_nb_tet ≠ nb_cells ∧ m.cells_nb_hex ≠ nb_cells then
    Except.error "Export to MFEM format works only with full tet or full hex format"
  else
    Except.ok ( MFEMIOHandler.write_header m ++ MFEMIOHandler.write_cells m
      ++ MFEMIOHandler.write_facets m ++ MFEMIOHandler.write_vertices m)

/-- The output file after `MFEMIOHandler::save` has returned or thrown: `none`
when it was never opened, its lines otherwise. -/
def MFEMIOHandler.save_file (m : MeshView P) : Option (List (Line P)) :=
  let nb_cells := m.cells.length
  if m.cells_nb_tet ≠ nb_cells ∧ m.cells_nb_hex ≠ nb_cells then
    none
  else
    some ( MFEMIOHandler.write_header m ++ MFEMIOHandler.write_cells m
      ++ MFEMIOHandler.write_facets m ++ MFEMIOHandler.write_vertices m)

end MFEM

/-- A mesh of one tetrahedron and one prism: neither all tets nor all hexes. -/
def mixedMesh : MeshView (Int × Int × Int) :=
  { cells := [⟨0, 0, [0, 1, 2, 3]⟩, ⟨0, 2, [0, 1, 2, 4, 5, 6]⟩]
    cells_nb_tet := 1
    cells_nb_hex := 0
    facets := [⟨0, 0, [0, 1, 2]⟩]
    vertices := [(0, 0, 0), (1, 0, 0), (0, 1, 0), (0, 0, 1), (0, 0, 2), (1, 0, 2), (0, 1, 2)] }

/-- A mesh of one tetrahedron. -/
def tetMesh : MeshView (Int × Int × Int) :=
  { cells := [⟨0, 0, [0, 1, 2, 3]⟩]
    cells_nb_tet := 1
    cells_nb_hex := 0
    facets := [⟨0, 0, [0, 1, 2]⟩]
    vertices := [(0, 0, 0), (1, 0, 0), (0, 1, 0), (0, 0, 1)] }

/-! ## The Gocad TSolid builder (`geomodel_builder_gocad.cpp`) -/

section CellFacetCenters

variable {P : Type}

/-- `compute_region_cell_facet_centers`: for each of the `nb_cells` cells of the
region, for `f` from 0 to 3, push `region.cell_facet_barycenter( c, f )`. The
barycenter function of the region is an argument. -/
def compute_region_cell_facet_centers (cell_facet_barycenter : Nat → Nat → P)
    (nb_cells : Nat) : List P :=
  (List.range nb_cells).flatMap (fun c =>
    (List.range 4).map (fun f => cell_facet_barycenter c f))

/-- The first two statements of `determine_surface_side_to_add`:
```
index_t local_facet_id = cell_facet_center_id % 4 ;
index_t cell_id = ( cell_facet_center_id - local_facet_id ) / 4 ;
```
The result is the pair `(cell_id, local_facet_id)`. -/
def cell_and_facet_of_center_id (cell_facet_center_id : Nat) : Nat × Nat :=
  let local_facet_id := cell_facet_center_id % 4
  let cell_id := (cell_facet_center_id - local_facet_id) / 4
  (cell_id, local_facet_id)

/-- `determine_surface_side_to_add` for a given region and surface:
`same_direction cell_id local_facet_id` stands for
`dot( first_facet_normal, cell_facet_normal( cell_id, local_facet_id ) ) > 0`,
a test on floating-point vectors. -/
def determine_surface_side_to_add (same_direction : Nat → Nat → Bool)
    (cell_facet_center_id : Nat) : Bool :=
  same_direction (cell_and_facet_of_center_id cell_facet_center_id).1
    (cell_and_facet_of_center_id cell_facet_center_id).2

end CellFacetCenters

/-- `GOCAD_OFFSET = 1`: the indices of a Gocad file begin at 1. -/
def GOCAD_OFFSET : Nat := 1

/-- The difference of two `index_t`. -/
def index_sub (a b : Nat) : Nat := (a + index_t_size - b % index_t_size) % index_t_size

/-- The class `VertexMap` ("Map between Gocad and GeoModel vertex indices"),
declared in a header that the sources do not contain, as its uses describe
it: entry `i` gives, for the Gocad vertex `i`, its local index in a region
(`local_id( i )`) and that region (`region( i )`); `add_vertex` appends an
entry. -/
structure VertexMap where
  entries : List (Nat × Nat)
  deriving DecidableEq, Repr

/-- `VertexMap::local_id`. Reading past the end is undefined in the program;
here it reads `NO_ID`. -/
def VertexMap.local_id (m : VertexMap) (id : Nat) : Nat :=
  (m.entries.getD id (NO_ID, NO_ID)).1

/-- `VertexMap::region`. -/
def VertexMap.region (m : VertexMap) (id : Nat) : Nat :=
  (m.entries.getD id (NO_ID, NO_ID)).2

/-- `VertexMap::add_vertex`. -/
def VertexMap.add_vertex (m : VertexMap) (local_vertex_id region_id : Nat) : VertexMap :=
  { entries := m.entries ++ [(local_vertex_id, region_id)] }

section Atom

variable {P : Type}

/-- `LoadTSAtomic::read_and_add_atom_to_region_vertices`. `field2` is
`line.field_as_uint( 2 )`, and `region_vertex r v` is
`geomodel.region( r ).vertex( v )`. The result is the new `region_vertices` and
the new `vertex_map`. -/
def read_and_add_atom_to_region_vertices (region_vertex : Nat → Nat → P) (field2 : Nat)
    (region_id : Nat) (region_vertices : List P) (vertex_map : VertexMap) :
    List P × VertexMap :=
  let referring_vertex := index_sub field2 GOCAD_OFFSET
  let referred_vertex_local_id := vertex_map.local_id referring_vertex
  let referred_vertex_region_id := vertex_map.region referring_vertex
  if referred_vertex_region_id < region_id then
    let index := region_vertices.length % index_t_size
    (region_vertices ++ [region_vertex referred_vertex_region_id referred_vertex_local_id],
      vertex_map.add_vertex index region_id)
  else
    (region_vertices,
      vertex_map.add_vertex referred_vertex_local_id referred_vertex_region_id)

end Atom

/-- A vertex map with the two vertices of region 0 and one of region 1. -/
def exampleVertexMap : VertexMap := { entries := [(0, 0), (1, 0), (0, 1)] }

/-! ### Linking surfaces and region boundaries -/

/-- What `add_surface_to_region_boundaries` has done for one surface: the calls
`fill_region_and_surface_boundaries_links( region_id, surface_id, side )` made,
as the pairs `(region_id, side)` in order; the value of `cur_region` when the
loop stops, that is the number of regions scanned; the final
`nb_added_surf_sides`; and whether a `ringmesh_assert_not_reached` was
reached. -/
structure SurfaceLinks where
  links : List (Nat × Bool)
  cur_region : Nat
  nb_added_surf_sides : Nat
  assert_not_reached : Bool
  deriving DecidableEq, Repr

/-- `add_surface_sides_to_region_boundaries`: one side when one cell facet
center is colocated, both sides when two are, and `ringmesh_assert_not_reached`
otherwise. `side_to_add region_id id` is `determine_surface_side_to_add` for
this surface. The result is the links added and whether the assertion was
reached. -/
def add_surface_sides_to_region_boundaries (side_to_add : Nat → Nat → Bool)
    (region_id : Nat) (colocated_cell_facet_centers : List Nat) : List (Nat × Bool) × Bool :=
  match colocated_cell_facet_centers with
  | [id] => ([(region_id, side_to_add region_id id)], false)
  | [_, _] => ([(region_id, true), (region_id, false)], false)
  | _ => ([], true)

/-- The `while` loop of `add_surface_to_region_boundaries`, from the region
`cur_region` on. `neighbors` lists, for each region still to scan, the
`colocated_cell_facet_centers` that `are_surface_sides_region_boundaries` finds
in it (the answer of the spatial index of the region). -/
def add_surface_to_region_boundaries_loop (side_to_add : Nat → Nat → Bool) :
    List (List Nat) → Nat → Nat → SurfaceLinks
  | [], cur_region, nb_added_surf_sides =>
    { links := [], cur_region := cur_region, nb_added_surf_sides := nb_added_surf_sides,
      assert_not_reached := false }
  | colocated :: rest, cur_region, nb_added_surf_sides =>
    if nb_added_surf_sides < 2 then
      let nb_surf_sides_are_boundary := colocated.length % index_t_size
      if nb_surf_sides_are_boundary > 0 then
        let added := add_surface_sides_to_region_boundaries side_to_add cur_region colocated
        let r := add_surface_to_region_boundaries_loop side_to_add rest
          (index_add cur_region 1) (index_add nb_added_surf_sides nb_surf_sides_are_boundary)
        { r with links := added.1 ++ r.links,
                 assert_not_reached := added.2 || r.assert_not_reached }
      else
        add_surface_to_region_boundaries_loop side_to_add rest (index_add cur_region 1)
          nb_added_surf_sides
    else
      { links := [], cur_region := cur_region, nb_added_surf_sides := nb_added_surf_sides,
        assert_not_reached := false }

/-- `add_surface_to_region_boundaries` for one surface; `neighbors` has one
entry per region of the GeoModel. After the loop,
`if( nb_added_surf_sides == 0 ) ringmesh_assert_not_reached`. -/
def add_surface_to_region_boundaries (side_to_add : Nat → Nat → Bool)
    (neighbors : List (List Nat)) : SurfaceLinks :=
  let r := add_surface_to_region_boundaries_loop side_to_add neighbors 0 0
  { r with assert_not_reached := r.assert_not_reached || decide (r.nb_added_surf_sides = 0) }

/-- The number of cell facet centers found colocated in the first `k` regions. -/
def nb_sides_found (neighbors : List (List Nat)) (k : Nat) : Nat :=
  ((neighbors.take k).map List.length).sum

/-- Five regions: the surface touches the second with one side, the fourth and
the fifth with one side each. -/
def exampleNeighbors : List (List Nat) := [[], [5], [], [2], [1]]

/-! ### Boundaries of the Universe -/

/-- The body of the loops of `determine_if_surface_sides_bound_regions` for one
boundary `(boundary( s ).index(), side( s ))` of a region: entry `2 * index + 1`
is set for the side `true` and entry `2 * index` for the side `false`. -/
def set_surface_side (surface_sides : List Bool) (boundary : Nat × Bool) : List Bool :=
  if boundary.2 then
    surface_sides.set ((2 * boundary.1 + 1) % index_t_size) true
  else
    surface_sides.set ((2 * boundary.1) % index_t_size) true

/-- `determine_if_surface_sides_bound_regions`; a region is the list of its
boundaries, each the index of the surface and the side. -/
def determine_if_surface_sides_bound_regions (regions : List (List (Nat × Bool)))
    (surface_sides : List Bool) : List Bool :=
  regions.foldl (fun ss r => r.foldl set_surface_side ss) surface_sides

/-- `add_surfaces_to_universe_boundaries`: the calls
`add_universe_boundary( s, side )` made, in order. -/
def add_surfaces_to_universe_boundaries (surface_sides : List Bool) (nb_surfaces : Nat) :
    List (Nat × Bool) :=
  (List.range nb_surfaces).flatMap fun s =>
    if surface_sides.getD ((2 * s) % index_t_size) false
        && !surface_sides.getD ((2 * s + 1) % index_t_size) false then
      [(s, false)]
    else if !surface_sides.getD ((2 * s) % index_t_size) false
        && surface_sides.getD ((2 * s + 1) % index_t_size) false then
      [(s, true)]
    else
      []

/-- `compute_universe_boundaries` of a GeoModel with `nb_surfaces` surfaces and
the given regions. -/
def compute_universe_boundaries (nb_surfaces : Nat) (regions : List (List (Nat × Bool))) :
    List (Nat × Bool) :=
  let surface_sides := List.replicate ((2 * nb_surfaces) % index_t_size) false
  add_surfaces_to_universe_boundaries
    (determine_if_surface_sides_bound_regions regions surface_sides) nb_surfaces

/-- Three surfaces and two regions: surface 0 bounds the first region with its
`true` side, surface 1 separates the two regions, surface 2 bounds the second
region with its `false` side. -/
def exampleRegions : List (List (Nat × Bool)) := [[(0, true), (1, true)], [(1, false), (2, false)]]

/-! ### Points and facets of a TSolid surface -/

/-- The method `resize( n )` of a vector: the first `n` entries are kept and
the vector is completed with `fill`. -/
def resize {α : Type} (v : List α) (n : Nat) (fill : α) : List α :=
  v.take n ++ List.replicate (n - v.length) fill

section SurfacePoints
variable {P : Type}

/-- `get_point_from_gocad_id`: the vertex of the region that the map gives for
the Gocad index. -/
def get_point_from_gocad_id (region_vertex : Nat → Nat → P) (vertex_map : VertexMap)
    (point_gocad_id : Nat) : P :=
  let point_local_id := vertex_map.local_id point_gocad_id
  let point_region := vertex_map.region point_gocad_id
  region_vertex point_region point_local_id

/-- The three vectors that `get_surface_point_and_facet_from_gocad_index`
updates. -/
structure SurfaceVectors (P : Type) where
  gocad_vertices2cur_surf_points : List Nat
  cur_surf_points : List P
  cur_surf_facets : List Nat

/-- `get_surface_point_and_facet_from_gocad_index`. -/
def get_surface_point_and_facet_from_gocad_index (region_vertex : Nat → Nat → P)
    (vertex_map : VertexMap) (vertex_gocad_id : Nat) (b : SurfaceVectors P) :
    SurfaceVectors P :=
  let gocad_vertices2cur_surf_points :=
    if vertex_gocad_id ≥ b.gocad_vertices2cur_surf_points.length then
      resize b.gocad_vertices2cur_surf_points ((vertex_gocad_id + 1) % index_t_size) NO_ID
    else
      b.gocad_vertices2cur_surf_points
  if gocad_vertices2cur_surf_points.getD vertex_gocad_id NO_ID = NO_ID then
    let point := get_point_from_gocad_id region_vertex vertex_map vertex_gocad_id
    let index := b.cur_surf_points.length % index_t_size
    { gocad_vertices2cur_surf_points := gocad_vertices2cur_surf_points.set vertex_gocad_id index,
      cur_surf_points := b.cur_surf_points ++ [point],
      cur_surf_facets := b.cur_surf_facets ++ [index] }
  else
    { gocad_vertices2cur_surf_points := gocad_vertices2cur_surf_points,
      cur_surf_points := b.cur_surf_points,
      cur_surf_facets := b.cur_surf_facets
        ++ [gocad_vertices2cur_surf_points.getD vertex_gocad_id NO_ID] }

/-- `get_surface_points_and_facets_from_gocad_indices`, for the corners
`cur_surf_facet_corners_gocad_id_` of the loading storage and the vectors
`cur_surf_points` and `cur_surf_facets` of the caller. -/
def get_surface_points_and_facets_from_gocad_indices (region_vertex : Nat → Nat → P)
    (vertex_map : VertexMap) (cur_surf_facet_corners_gocad_id_ : List Nat)
    (cur_surf_points : List P) (cur_surf_facets : List Nat) : SurfaceVectors P :=
  cur_surf_facet_corners_gocad_id_.foldl
    (fun b corner_gocad_id =>
      get_surface_point_and_facet_from_gocad_index region_vertex vertex_map corner_gocad_id b)
    { gocad_vertices2cur_surf_points := [],
      cur_surf_points := cur_surf_points,
      cur_surf_facets := cur_surf_facets }

end SurfacePoints

/-- The distinct values of a list in the order of their first occurrence, the
"unique" ids of which the claim on surface points speaks. -/
def first_occurrences : List Nat → List Nat
  | [] => []
  | a :: l => a :: (first_occurrences l).filter (fun b => decide (b ≠ a))

/-! ### Contacts of a Gocad model -/

section Contacts
variable {G : Type} [LinearOrder G]

/-- The method `insert` of a `std::set`, held as the increasing list of its
elements: a value already present is not inserted again. -/
def set_insert (s : List G) (g : G) : List G :=
  if g ∈ s then s else s.orderedInsert (· ≤ ·) g

/-- The call `std::equal( first1, last1, first2 )`: the elements of the first
range are equal, one by one, to those of the range starting at `first2`. -/
def std_equal (range1 range2 : List G) : Bool :=
  (range1.zip range2).all fun p => p.1 == p.2

/-- The result of `GeoModelBuilderGocad::build_contacts`: the vector
`interfaces`, one set of Interfaces per Contact created, and the calls
`geology.add_geological_entity_child( contact_id, i )` made, as the pairs
(index of the Contact, index of the Line). -/
structure Contacts (G : Type) where
  interfaces : List (List G)
  children : List (Nat × Nat)

/-- The first loop of the body of `build_contacts`: the set `cur_interfaces` of
the parent Interfaces of the surfaces `in_boundary` of a line. -/
def cur_interfaces (parent_interface : Nat → G) (in_boundary : List Nat) : List G :=
  in_boundary.foldl (fun cur S => set_insert cur (parent_interface S)) []

/-- The second loop of the body of `build_contacts`: the index of the first set
of `interfaces` equal to `cur`, or `none` when `contact_id` stays undefined. -/
def find_contact (cur : List G) : List (List G) → Nat → Option Nat
  | [], _ => none
  | s :: rest, j =>
    if cur.length = s.length && std_equal cur s then some j else find_contact cur rest (j + 1)

/-- The body of the loop of `build_contacts` for the line `i`. A Contact
created has the index `interfaces.size()`, as the assertion after
`create_geological_entity` states. -/
def build_contacts_line (parent_interface : Nat → G) (c : Contacts G) (i : Nat)
    (in_boundary : List Nat) : Contacts G :=
  let cur := cur_interfaces parent_interface in_boundary
  match find_contact cur c.interfaces 0 with
  | some j => { interfaces := c.interfaces, children := c.children ++ [(j, i)] }
  | none =>
    { interfaces := c.interfaces ++ [cur],
      children := c.children ++ [(c.interfaces.length, i)] }

/-- The loop of `build_contacts` from the line `i` on. The counters `i` and `j`
stay below `nb_lines()`, itself an `index_t`, so they are not reduced modulo
`2 ^ 32`. -/
def build_contacts_loop (parent_interface : Nat → G) :
    List (List Nat) → Nat → Contacts G → Contacts G
  | [], _, c => c
  | in_boundary :: rest, i, c =>
    build_contacts_loop parent_interface rest (i + 1)
      (build_contacts_line parent_interface c i in_boundary)

/-- `GeoModelBuilderGocad::build_contacts` on a model without contacts;
`lines` gives for each line the surfaces of its `in_boundary` and
`parent_interface` the parent Interface of a surface. -/
def build_contacts (parent_interface : Nat → G) (lines : List (List Nat)) : Contacts G :=
  build_contacts_loop parent_interface lines 0 { interfaces := [], children := [] }

end Contacts

/-- The set of the parent Interfaces of the surfaces around a line. -/
def interface_set {G : Type} [DecidableEq G] (parent_interface : Nat → G)
    (in_boundary : List Nat) : Finset G :=
  (in_boundary.map parent_interface).toFinset

/-- Four surfaces with the parent interfaces 0, 1, 0, 2. -/
def exampleParent (S : Nat) : Nat := [0, 1, 0, 2].getD S 0

/-- Four lines: the first, the second and the fourth lie between the
interfaces 0 and 1, the third on the interface 2 alone. -/
def exampleLines : List (List Nat) := [[0, 1], [1, 2], [3], [1, 0, 2]]

/-! ## The Tetgen mesher

`TetgenMesher` of `tetgen_mesher.cpp` reads the tetrahedra that Tetgen wrote to
`tetgen_out_` and keeps those of the regions that touch the exterior. -/

/-- The fields of the Tetgen output structure that the mesher reads. The arrays
are C pointers, taken as functions of the position; `D` stands for `double`,
the type of the region attribute of a tetrahedron, with the equality under
which `std::set< double >` finds a value. -/
structure tetgenio (D : Type) where
  numberoftetrahedra : Int
  tetrahedronlist : Nat → Int
  tetrahedronattributelist : Nat → D
  neighborlist : Nat → Int

/-- The conversion `static_cast< index_t >` of an `int`. -/
def to_index_t (x : Int) : Nat := (x % (index_t_size : Int)).toNat

namespace TetgenMesher

section Tets
variable {D : Type} [DecidableEq D]

/-- `TetgenMesher::determine_tet_regions_to_keep`: the attribute of every
tetrahedron one of whose four neighbors is `-1` is inserted in the set
`regions_to_keep` (a list without repetition). -/
def determine_tet_regions_to_keep (tetgen_out_ : tetgenio D) (regions_to_keep : List D) :
    List D :=
  let nb_tets := to_index_t tetgen_out_.numberoftetrahedra
  (List.range nb_tets).foldl (fun regions t =>
    if (List.range 4).any
        (fun f => tetgen_out_.neighborlist ((t * 4 + f) % index_t_size) == -1) then
      regions.insert (tetgen_out_.tetrahedronattributelist t)
    else
      regions) regions_to_keep

/-- `TetgenMesher::determine_tets_to_keep`, on an empty `tets_to_keep`. -/
def determine_tets_to_keep (tetgen_out_ : tetgenio D) : List Nat :=
  let regions_to_keep := determine_tet_regions_to_keep tetgen_out_ []
  let nb_tets := to_index_t tetgen_out_.numberoftetrahedra
  (List.range nb_tets).foldl (fun tets_to_keep t =>
    if tetgen_out_.tetrahedronattributelist t ∈ regions_to_keep then
      tets_to_keep ++ [t]
    else
      tets_to_keep) []

/-- `TetgenMesher::get_result_tetmesh_tets`; the iterations of the parallel
loop write distinct entries and are run in order. -/
def get_result_tetmesh_tets (tetgen_out_ : tetgenio D) (tets : List Nat) : List Nat :=
  let tets_to_keep := determine_tets_to_keep tetgen_out_
  let nb_tets := tets_to_keep.length % index_t_size
  let tets := resize tets ((4 * nb_tets) % index_t_size) 0
  (List.range nb_tets).foldl (fun tets i =>
    let tetra := tets_to_keep.getD i 0
    (List.range 4).foldl (fun tets v =>
      tets.set ((4 * i + v) % index_t_size)
        (to_index_t (tetgen_out_.tetrahedronlist ((4 * tetra + v) % index_t_size)))) tets) tets

end Tets

end TetgenMesher

/-- The tetrahedron `t` has a facet on the exterior: one of its four neighbors
is `-1`. -/
def has_exterior_facet {D : Type} (tetgen_out_ : tetgenio D) (t : Nat) : Prop :=
  ∃ f < 4, tetgen_out_.neighborlist (4 * t + f) = -1

/-- Four tetrahedra in a row: the first two of region 0, the third of region 1
and the last of region 2; the first and the last have facets on the exterior.
Tetrahedron `t` has the vertices `t .. t + 3`. -/
def exampleTetgenOut : tetgenio Nat where
  numberoftetrahedra := 4
  tetrahedronlist := fun k => (k / 4 + k % 4 : Nat)
  tetrahedronattributelist := fun t => [0, 0, 1, 2].getD t 0
  neighborlist := fun k =>
    [-1, -1, -1, 1, 0, 2, 2, 2, 1, 3, 3, 3, 2, -1, -1, -1].getD k 0

/-! ## Theorems: duplicate mode and order -/

section SetterTheorems

variable {V E F C O : Type}

/-- C1: `set_duplicate_mode( m )` on a mesh whose duplicate mode is already `m`
returns the mesh unchanged, whatever `clear_duplication` does: the mode is
still `m` and the cells (hence the duplication data) are untouched. As a
consequence, from any state, calling it twice in a row with the same argument
gives the same state as calling it once. -/
theorem set_duplicate_mode_same_mode_noop (clear_duplication : C → C)
    (m : DuplicateMode) (s : GeoModelMesh V E F C O) (h : s.duplicate_mode = m) :
    s.set_duplicate_mode clear_duplication m = s
      ∧ (s.set_duplicate_mode clear_duplication m).duplicate_mode = m
      ∧ (s.set_duplicate_mode clear_duplication m).cells = s.cells
      ∧ ∀ t : GeoModelMesh V E F C O,
          (t.set_duplicate_mode clear_duplication m).set_duplicate_mode clear_duplication m
            = t.set_duplicate_mode clear_duplication m := by
  have hs : s.mode_ = m := h
  refine ⟨?_, ?_, ?_, ?_⟩
  · simp [GeoModelMesh.set_duplicate_mode, hs]
  · simp [GeoModelMesh.set_duplicate_mode, GeoModelMesh.duplicate_mode, hs]
  · simp [GeoModelMesh.set_duplicate_mode, hs]
  · intro t
    by_cases ht : t.mode_ = m
    · simp [GeoModelMesh.set_duplicate_mode, ht]
    · simp [GeoModelMesh.set_duplicate_mode, ht]

/-- Witness of C1 on a mesh in mode `FAULT` with one duplicated vertex, with the
spec-modelled `clear_duplication`. -/
theorem set_duplicate_mode_same_mode_noop_witness :
    faultMesh.duplicate_mode = DuplicateMode.FAULT
      ∧ faultMesh.set_duplicate_mode GeoModelMeshCells.clear_duplication DuplicateMode.FAULT
          = faultMesh :=
  ⟨rfl, (set_duplicate_mode_same_mode_noop GeoModelMeshCells.clear_duplication
    DuplicateMode.FAULT faultMesh rfl).1⟩

/-- C2: for every mesh state and every mode `m` different from the current
one, `set_duplicate_mode( m )` makes `duplicate_mode()` return `m` and leaves
the cells in the cleared duplication state (no duplicated vertex, no rebound
corner, everything else of the mesh unchanged); and from every state, after
`set_duplicate_mode( FAULT )` followed by `set_duplicate_mode( NONE )`,
`nb_duplicated_vertices()` is 0 and `is_corner_duplicated( c, v, _ )` is false
for every cell `c` and local corner `v`, whatever the duplication algorithm. -/
theorem set_duplicate_mode_other_mode_clears
    (initialize_duplication : DuplicateMode → GeoModelMeshCells → GeoModelMeshCells)
    (s : GeoModelMeshD V E F O) (m : DuplicateMode) (h : m ≠ s.duplicate_mode) :
    (s.set_duplicate_mode GeoModelMeshCells.clear_duplication m).duplicate_mode = m
      ∧ s.set_duplicate_mode GeoModelMeshCells.clear_duplication m
          = { s with mode_ := m, cells := s.cells.clear_duplication }
      ∧ (s.set_duplicate_mode GeoModelMeshCells.clear_duplication m).cells.duplicated_vertex_indices_
          = []
      ∧ (s.set_duplicate_mode GeoModelMeshCells.clear_duplication m).cells.duplicated_corners_
          = []
      ∧ nb_duplicated_vertices initialize_duplication
          ((s.set_duplicate_mode GeoModelMeshCells.clear_duplication
              DuplicateMode.FAULT).set_duplicate_mode GeoModelMeshCells.clear_duplication
            DuplicateMode.NONE) = 0
      ∧ ∀ c v : Nat, is_corner_duplicated initialize_duplication
          ((s.set_duplicate_mode GeoModelMeshCells.clear_duplication
              DuplicateMode.FAULT).set_duplicate_mode GeoModelMeshCells.clear_duplication
            DuplicateMode.NONE) c v = none := by
  have hs : ¬ s.mode_ = m := fun e => h e.symm
  have key : ((s.set_duplicate_mode GeoModelMeshCells.clear_duplication
      DuplicateMode.FAULT).set_duplicate_mode GeoModelMeshCells.clear_duplication
        DuplicateMode.NONE)
      = { s with mode_ := DuplicateMode.NONE, cells := GeoModelMeshCells.clear_duplication s.cells } := by
    by_cases hf : s.mode_ = DuplicateMode.FAULT
    · simp [GeoModelMesh.set_duplicate_mode, hf]
    · simp [GeoModelMesh.set_duplicate_mode, hf, GeoModelMeshCells.clear_duplication]
  refine ⟨?_, ?_, ?_, ?_, ?_, ?_⟩
  · simp [GeoModelMesh.set_duplicate_mode, GeoModelMesh.duplicate_mode, hs]
  · simp [GeoModelMesh.set_duplicate_mode, hs]
  · simp [GeoModelMesh.set_duplicate_mode, hs, GeoModelMeshCells.clear_duplication]
  · simp [GeoModelMesh.set_duplicate_mode, hs, GeoModelMeshCells.clear_duplication]
  · rw [key]
    simp [nb_duplicated_vertices, test_and_initialize_duplication, is_duplication_initialized,
      GeoModelMeshCells.clear_duplication]
  · intro c v
    rw [key]
    simp [is_corner_duplicated, test_and_initialize_duplication, is_duplication_initialized,
      GeoModelMeshCells.clear_duplication]

/-- Witness of C2: the mesh `faultMesh` (mode `FAULT`, one duplicated vertex) is
switched to `NONE`. -/
theorem set_duplicate_mode_other_mode_clears_witness :
    DuplicateMode.NONE ≠ faultMesh.duplicate_mode
      ∧ (faultMesh.set_duplicate_mode GeoModelMeshCells.clear_duplication
          DuplicateMode.NONE).duplicate_mode = DuplicateMode.NONE
      ∧ nb_duplicated_vertices (fun _ c => c)
          ((faultMesh.set_duplicate_mode GeoModelMeshCells.clear_duplication
              DuplicateMode.FAULT).set_duplicate_mode GeoModelMeshCells.clear_duplication
            DuplicateMode.NONE) = 0 :=
  have w := set_duplicate_mode_other_mode_clears (fun _ c => c) faultMesh DuplicateMode.NONE
    (by decide)
  ⟨by decide, w.1, w.2.2.2.2.1⟩

/-- C9: for every current order `o` and every `n`, after `set_order( n )`
`get_order()` returns `n`; the high-order store after the call is
`order.clear()` applied to the old store when `n` differs from `o`, and the old
store itself when `n = o`, whatever `clear` does; nothing else of the mesh
changes. -/
theorem set_order_clears_iff_order_differs (clear : O → O) (n : Nat)
    (s : GeoModelMesh V E F C O) :
    (s.set_order clear n).get_order = n
      ∧ (s.set_order clear n).order = (if n = s.get_order then s.order else clear s.order)
      ∧ s.set_order clear n
          = { s with order_value_ := n,
                     order := if n = s.get_order then s.order else clear s.order } := by
  by_cases h : n = s.order_value_
  · simp [GeoModelMesh.set_order, GeoModelMesh.get_order, h]
  · simp [GeoModelMesh.set_order, GeoModelMesh.get_order, h]

end SetterTheorems

/-! ## Theorems: surfaces to duplicate and the cache protocol -/

section CacheTheorems

variable {V E F O G D R GM : Type}

/-- C8: `is_surface_to_duplicate( s )` holds exactly when the surface is a fault
and the mode is `FAULT` or `ALL`, or the surface is a horizon and the mode is
`HORIZON` or `ALL`; under mode `NONE` no surface is to duplicate. -/
theorem is_surface_to_duplicate_iff (geological_feature : Nat → G)
    (is_fault is_stratigraphic_limit : G → Bool) (m : GeoModelMeshD V E F O) (s : Nat) :
    (is_surface_to_duplicate geological_feature is_fault is_stratigraphic_limit m s = true
        ↔ (is_fault (geological_feature s) = true
              ∧ (m.duplicate_mode = DuplicateMode.FAULT ∨ m.duplicate_mode = DuplicateMode.ALL))
          ∨ (is_stratigraphic_limit (geological_feature s) = true
              ∧ (m.duplicate_mode = DuplicateMode.HORIZON
                  ∨ m.duplicate_mode = DuplicateMode.ALL)))
      ∧ is_surface_to_duplicate geological_feature is_fault is_stratigraphic_limit
          { m with mode_ := DuplicateMode.NONE } s = false := by
  refine ⟨?_, rfl⟩
  unfold is_surface_to_duplicate
  cases hm : m.duplicate_mode <;> simp

/-- C7: every cache follows the same state machine. After
`test_and_initialize()` the cache is initialized; on an initialized cache
`test_and_initialize()` changes nothing, so a second call in a row changes
nothing and every read accessor (`nb()`, `vertex()`, `facet()`, `cell()`)
answers the same before and after it; after `clear()` the cache is not
initialized. -/
theorem cache_state_machine (rebuild : GM → D) (gm : GM) (empty : D) (c : Cache D) :
    ( Cache.test_and_initialize rebuild gm c).is_initialized = true
      ∧ (if c.is_initialized then Cache.test_and_initialize rebuild gm c = c
          else Cache.test_and_initialize rebuild gm c = { initialized := true, data := rebuild gm })
      ∧ Cache.test_and_initialize rebuild gm ( Cache.test_and_initialize rebuild gm c)
          = Cache.test_and_initialize rebuild gm c
      ∧ (∀ get : D → R,
          Cache.read rebuild gm get ( Cache.test_and_initialize rebuild gm c)
            = Cache.read rebuild gm get c)
      ∧ ( Cache.clear empty c).is_initialized = false := by
  cases hc : c.initialized <;>
    simp [ Cache.test_and_initialize, Cache.is_initialized, Cache.clear, Cache.read, hc]

end CacheTheorems

/-! ## Theorems: prefix-offset tables -/

theorem running_offsets_getD (l : List Nat) (start i : Nat) :
    (running_offsets start l).getD i 0
      = if i ≤ l.length then start + (l.take i).sum else 0 := by
  induction l generalizing start i with
  | nil =>
    cases i with
    | zero => simp [running_offsets]
    | succ i => simp [running_offsets]
  | cons c cs ih =>
    cases i with
    | zero => simp [running_offsets]
    | succ i =>
      simp only [running_offsets, List.getD_cons_succ, ih, List.length_cons, List.take_succ_cons,
        List.sum_cons, Nat.add_le_add_iff_right]
      split <;> omega

theorem sum_take_mono (l : List Nat) {a b : Nat} (h : a ≤ b) :
    (l.take a).sum ≤ (l.take b).sum := by
  have e : l.take a = (l.take b).take a := by
    rw [List.take_take, Nat.min_eq_left h]
  rw [e]
  exact List.Sublist.sum_le_sum (List.take_sublist _ _) (fun _ _ => Nat.zero_le _)

/-- Two blocks of a table of running offsets share no index: an index of block
`i` equal to an index of block `j` forces `i = j` and equal local indices. -/
theorem running_offsets_slot_inj (l : List Nat) (i j k k' : Nat)
    (hk : k < (running_offsets 0 l).getD (i + 1) 0 - (running_offsets 0 l).getD i 0)
    (hk' : k' < (running_offsets 0 l).getD (j + 1) 0 - (running_offsets 0 l).getD j 0)
    (h : (running_offsets 0 l).getD i 0 + k = (running_offsets 0 l).getD j 0 + k') :
    i = j ∧ k = k' := by
  have hi : i + 1 ≤ l.length := by
    by_contra hc
    rw [running_offsets_getD l 0 (i + 1), if_neg hc] at hk
    omega
  have hj : j + 1 ≤ l.length := by
    by_contra hc
    rw [running_offsets_getD l 0 (j + 1), if_neg hc] at hk'
    omega
  rw [running_offsets_getD, running_offsets_getD, if_pos hi, if_pos (by omega)] at hk
  rw [running_offsets_getD, running_offsets_getD, if_pos hj, if_pos (by omega)] at hk'
  rw [running_offsets_getD, running_offsets_getD, if_pos (by omega), if_pos (by omega)] at h
  rcases Nat.lt_trichotomy i j with hlt | heq | hgt
  · have := sum_take_mono l (show i + 1 ≤ j from hlt)
    omega
  · subst heq
    exact ⟨rfl, by omega⟩
  · have := sum_take_mono l (show j + 1 ≤ i from hgt)
    omega

theorem entity_type_counts_length (N : Nat) (e : List Nat) :
    (entity_type_counts N e).length = N := by
  simp [entity_type_counts]

/-- The block size recorded for `(s, T)` is the number of local elements of type
`T` in entity `s`. -/
theorem offset_counts_getD (N : Nat) (entities : List (List Nat)) (s T : Nat) (hT : T < N) :
    (offset_counts N entities).getD (N * s + T) 0 = (entities.getD s []).count T := by
  unfold offset_counts
  induction entities generalizing s with
  | nil => simp [List.getD_eq_getElem?_getD]
  | cons e es ih =>
    cases s with
    | zero =>
      simp only [List.flatMap_cons, List.append_assoc, Nat.mul_zero, Nat.zero_add]
      rw [List.getD_append _ _ _ _ (by simp [entity_type_counts_length, hT])]
      simp [entity_type_counts, List.getD_eq_getElem?_getD, List.getElem?_range hT]
    | succ s =>
      simp only [List.flatMap_cons, List.append_assoc]
      rw [List.getD_append_right _ _ _ _ (by simp [entity_type_counts_length]; nlinarith)]
      have e1 : N * (s + 1) + T - (entity_type_counts N e).length = N * s + T := by
        simp [entity_type_counts_length]; rw [Nat.mul_succ]; omega
      rw [e1, ih]
      simp

theorem offset_counts_length (N : Nat) (entities : List (List Nat)) :
    (offset_counts N entities).length = N * entities.length + (N - 1) := by
  unfold offset_counts
  induction entities with
  | nil => simp
  | cons e es ih =>
    simp only [List.flatMap_cons, List.append_assoc, List.length_append,
      entity_type_counts_length, List.length_cons] at ih ⊢
    rw [ih, Nat.mul_succ]
    omega

/-- The length of block `i` of the table is the recorded block size. -/
theorem initialize_ptr_block (N : Nat) (entities : List (List Nat)) (i : Nat) :
    (initialize_ptr N entities).getD (i + 1) 0 - (initialize_ptr N entities).getD i 0
      = (offset_counts N entities).getD i 0 := by
  unfold initialize_ptr
  rw [running_offsets_getD, running_offsets_getD]
  by_cases h : i + 1 ≤ (offset_counts N entities).length
  · rw [if_pos h, if_pos (by omega)]
    have hlt : i < (offset_counts N entities).length := h
    rw [List.sum_take_succ _ _ hlt, List.getD_eq_getElem _ _ hlt]
    omega
  · rw [if_neg h]
    rw [List.getD_eq_default _ _ (by omega)]
    omega

theorem FacetType_toNat_injective : Function.Injective FacetType.toNat := by
  intro a b h
  cases a <;> cases b <;> simp [FacetType.toNat] at h <;> rfl

theorem MeshCellType_toNat_injective : Function.Injective MeshCellType.toNat := by
  intro a b h
  cases a <;> cases b <;> simp [MeshCellType.toNat] at h <;> rfl

theorem getD_map_nil {α β : Type} (f : α → β) (l : List (List α)) (s : Nat) :
    (l.map (fun e => e.map f)).getD s [] = (l.getD s []).map f := by
  simp only [List.getD_eq_getElem?_getD, List.getElem?_map]
  cases l[s]? <;> simp

theorem facet_block (surfaces : List (List FacetType)) (s : Nat) (T : FacetType)
    (h1 : T ≠ FacetType.ALL) (h2 : T ≠ FacetType.NO_FACET) :
    ( GeoModelMeshFacets.initialize surfaces).facet s 0 T
        = ( GeoModelMeshFacets.initialize surfaces).surface_facet_ptr_.getD (3 * s + T.toNat) 0
      ∧ ( GeoModelMeshFacets.initialize surfaces).nb_facets s T
        = ( GeoModelMeshFacets.initialize surfaces).surface_facet_ptr_.getD
              (3 * s + T.toNat + 1) 0
          - ( GeoModelMeshFacets.initialize surfaces).surface_facet_ptr_.getD
              (3 * s + T.toNat) 0
      ∧ T.toNat < 3 := by
  cases T <;> simp_all [GeoModelMeshFacets.facet, GeoModelMeshFacets.nb_facets, FacetType.toNat]

theorem cell_block (regions : List (List MeshCellType)) (r : Nat) (T : MeshCellType)
    (h1 : T ≠ MeshCellType.MESH_NB_CELL_TYPES) :
    ( GeoModelMeshCells.initialize regions).cell r 0 T
        = ( GeoModelMeshCells.initialize regions).region_cell_ptr_.getD (5 * r + T.toNat) 0
      ∧ ( GeoModelMeshCells.initialize regions).nb_cells r T
        = ( GeoModelMeshCells.initialize regions).region_cell_ptr_.getD
              (5 * r + T.toNat + 1) 0
          - ( GeoModelMeshCells.initialize regions).region_cell_ptr_.getD
              (5 * r + T.toNat) 0
      ∧ T.toNat < 5 := by
  cases T <;> simp_all [GeoModelMeshCells.cell, GeoModelMeshCells.nb_cells, MeshCellType.toNat]

/-- C5: after the rebuild, for every surface `s`, every facet type `T` among
`TRIANGLE`, `QUAD`, `POLYGON` and every `k`,
`facet( s, k, T ) = surface_facet_ptr_[ALL*s + T] + k`; `nb_facets( s, T )` is
the number of facets of type `T` of the surface; and whenever `k <
nb_facets( s, T )` and `k' < nb_facets( s', T' )`, the global indices
`facet( s, k, T )` and `facet( s', k', T' )` are equal only if `s = s'`,
`T = T'` and `k = k'`: the `k` of one pair give distinct indices, and the
ranges of two different pairs do not overlap. The same holds for the cells
with `region_cell_ptr_[MESH_NB_CELL_TYPES*r + T] + k`. -/
theorem prefix_offset_addressing (surfaces : List (List FacetType))
    (regions : List (List MeshCellType)) :
    (∀ s k T, T ≠ FacetType.ALL → T ≠ FacetType.NO_FACET →
        ( GeoModelMeshFacets.initialize surfaces).facet s k T
          = ( GeoModelMeshFacets.initialize surfaces).surface_facet_ptr_.getD
              (FacetType.ALL.toNat * s + T.toNat) 0 + k)
      ∧ (∀ s T, T ≠ FacetType.ALL → T ≠ FacetType.NO_FACET →
        ( GeoModelMeshFacets.initialize surfaces).nb_facets s T = (surfaces.getD s []).count T)
      ∧ (∀ s T k s' T' k', T ≠ FacetType.ALL → T ≠ FacetType.NO_FACET →
        T' ≠ FacetType.ALL → T' ≠ FacetType.NO_FACET →
        k < ( GeoModelMeshFacets.initialize surfaces).nb_facets s T →
        k' < ( GeoModelMeshFacets.initialize surfaces).nb_facets s' T' →
        ( GeoModelMeshFacets.initialize surfaces).facet s k T
          = ( GeoModelMeshFacets.initialize surfaces).facet s' k' T' →
        s = s' ∧ T = T' ∧ k = k')
      ∧ (∀ r k T, T ≠ MeshCellType.MESH_NB_CELL_TYPES →
        ( GeoModelMeshCells.initialize regions).cell r k T
          = ( GeoModelMeshCells.initialize regions).region_cell_ptr_.getD
              (MeshCellType.MESH_NB_CELL_TYPES.toNat * r + T.toNat) 0 + k)
      ∧ (∀ r T, T ≠ MeshCellType.MESH_NB_CELL_TYPES →
        ( GeoModelMeshCells.initialize regions).nb_cells r T = (regions.getD r []).count T)
      ∧ (∀ r T k r' T' k', T ≠ MeshCellType.MESH_NB_CELL_TYPES →
        T' ≠ MeshCellType.MESH_NB_CELL_TYPES →
        k < ( GeoModelMeshCells.initialize regions).nb_cells r T →
        k' < ( GeoModelMeshCells.initialize regions).nb_cells r' T' →
        ( GeoModelMeshCells.initialize regions).cell r k T
          = ( GeoModelMeshCells.initialize regions).cell r' k' T' →
        r = r' ∧ T = T' ∧ k = k') := by
  refine ⟨?_, ?_, ?_, ?_, ?_, ?_⟩
  · intro s k T h1 h2
    cases T <;> simp_all [GeoModelMeshFacets.facet, FacetType.toNat]
  · intro s T h1 h2
    obtain ⟨-, hn, hT⟩ := facet_block surfaces s T h1 h2
    rw [hn]
    show (initialize_ptr 3 _).getD _ 0 - (initialize_ptr 3 _).getD _ 0 = _
    rw [initialize_ptr_block, offset_counts_getD 3 _ s T.toNat hT, getD_map_nil,
      List.count_map_of_injective _ _ FacetType_toNat_injective]
  · intro s T k s' T' k' h1 h2 h1' h2' hk hk' he
    obtain ⟨-, hn, hT⟩ := facet_block surfaces s T h1 h2
    obtain ⟨-, hn', hT'⟩ := facet_block surfaces s' T' h1' h2'
    rw [hn] at hk
    rw [hn'] at hk'
    have e : ( GeoModelMeshFacets.initialize surfaces).surface_facet_ptr_.getD
          (3 * s + T.toNat) 0 + k
        = ( GeoModelMeshFacets.initialize surfaces).surface_facet_ptr_.getD
          (3 * s' + T'.toNat) 0 + k' := by
      cases T <;> cases T' <;>
        simp_all [GeoModelMeshFacets.facet, FacetType.toNat]
    obtain ⟨hij, hkk⟩ := running_offsets_slot_inj _ _ _ _ _ hk hk' e
    have hs : s = s' := by omega
    have ht : T.toNat = T'.toNat := by omega
    exact ⟨hs, FacetType_toNat_injective ht, hkk⟩
  · intro r k T h1
    cases T <;> simp_all [GeoModelMeshCells.cell, MeshCellType.toNat]
  · intro r T h1
    obtain ⟨-, hn, hT⟩ := cell_block regions r T h1
    rw [hn]
    show (initialize_ptr 5 _).getD _ 0 - (initialize_ptr 5 _).getD _ 0 = _
    rw [initialize_ptr_block, offset_counts_getD 5 _ r T.toNat hT, getD_map_nil,
      List.count_map_of_injective _ _ MeshCellType_toNat_injective]
  · intro r T k r' T' k' h1 h1' hk hk' he
    obtain ⟨-, hn, hT⟩ := cell_block regions r T h1
    obtain ⟨-, hn', hT'⟩ := cell_block regions r' T' h1'
    rw [hn] at hk
    rw [hn'] at hk'
    have e : ( GeoModelMeshCells.initialize regions).region_cell_ptr_.getD
          (5 * r + T.toNat) 0 + k
        = ( GeoModelMeshCells.initialize regions).region_cell_ptr_.getD
          (5 * r' + T'.toNat) 0 + k' := by
      cases T <;> cases T' <;>
        simp_all [GeoModelMeshCells.cell, MeshCellType.toNat]
    obtain ⟨hij, hkk⟩ := running_offsets_slot_inj _ _ _ _ _ hk hk' e
    have hs : r = r' := by omega
    have ht : T.toNat = T'.toNat := by omega
    exact ⟨hs, MeshCellType_toNat_injective ht, hkk⟩

/-- Witness of C5: two surfaces, the first with the facets triangle, quad,
triangle, the second with a polygon and a triangle. The flattened array is
[T T Q | T P]: the quad of surface 0 is facet 2, the triangle of surface 1 is
facet 3 and its polygon facet 4. -/
theorem prefix_offset_addressing_witness :
    ( GeoModelMeshFacets.initialize exampleSurfaces).surface_facet_ptr_
        = [0, 2, 3, 3, 4, 4, 5, 5, 5]
      ∧ ( GeoModelMeshFacets.initialize exampleSurfaces).nb_facets 0 FacetType.TRIANGLE = 2
      ∧ ( GeoModelMeshFacets.initialize exampleSurfaces).facet 0 0 FacetType.QUAD = 2
      ∧ ( GeoModelMeshFacets.initialize exampleSurfaces).facet 1 0 FacetType.TRIANGLE = 3
      ∧ ( GeoModelMeshFacets.initialize exampleSurfaces).facet 1 0 FacetType.POLYGON = 4 :=
  have w := prefix_offset_addressing exampleSurfaces []
  ⟨by decide, by rw [w.2.1 0 FacetType.TRIANGLE (by decide) (by decide)]; decide, by decide,
    by decide, by decide⟩

/-! ## Theorems: the Adeli exporter -/

section AdeliTheorems

variable {P : Type}

theorem numbered_from_append (k : Nat) (xs ys : List AdeliElement) :
    (numbered_from k (xs ++ ys) : List (Line P))
      = numbered_from k xs ++ numbered_from (k + xs.length) ys := by
  induction xs generalizing k with
  | nil => simp [numbered_from]
  | cons x xs ih =>
    have e : k + 1 + xs.length = k + (xs.length + 1) := by omega
    show adeli_element_line k x :: numbered_from (k + 1) (xs ++ ys) = _
    rw [ih, e]
    rfl

theorem numbered_from_ids (k : Nat) (xs : List AdeliElement) :
    (numbered_from k xs : List (Line P)).map element_id = (List.range' k xs.length).map some := by
  induction xs generalizing k with
  | nil => simp [numbered_from]
  | cons x xs ih =>
    simp [numbered_from, ih, List.range'_succ, adeli_element_line, element_id]

theorem index_add_mod (a b : Nat) : index_add (a % index_t_size) b = (a + b) % index_t_size := by
  unfold index_add
  rw [Nat.mod_add_mod]

theorem index_add_valid {v : Nat} (h : v < NO_ID) : index_add v id_offset_adeli = v + 1 := by
  unfold index_add id_offset_adeli index_t_size
  unfold NO_ID at h
  omega


theorem write_corners_loop_eq (cs : List Corner) (elt : Nat)
    (hfit : elt + cs.length ≤ index_t_size)
    (hidx : ∀ c ∈ cs, c.index < NO_ID ∧ c.geomodel_vertex_id < NO_ID) :
    (write_corners_loop cs (elt % index_t_size) : List (Line P) × Nat)
      = (numbered_from elt
            (cs.map (fun c => ⟨15, c.index, c.nb_vertices, [c.geomodel_vertex_id]⟩)),
          (elt + cs.length) % index_t_size) := by
  induction cs generalizing elt with
  | nil => simp [write_corners_loop, numbered_from]
  | cons c cs ih =>
    simp only [List.length_cons] at hfit
    have h1 : elt % index_t_size = elt := Nat.mod_eq_of_lt (by omega)
    have hc := hidx c (List.mem_cons_self _ _)
    have ih' := ih (elt + 1) (by omega) (fun c' hc' => hidx c' (List.mem_cons_of_mem _ hc'))
    have h2 : index_add elt 1 = (elt + 1) % index_t_size := rfl
    have e : elt + (cs.length + 1) = elt + 1 + cs.length := by omega
    simp only [write_corners_loop, h1, h2, ih', List.map_cons, numbered_from,
      adeli_element_line, index_add_valid hc.1, index_add_valid hc.2, List.length_cons,
      reg_phys, adeli_cell_types, e]
    rfl

theorem write_elements_loop_eq (index cell_descriptor : Nat) (es : List (List Nat)) (elt : Nat)
    (hfit : elt + es.length ≤ index_t_size)
    (hindex : index < NO_ID) (hidx : ∀ vs ∈ es, ∀ v ∈ vs, v < NO_ID) :
    (write_elements_loop index cell_descriptor es (elt % index_t_size) : List (Line P) × Nat)
      = (numbered_from elt (es.map (fun vs => ⟨cell_descriptor, index, vs.length, vs⟩)),
          (elt + es.length) % index_t_size) := by
  induction es generalizing elt with
  | nil => simp [write_elements_loop, numbered_from]
  | cons vs es ih =>
    simp only [List.length_cons] at hfit
    have h1 : elt % index_t_size = elt := Nat.mod_eq_of_lt (by omega)
    have hv := hidx vs (List.mem_cons_self _ _)
    have ih' := ih (elt + 1) (by omega) (fun c' hc' => hidx c' (List.mem_cons_of_mem _ hc'))
    have hmap : vs.map (fun v => (Token.num (index_add v id_offset_adeli) : Token P))
        = vs.map (fun v => Token.num (v + 1)) :=
      List.map_congr_left (fun v hvm => by rw [index_add_valid (hv v hvm)])
    have h2 : index_add elt 1 = (elt + 1) % index_t_size := rfl
    have e : elt + (es.length + 1) = elt + 1 + es.length := by omega
    simp only [write_elements_loop, h1, h2, ih', List.map_cons, numbered_from,
      adeli_element_line, index_add_valid hindex, hmap, List.length_cons, reg_phys, e]

theorem flatMap_entity_elements_length (t : Nat) (es : List GeoModelMeshEntity) :
    (es.flatMap (entity_elements t)).length = nb_mesh_elements_sum es := by
  induction es with
  | nil => rfl
  | cons e es ih =>
    simp only [List.flatMap_cons, List.length_append, ih, nb_mesh_elements_sum, List.map_cons,
      List.sum_cons, entity_elements, List.length_map]

theorem write_entities_loop_eq (cell_descriptor : Nat) (es : List GeoModelMeshEntity) (elt : Nat)
    (hfit : elt + nb_mesh_elements_sum es ≤ index_t_size)
    (hidx : ∀ e ∈ es, e.index < NO_ID ∧ ∀ vs ∈ e.mesh_elements, ∀ v ∈ vs, v < NO_ID) :
    (write_entities_loop cell_descriptor es (elt % index_t_size) : List (Line P) × Nat)
      = (numbered_from elt (es.flatMap (entity_elements cell_descriptor)),
          (elt + nb_mesh_elements_sum es) % index_t_size) := by
  induction es generalizing elt with
  | nil => simp [write_entities_loop, numbered_from, nb_mesh_elements_sum]
  | cons e es ih =>
    have hs : nb_mesh_elements_sum (e :: es)
        = e.mesh_elements.length + nb_mesh_elements_sum es := by
      simp [nb_mesh_elements_sum]
    rw [hs] at hfit
    have he := hidx e (List.mem_cons_self _ _)
    have h1 := write_elements_loop_eq (P := P) e.index cell_descriptor e.mesh_elements elt
      (by omega) he.1 he.2
    have ih' := ih (elt + e.mesh_elements.length) (by omega)
      (fun c' hc' => hidx c' (List.mem_cons_of_mem _ hc'))
    simp only [write_entities_loop, AdeliIOHandler.write_mesh_elements_for_a_mesh_entity, h1,
      ih', List.flatMap_cons, numbered_from_append, entity_elements, List.length_map, hs,
      Nat.add_assoc]

theorem foldl_index_add (es : List GeoModelMeshEntity) (nb : Nat) :
    es.foldl (fun nb e => index_add nb e.mesh_elements.length) (nb % index_t_size)
      = (nb + nb_mesh_elements_sum es) % index_t_size := by
  induction es generalizing nb with
  | nil => simp [nb_mesh_elements_sum]
  | cons e es ih =>
    simp only [List.foldl_cons, index_add_mod, ih, nb_mesh_elements_sum, List.map_cons,
      List.sum_cons, Nat.add_assoc]


theorem entities_valid {es : List GeoModelMeshEntity} (h : es.all entity_indices_valid = true) :
    ∀ e ∈ es, e.index < NO_ID ∧ ∀ vs ∈ e.mesh_elements, ∀ v ∈ vs, v < NO_ID := by
  intro e he
  have := List.all_eq_true.mp h e he
  simpa [entity_indices_valid] using this

theorem adeli_elements_length (gm : GeoModel P) : (adeli_elements gm).length = nb_elements gm := by
  simp only [adeli_elements, nb_elements, List.length_append, List.length_map,
    flatMap_entity_elements_length]

theorem nb_total_elements_eq (gm : GeoModel P) :
    AdeliIOHandler.nb_total_elements gm = nb_elements gm % index_t_size := by
  have hrange : List.range' 1 (nb_mesh_entity_types - 1) = [1, 2, 3] := by decide
  simp only [AdeliIOHandler.nb_total_elements, hrange, List.foldl_cons, List.foldl_nil,
    GeoModel.mesh_entities, foldl_index_add, nb_elements]

theorem write_vertices_loop_eq (ps : List P) (v : Nat) (hfit : v + ps.length < index_t_size) :
    write_vertices_loop ps (v % index_t_size) = nodes_from v ps := by
  induction ps generalizing v with
  | nil => rfl
  | cons p ps ih =>
    simp only [List.length_cons] at hfit
    have h1 : v % index_t_size = v := Nat.mod_eq_of_lt (by omega)
    have h2 : index_add v 1 = (v + 1) % index_t_size := rfl
    have h3 : (v + 1) % index_t_size = v + 1 := Nat.mod_eq_of_lt (by omega)
    have ih' := ih (v + 1) (by omega)
    simp only [write_vertices_loop, h1, h2, ih', nodes_from, id_offset_adeli]
    rw [h3]

/-- C10: when `AdeliIOHandler::save` does not throw (all the cells are tets), the
counts fit `index_t` and every entity index and vertex index is an index (not
`NO_ID`), the file is: the nodes numbered from 1; `$ELM`; the count `N`; the
elements in the order corners, line edges, surface facets, region cells, each
line carrying its id, the entity index plus 1 and the vertex indices plus 1;
`$ENDELM`. The ids are exactly 1, 2, ..., `N` in that order, and `N`, the value
of `nb_total_elements`, is `nb_corners` plus the sum of `nb_mesh_elements` over
all lines, surfaces and regions, which is the number of element lines. -/
theorem adeli_save_numbering (gm : GeoModel P) (htet : gm.cells_nb = gm.cells_nb_tet)
    (hV : gm.vertices.length < index_t_size)
    (hN : nb_elements gm < index_t_size) (hidx : gm.indices_valid = true) :
    AdeliIOHandler.save gm
        = Except.ok ([[Token.str "$NOD"], [Token.num gm.vertices.length]]
            ++ nodes_from 0 gm.vertices ++ [[Token.str "$ENDNOD"]]
            ++ [[Token.str "$ELM"], [Token.num (nb_elements gm)]]
            ++ numbered_from 1 (adeli_elements gm) ++ [[Token.str "$ENDELM"]])
      ∧ AdeliIOHandler.nb_total_elements gm = nb_elements gm
      ∧ (numbered_from 1 (adeli_elements gm) : List (Line P)).length = nb_elements gm
      ∧ (numbered_from 1 (adeli_elements gm) : List (Line P)).map element_id
          = (List.range' 1 (nb_elements gm)).map some := by
  have hnb : AdeliIOHandler.nb_total_elements gm = nb_elements gm := by
    rw [nb_total_elements_eq, Nat.mod_eq_of_lt hN]
  simp only [GeoModel.indices_valid, Bool.and_eq_true] at hidx
  obtain ⟨⟨⟨hc, hl⟩, hs⟩, hr⟩ := hidx
  have hc' : ∀ c ∈ gm.corners, c.index < NO_ID ∧ c.geomodel_vertex_id < NO_ID := by
    intro c hcm
    simpa using List.all_eq_true.mp hc c hcm
  have hids := numbered_from_ids (P := P) 1 (adeli_elements gm)
  rw [adeli_elements_length] at hids
  have hlen : (numbered_from 1 (adeli_elements gm) : List (Line P)).length = nb_elements gm := by
    have := congrArg List.length hids
    simpa using this
  unfold nb_elements at hN
  have e0 : 1 % index_t_size = 1 := by decide
  have v1 := write_vertices_loop_eq gm.vertices 0 (by omega)
  have c1 := write_corners_loop_eq (P := P) gm.corners 1 (by omega) hc'
  have l1 := write_entities_loop_eq (P := P) 1 gm.lines (1 + gm.corners.length) (by omega)
    (entities_valid hl)
  have s1 := write_entities_loop_eq (P := P) 2 gm.surfaces
    (1 + gm.corners.length + nb_mesh_elements_sum gm.lines) (by omega) (entities_valid hs)
  have r1 := write_entities_loop_eq (P := P) 4 gm.regions
    (1 + gm.corners.length + nb_mesh_elements_sum gm.lines + nb_mesh_elements_sum gm.surfaces)
    (by omega) (entities_valid hr)
  rw [e0] at c1
  rw [Nat.zero_mod] at v1
  refine ⟨?_, hnb, hlen, hids⟩
  have hrange : List.range' 1 (nb_mesh_entity_types - 1) = [1, 2, 3] := by decide
  unfold AdeliIOHandler.save
  rw [if_neg (by simpa using htet)]
  simp only [AdeliIOHandler.write_corners, AdeliIOHandler.write_mesh_elements, hrange,
    write_types_loop, GeoModel.mesh_entities, adeli_cell_types, List.getD_cons_succ,
    List.getD_cons_zero, hnb, AdeliIOHandler.write_vertices, v1]
  simp only [c1, l1, s1, r1]
  simp only [adeli_elements, numbered_from_append, List.length_append, List.length_map,
    flatMap_entity_elements_length, List.append_assoc, List.cons_append, List.nil_append,
    List.append_nil]

/-- Witness of C10 on `exampleGeoModel`: six elements, numbered 1 to 6. -/
theorem adeli_save_numbering_witness :
    exampleGeoModel.cells_nb = exampleGeoModel.cells_nb_tet
      ∧ nb_elements exampleGeoModel = 6
      ∧ exampleGeoModel.indices_valid = true
      ∧ AdeliIOHandler.nb_total_elements exampleGeoModel = nb_elements exampleGeoModel
      ∧ (numbered_from 1 (adeli_elements exampleGeoModel) : List (Line (Int × Int × Int))).map
            element_id
          = (List.range' 1 (nb_elements exampleGeoModel)).map some :=
  have w := adeli_save_numbering exampleGeoModel rfl (by decide) (by decide) (by decide)
  ⟨rfl, by decide, by decide, w.2.1, w.2.2.2⟩

end AdeliTheorems

/-! ## Theorems: erasing unique vertices -/

section VerticesTheorems

variable {P : Type}

theorem filter_range_getElem_opt (p : Nat → Bool) (n v : Nat) (hv : v < n) (hp : p v = true) :
    ((List.range n).filter p)[((List.range v).filter p).length]? = some v := by
  induction n with
  | zero => omega
  | succ k ih =>
    rw [List.range_succ, List.filter_append]
    by_cases hvk : v = k
    · subst hvk
      rw [List.getElem?_append_right (le_refl _)]
      simp [hp]
    · have hlt : v < k := by omega
      have h := ih hlt
      have hlen : ((List.range v).filter p).length < ((List.range k).filter p).length := by
        by_contra hc
        rw [List.getElem?_eq_none (by omega)] at h
        exact absurd h (by simp)
      rw [List.getElem?_append_left hlen]
      exact h

theorem kept_vertices_getElem_opt (td : List Nat) (n v : Nat) (hv : v < n)
    (hk : is_kept td v = true) :
    (kept_vertices td n)[compacted_index td v]? = some v :=
  filter_range_getElem_opt (is_kept td) n v hv hk

theorem compacted_index_lt (td : List Nat) (n v : Nat) (hv : v < n)
    (hk : is_kept td v = true) :
    compacted_index td v < (kept_vertices td n).length := by
  by_contra hc
  have h := kept_vertices_getElem_opt td n v hv hk
  rw [List.getElem?_eq_none (by omega)] at h
  exact absurd h (by simp)

theorem erase_nb (td : List Nat) (s : GeoModelMeshVertices P) :
    (s.erase_vertices td).1.nb = (kept_vertices td s.nb).length := by
  simp only [GeoModelMeshVertices.erase_vertices, GeoModelMeshVertices.nb]
  have : ∀ l : List Nat, (∀ v ∈ l, v < s.points.length) →
      (l.filterMap (fun v => s.points[v]?)).length = l.length := by
    intro l hl
    induction l with
    | nil => rfl
    | cons a l ih =>
      have ha : a < s.points.length := hl a (List.mem_cons_self _ _)
      have hl' : ∀ v ∈ l, v < s.points.length := fun v hv => hl v (List.mem_cons_of_mem _ hv)
      simp [List.filterMap_cons, List.getElem?_eq_getElem ha, ih hl']
  apply this
  intro v hv
  simp [kept_vertices] at hv
  exact hv.1

theorem is_kept_iff (td : List Nat) (v : Nat) :
    is_kept td v = true ↔ td.getD v NO_ID = NO_ID ∨ td.getD v NO_ID = v := by
  unfold is_kept
  simp

theorem mem_kept_vertices (td : List Nat) (n w : Nat) :
    w ∈ kept_vertices td n ↔ w < n ∧ (td.getD w NO_ID = NO_ID ∨ td.getD w NO_ID = w) := by
  rw [kept_vertices, List.mem_filter, List.mem_range, is_kept_iff]

theorem filter_range_index_of (p : Nat → Bool) (n i v : Nat)
    (h : ((List.range n).filter p)[i]? = some v) :
    v < n ∧ p v = true ∧ i = ((List.range v).filter p).length := by
  have hmem : v ∈ (List.range n).filter p := List.getElem?_mem h
  simp only [List.mem_filter, List.mem_range] at hmem
  refine ⟨hmem.1, hmem.2, ?_⟩
  have h2 := filter_range_getElem_opt p n v hmem.1 hmem.2
  have hnd : ((List.range n).filter p).Nodup := (List.nodup_range n).filter _
  have hi : i < ((List.range n).filter p).length := by
    by_contra hc
    rw [List.getElem?_eq_none (by omega)] at h
    exact absurd h (by simp)
  have hj : ((List.range v).filter p).length < ((List.range n).filter p).length := by
    by_contra hc
    rw [List.getElem?_eq_none (by omega)] at h2
    exact absurd h2 (by simp)
  rw [List.getElem?_eq_getElem hi] at h
  rw [List.getElem?_eq_getElem hj] at h2
  exact (List.Nodup.getElem_inj_iff hnd).mp (by rw [Option.some.inj h, Option.some.inj h2])

theorem filter_range_split (p : Nat → Bool) (n a b : Nat) (hab : a < b) (hb : b < n)
    (pa : p a = true) (pb : p b = true) :
    ∃ A B C, (List.range n).filter p = A ++ a :: B ++ b :: C := by
  have hn : n = b + (n - b) := by omega
  have hr : List.range n = List.range b ++ (List.range (n - b)).map (b + ·) := by
    conv_lhs => rw [hn]
    exact List.range_add b (n - b)
  have hk : n - b = (n - b - 1) + 1 := by omega
  have hr2 : (List.range (n - b)).map (b + ·)
      = b :: (List.range (n - b - 1)).map (fun k => b + (k + 1)) := by
    conv_lhs => rw [hk]
    rw [List.range_succ_eq_map]
    simp [Function.comp_def]
  have ha : a ∈ (List.range b).filter p := by
    rw [List.mem_filter, List.mem_range]
    exact ⟨hab, pa⟩
  obtain ⟨A, B, hAB⟩ := List.append_of_mem ha
  refine ⟨A, B, ((List.range (n - b - 1)).map (fun k => b + (k + 1))).filter p, ?_⟩
  rw [hr, hr2, List.filter_append, hAB, List.filter_cons_of_pos pb]

theorem compacted_index_inj (td : List Nat) (v w : Nat) (hv : is_kept td v = true)
    (hw : is_kept td w = true) (h : compacted_index td v = compacted_index td w) : v = w := by
  have h1 := kept_vertices_getElem_opt td (v + w + 1) v (by omega) hv
  have h2 := kept_vertices_getElem_opt td (v + w + 1) w (by omega) hw
  rw [h, h2] at h1
  exact (Option.some.inj h1).symm

theorem old2new_getD (td : List Nat) (n v : Nat) (hv : v < n) :
    ((List.range n).map (old2new td)).getD v NO_ID = old2new td v := by
  simp [List.getD_eq_getElem?_getD, List.getElem?_range hv]

theorem erase_gme_vertices (td : List Nat) (s : GeoModelMeshVertices P) (v : Nat)
    (hv : v < s.nb) (hk : is_kept td v = true) :
    (s.erase_vertices td).1.gme_vertices (compacted_index td v)
      = s.gme_vertices v ++ (merged_into td s.nb v).flatMap s.gme_vertices := by
  simp only [GeoModelMeshVertices.erase_vertices, GeoModelMeshVertices.gme_vertices,
    List.getD_eq_getElem?_getD, List.getElem?_map, kept_vertices_getElem_opt td s.nb v hv hk]
  rfl

theorem filterMap_getElem_opt_of_isSome {α β : Type} (f : α → Option β) (l : List α)
    (h : ∀ a ∈ l, (f a).isSome = true) (i : Nat) :
    (l.filterMap f)[i]? = l[i]?.bind f := by
  induction l generalizing i with
  | nil => simp
  | cons a l ih =>
    have ha := h a (List.mem_cons_self _ _)
    obtain ⟨b, hb⟩ := Option.isSome_iff_exists.mp ha
    have hl : ∀ a ∈ l, (f a).isSome = true := fun a' ha' => h a' (List.mem_cons_of_mem _ ha')
    rw [List.filterMap_cons_some hb]
    cases i with
    | zero => simp [hb]
    | succ i => simp [ih hl]

theorem erase_points (td : List Nat) (s : GeoModelMeshVertices P) (v : Nat)
    (hv : v < s.nb) (hk : is_kept td v = true) :
    (s.erase_vertices td).1.points[compacted_index td v]? = s.points[v]? := by
  simp only [GeoModelMeshVertices.erase_vertices]
  rw [filterMap_getElem_opt_of_isSome, kept_vertices_getElem_opt td s.nb v hv hk]
  · rfl
  · intro a ha
    simp only [kept_vertices, List.mem_filter, List.mem_range] at ha
    have : a < s.points.length := ha.1
    simp [List.getElem?_eq_getElem this]

theorem flatMap_mem_split {α β : Type} (f : α → List β) (l : List α) (a : α) (h : a ∈ l) :
    ∃ pre post, l.flatMap f = pre ++ f a ++ post := by
  obtain ⟨l1, l2, rfl⟩ := List.append_of_mem h
  exact ⟨l1.flatMap f, l2.flatMap f, by simp⟩

theorem survivor_kept (td : List Nat) (fuel v : Nat) (h : is_kept td v = true) :
    survivor td fuel v = v := by
  cases fuel with
  | zero => rfl
  | succ f => rw [survivor, if_pos h]

theorem not_kept_lt (td : List Nat) (n v : Nat)
    (hpre : ∀ w < n, td.getD w NO_ID = NO_ID ∨ td.getD w NO_ID ≤ w) (hv : v < n)
    (h : ¬ is_kept td v = true) : td.getD v NO_ID < v := by
  rw [is_kept_iff] at h
  rcases hpre v hv with h1 | h1
  · exact absurd (Or.inl h1) h
  · rcases Nat.lt_or_eq_of_le h1 with h2 | h2
    · exact h2
    · exact absurd (Or.inr h2) h

theorem survivor_fuel (td : List Nat) (n : Nat)
    (hpre : ∀ w < n, td.getD w NO_ID = NO_ID ∨ td.getD w NO_ID ≤ w) (f1 f2 v : Nat)
    (hv : v < n) (h1 : v ≤ f1) (h2 : v ≤ f2) : survivor td f1 v = survivor td f2 v := by
  induction f1 generalizing f2 v with
  | zero =>
    have hv0 : v = 0 := by omega
    subst hv0
    have hk : is_kept td 0 = true := by
      rw [is_kept_iff]
      rcases hpre 0 hv with h | h
      · exact Or.inl h
      · exact Or.inr (by omega)
    rw [survivor_kept td _ 0 hk, survivor_kept td _ 0 hk]
  | succ f ih =>
    by_cases hk : is_kept td v = true
    · rw [survivor_kept td _ v hk, survivor_kept td _ v hk]
    · have hlt := not_kept_lt td n v hpre hv hk
      cases f2 with
      | zero => omega
      | succ g =>
        rw [survivor, if_neg hk, survivor, if_neg hk]
        exact ih g (td.getD v NO_ID) (by omega) (by omega) (by omega)

theorem merged_with_kept (td : List Nat) (v : Nat) (h : is_kept td v = true) :
    merged_with td v = v :=
  survivor_kept td v v h

theorem merged_with_step (td : List Nat) (n : Nat)
    (hpre : ∀ w < n, td.getD w NO_ID = NO_ID ∨ td.getD w NO_ID ≤ w) (v : Nat) (hv : v < n)
    (h : ¬ is_kept td v = true) :
    td.getD v NO_ID < v ∧ merged_with td v = merged_with td (td.getD v NO_ID) := by
  have hlt := not_kept_lt td n v hpre hv h
  refine ⟨hlt, ?_⟩
  unfold merged_with
  cases v with
  | zero => omega
  | succ k =>
    rw [survivor, if_neg h]
    exact survivor_fuel td n hpre _ _ _ (by omega) (by omega) (Nat.le_refl _)

theorem merged_with_spec (td : List Nat) (n : Nat)
    (hpre : ∀ w < n, td.getD w NO_ID = NO_ID ∨ td.getD w NO_ID ≤ w) (v : Nat) (hv : v < n) :
    merged_with td v ≤ v ∧ is_kept td (merged_with td v) = true := by
  induction v using Nat.strong_induction_on with
  | _ v ih =>
    by_cases hk : is_kept td v = true
    · rw [merged_with_kept td v hk]
      exact ⟨Nat.le_refl _, hk⟩
    · obtain ⟨hlt, he⟩ := merged_with_step td n hpre v hv hk
      obtain ⟨h1, h2⟩ := ih _ hlt (by omega)
      rw [he]
      exact ⟨by omega, h2⟩

theorem merged_with_target_kept (td : List Nat) (v m : Nat) (hv : v < NO_ID) (hle : m ≤ v)
    (hk : is_kept td m = true) (htd : td.getD v NO_ID = m) : merged_with td v = m := by
  by_cases hkv : is_kept td v = true
  · rw [merged_with_kept td v hkv]
    rcases (is_kept_iff td v).mp hkv with h | h
    · omega
    · omega
  · unfold merged_with
    cases v with
    | zero =>
      have hm : m = 0 := by omega
      subst hm
      exact absurd ((is_kept_iff td 0).mpr (Or.inr htd)) hkv
    | succ k =>
      rw [survivor, if_neg hkv, htd]
      exact survivor_kept td k m hk

/-- C3: in `erase_vertices( to_delete )` with the precondition of the spec
(every entry is `NO_ID` or at most its own index), for every vertex `v`: an
entry `to_delete[v]` equal to `NO_ID` means `v` is kept and is assigned a new
compacted index (the number of kept vertices before it), where its point and
its back-references are found again; an entry holding the index of another
vertex `v'` means `v` is dropped, is given the new index that `v'` is given,
and its back-references are appended to those of `v'`: the back-references of
that new index hold those of `v'` and, after them, those of `v`. The vertices
left are exactly the vertices whose entry is `NO_ID` or their own index. -/
theorem erase_vertices_entry_meaning (s : GeoModelMeshVertices P) (td : List Nat)
    (hpre : ∀ w < s.nb, td.getD w NO_ID = NO_ID ∨ td.getD w NO_ID ≤ w)
    (v : Nat) (hv : v < s.nb) :
    (td.getD v NO_ID = NO_ID →
        v ∈ kept_vertices td s.nb
          ∧ (s.erase_vertices td).2.getD v NO_ID = compacted_index td v
          ∧ compacted_index td v < (s.erase_vertices td).1.nb
          ∧ (s.erase_vertices td).1.points[compacted_index td v]? = s.points[v]?
          ∧ ∃ post, (s.erase_vertices td).1.gme_vertices (compacted_index td v)
              = s.gme_vertices v ++ post)
      ∧ (∀ v', v' ≠ v → v' ≠ NO_ID → td.getD v NO_ID = v' →
          v ∉ kept_vertices td s.nb
            ∧ (s.erase_vertices td).2.getD v NO_ID = (s.erase_vertices td).2.getD v' NO_ID
            ∧ (s.erase_vertices td).2.getD v' NO_ID < (s.erase_vertices td).1.nb
            ∧ ∃ before pre post,
                (s.erase_vertices td).1.gme_vertices ((s.erase_vertices td).2.getD v' NO_ID)
                  = before ++ s.gme_vertices v' ++ pre ++ s.gme_vertices v ++ post
                ∧ (td.getD v' NO_ID = NO_ID ∨ td.getD v' NO_ID = v' → before = []))
      ∧ (s.erase_vertices td).1.nb = (kept_vertices td s.nb).length
      ∧ (s.erase_vertices td).1.points
          = (kept_vertices td s.nb).filterMap (fun w => s.points[w]?)
      ∧ (∀ w, w ∈ kept_vertices td s.nb
          ↔ w < s.nb ∧ (td.getD w NO_ID = NO_ID ∨ td.getD w NO_ID = w)) := by
  have hmap : ∀ w, w < s.nb → (s.erase_vertices td).2.getD w NO_ID = old2new td w :=
    fun w hw => old2new_getD td s.nb w hw
  refine ⟨?_, ?_, erase_nb td s, rfl, mem_kept_vertices td s.nb⟩
  · intro h
    have hk : is_kept td v = true := (is_kept_iff td v).mpr (Or.inl h)
    refine ⟨(mem_kept_vertices td s.nb v).mpr ⟨hv, Or.inl h⟩, ?_, ?_, erase_points td s v hv hk,
      _, erase_gme_vertices td s v hv hk⟩
    · rw [hmap v hv, old2new, merged_with_kept td v hk]
    · rw [erase_nb]
      exact compacted_index_lt td s.nb v hv hk
  · intro v' hne hno h
    have hk : ¬ is_kept td v = true := by
      rw [is_kept_iff, h]
      rintro (h1 | h1)
      · exact hno h1
      · exact hne h1
    obtain ⟨hlt, hstep⟩ := merged_with_step td s.nb hpre v hv hk
    rw [h] at hlt hstep
    have hv' : v' < s.nb := by omega
    obtain ⟨hrle, hrk⟩ := merged_with_spec td s.nb hpre v' hv'
    have hr : merged_with td v' < s.nb := by omega
    refine ⟨?_, ?_, ?_, ?_⟩
    · intro hmem
      rw [kept_vertices, List.mem_filter] at hmem
      exact hk hmem.2
    · rw [hmap v hv, hmap v' hv', old2new, old2new, hstep]
    · rw [hmap v' hv', old2new, erase_nb]
      exact compacted_index_lt td s.nb _ hr hrk
    · rw [hmap v' hv', old2new, erase_gme_vertices td s _ hr hrk]
      have hmv : v ∈ merged_into td s.nb (merged_with td v') := by
        simp only [merged_into, List.mem_filter, List.mem_range, decide_eq_true_eq]
        exact ⟨hv, by omega, hstep⟩
      by_cases hkv' : is_kept td v' = true
      · have hself := merged_with_kept td v' hkv'
        rw [hself] at hmv ⊢
        obtain ⟨pre, post, e⟩ := flatMap_mem_split s.gme_vertices _ v hmv
        exact ⟨[], pre, post, by rw [e]; simp, fun _ => rfl⟩
      · have hne' : v' ≠ merged_with td v' := by
          intro he
          rw [← he] at hrk
          exact hkv' hrk
        obtain ⟨A, B, C, e⟩ := filter_range_split
          (fun w => decide (w ≠ merged_with td v' ∧ merged_with td w = merged_with td v'))
          s.nb v' v hlt hv (by simpa using hne') (by
            simp only [decide_eq_true_eq]
            exact ⟨by omega, hstep⟩)
        refine ⟨s.gme_vertices (merged_with td v') ++ A.flatMap s.gme_vertices,
          B.flatMap s.gme_vertices, C.flatMap s.gme_vertices, ?_, ?_⟩
        · rw [merged_into, e]
          simp [List.flatMap_append, List.flatMap_cons, List.append_assoc]
        · intro hkept
          exact absurd ((is_kept_iff td v').mpr hkept) hkv'

/-- C4: for every valid `to_delete` (each entry is `NO_ID` or at most its own
index) on a store whose entities reference existing unique vertices, after
`erase_vertices( to_delete )`: every surviving unique vertex `n` is the new
index of a kept vertex `v`, with the point of `v`; the vertices that the
overwritten `to_delete` sends to `n` are the vertices merged into `v`;
`gme_vertices( n )` contains exactly the original back-references of these
vertices; every vertex is sent to a surviving index, a merged vertex to the
index of the vertex it is merged with; and every entity-local vertex of
every entity maps to an index smaller than the new `nb()`, namely the image of
its old index under the overwritten `to_delete`. -/
theorem erase_vertices_invariant (s : GeoModelMeshVertices P) (td : List Nat)
    (hvalid : ∀ v < s.nb, td.getD v NO_ID = NO_ID ∨ td.getD v NO_ID ≤ v)
    (href : ∀ rg ∈ s.model_vertex_id_, rg.2 < s.nb) :
    (∀ n < (s.erase_vertices td).1.nb, ∃ v < s.nb,
        (td.getD v NO_ID = NO_ID ∨ td.getD v NO_ID = v)
        ∧ (s.erase_vertices td).2.getD v NO_ID = n
        ∧ (s.erase_vertices td).1.points[n]? = s.points[v]?
        ∧ (∀ w < s.nb, (s.erase_vertices td).2.getD w NO_ID = n ↔ merged_with td w = v)
        ∧ ∀ r, r ∈ (s.erase_vertices td).1.gme_vertices n
            ↔ ∃ w < s.nb, (s.erase_vertices td).2.getD w NO_ID = n ∧ r ∈ s.gme_vertices w)
      ∧ (∀ w < s.nb, (s.erase_vertices td).2.getD w NO_ID < (s.erase_vertices td).1.nb)
      ∧ (∀ w < s.nb, td.getD w NO_ID ≠ NO_ID →
          (s.erase_vertices td).2.getD w NO_ID
            = (s.erase_vertices td).2.getD (td.getD w NO_ID) NO_ID)
      ∧ (∀ rg ∈ (s.erase_vertices td).1.model_vertex_id_, rg.2 < (s.erase_vertices td).1.nb)
      ∧ (s.erase_vertices td).1.model_vertex_id_
          = s.model_vertex_id_.map
              (fun rg => (rg.1, (s.erase_vertices td).2.getD rg.2 NO_ID)) := by
  have hmap : ∀ w, w < s.nb → (s.erase_vertices td).2.getD w NO_ID = old2new td w :=
    fun w hw => old2new_getD td s.nb w hw
  have hlt : ∀ w < s.nb, old2new td w < (kept_vertices td s.nb).length := by
    intro w hw
    obtain ⟨h1, h2⟩ := merged_with_spec td s.nb hvalid w hw
    exact compacted_index_lt td s.nb _ (by omega) h2
  have htab : (s.erase_vertices td).1.model_vertex_id_
      = s.model_vertex_id_.map (fun rg => (rg.1, (s.erase_vertices td).2.getD rg.2 NO_ID)) := by
    show s.model_vertex_id_.map _ = _
    apply List.map_congr_left
    intro rg hrg
    rw [hmap rg.2 (href rg hrg)]
  have hsame : ∀ w < s.nb, ∀ v < s.nb, is_kept td v = true →
      (old2new td w = compacted_index td v ↔ merged_with td w = v) := by
    intro w hw v _ hk
    obtain ⟨_, h2⟩ := merged_with_spec td s.nb hvalid w hw
    constructor
    · exact fun h => compacted_index_inj td _ _ h2 hk h
    · intro h
      rw [old2new, h]
  refine ⟨?_, ?_, ?_, ?_, htab⟩
  · intro n hn
    rw [erase_nb] at hn
    have hget : (kept_vertices td s.nb)[n]? = some ((kept_vertices td s.nb)[n]) :=
      List.getElem?_eq_getElem hn
    obtain ⟨hv, hk, hidx⟩ := filter_range_index_of (is_kept td) s.nb n _ hget
    generalize (kept_vertices td s.nb)[n] = v at hv hk hidx
    have hn' : n = compacted_index td v := hidx
    subst hn'
    have hg := erase_gme_vertices td s v hv hk
    refine ⟨v, hv, (is_kept_iff td v).mp hk, ?_, erase_points td s v hv hk, ?_, ?_⟩
    · rw [hmap v hv, old2new, merged_with_kept td v hk]
    · intro w hw
      rw [hmap w hw]
      exact hsame w hw v hv hk
    · intro r
      rw [hg]
      simp only [List.mem_append, List.mem_flatMap, merged_into, List.mem_filter, List.mem_range,
        decide_eq_true_eq]
      constructor
      · rintro (h | ⟨w, ⟨hw, -, hw2⟩, hr⟩)
        · exact ⟨v, hv, by rw [hmap v hv, old2new, merged_with_kept td v hk], h⟩
        · exact ⟨w, hw, by rw [hmap w hw]; exact (hsame w hw v hv hk).mpr hw2, hr⟩
      · rintro ⟨w, hw, hw2, hr⟩
        rw [hmap w hw] at hw2
        have hw3 := (hsame w hw v hv hk).mp hw2
        by_cases e : w = v
        · left
          rw [← e]
          exact hr
        · right
          exact ⟨w, ⟨hw, e, hw3⟩, hr⟩
  · intro w hw
    rw [hmap w hw, erase_nb]
    exact hlt w hw
  · intro w hw hne
    by_cases hk : is_kept td w = true
    · rcases (is_kept_iff td w).mp hk with h | h
      · exact absurd h hne
      · rw [h]
    · obtain ⟨h1, h2⟩ := merged_with_step td s.nb hvalid w hw hk
      rw [hmap w hw, hmap _ (by omega), old2new, old2new, h2]
  · intro rg hrg
    rw [htab] at hrg
    obtain ⟨rg0, hrg0, rfl⟩ := List.mem_map.mp hrg
    rw [erase_nb]
    show (s.erase_vertices td).2.getD rg0.2 NO_ID < _
    rw [hmap rg0.2 (href rg0 hrg0)]
    exact hlt rg0.2 (href rg0 hrg0)

/-- Witness of C3 on four vertices with `to_delete = [NO_ID, 0, 1, NO_ID]`:
vertex 2 is merged with vertex 1, itself merged with vertex 0, and gets the
new index of vertex 1; the vertices 0 and 3 are kept. -/
theorem erase_vertices_entry_meaning_witness :
    (∀ w < fourVertices.nb, [NO_ID, 0, 1, NO_ID].getD w NO_ID = NO_ID
        ∨ [NO_ID, 0, 1, NO_ID].getD w NO_ID ≤ w)
      ∧ (fourVertices.erase_vertices [NO_ID, 0, 1, NO_ID]).2.getD 2 NO_ID
          = (fourVertices.erase_vertices [NO_ID, 0, 1, NO_ID]).2.getD 1 NO_ID
      ∧ (fourVertices.erase_vertices [NO_ID, 0, 1, NO_ID]).2 = [0, 0, 0, 1]
      ∧ (fourVertices.erase_vertices [NO_ID, 0, 1, NO_ID]).1.gme_vertices 0
          = [⟨0, 0, 0⟩, ⟨1, 0, 0⟩, ⟨0, 1, 0⟩, ⟨1, 0, 1⟩]
      ∧ (fourVertices.erase_vertices [NO_ID, 0, 1, NO_ID]).1.nb = 2 :=
  have w := erase_vertices_entry_meaning fourVertices [NO_ID, 0, 1, NO_ID] (by decide) 2
    (by decide)
  ⟨by decide, (w.2.1 1 (by decide) (by decide) rfl).2.1, by decide, by decide, by decide⟩

/-- Witness of C4 on four vertices with `to_delete = [NO_ID, 0, 1, NO_ID]`. -/
theorem erase_vertices_invariant_witness :
    (∀ rg ∈ fourVertices.model_vertex_id_, rg.2 < fourVertices.nb)
      ∧ (∀ rg ∈ (fourVertices.erase_vertices [NO_ID, 0, 1, NO_ID]).1.model_vertex_id_,
          rg.2 < (fourVertices.erase_vertices [NO_ID, 0, 1, NO_ID]).1.nb)
      ∧ (fourVertices.erase_vertices [NO_ID, 0, 1, NO_ID]).1.model_vertex_id_
          = [(⟨0, 0, 0⟩, 0), (⟨1, 0, 0⟩, 0), (⟨0, 1, 0⟩, 0), (⟨1, 0, 1⟩, 0), (⟨1, 1, 0⟩, 1)]
      ∧ (fourVertices.erase_vertices [NO_ID, 0, 1, NO_ID]).1.gme_vertices 1 = [⟨1, 1, 0⟩] :=
  have w := erase_vertices_invariant fourVertices [NO_ID, 0, 1, NO_ID] (by decide) (by decide)
  ⟨by decide, w.2.2.2.1, by decide, by decide⟩

end VerticesTheorems

/-! ## Theorems: the initial build of the unique vertices -/

section ColocationTheorems

variable {P : Type} {D : Type} [LinearOrder D]

theorem findIdx_congr_mem {α : Type} (f g : α → Bool) (l : List α)
    (h : ∀ a ∈ l, f a = g a) : l.findIdx f = l.findIdx g := by
  induction l with
  | nil => rfl
  | cons a l ih =>
    have ha := h a (List.mem_cons_self _ _)
    have hl : ∀ b ∈ l, f b = g b := fun b hb => h b (List.mem_cons_of_mem _ hb)
    simp only [List.findIdx_cons, ha, ih hl]

theorem colocated_to_delete_length (dist : P → P → D) (ε : D) (L : List P) :
    (colocated_to_delete dist ε L).length = L.length := by
  simp [colocated_to_delete]

theorem colocated_to_delete_getD (dist : P → P → D) (ε : D) (L : List P) (v : Nat) (p : P)
    (hv : L[v]? = some p) :
    (colocated_to_delete dist ε L).getD v NO_ID = lowest_colocated dist ε L v p := by
  simp [colocated_to_delete, List.getD_eq_getElem?_getD, List.getElem?_map, List.getElem?_enum, hv]

theorem lowest_colocated_spec (dist : P → P → D) (ε : D) (L : List P) (v : Nat) (p : P)
    (hv : L[v]? = some p) (hrefl : dist p p < ε) :
    lowest_colocated dist ε L v p = L.findIdx (fun q => decide (dist p q < ε))
      ∧ lowest_colocated dist ε L v p ≤ v
      ∧ (∃ q, L[lowest_colocated dist ε L v p]? = some q ∧ dist p q < ε)
      ∧ ∀ k r, L[k]? = some r → dist p r < ε → lowest_colocated dist ε L v p ≤ k := by
  obtain ⟨hvl, hvp⟩ := List.getElem?_eq_some_iff.mp hv
  have hle : L.findIdx (fun q => decide (dist p q < ε)) ≤ v := by
    by_contra hc
    have := List.not_of_lt_findIdx (Nat.lt_of_not_le hc)
    rw [hvp] at this
    simp [hrefl] at this
  have hm : lowest_colocated dist ε L v p = L.findIdx (fun q => decide (dist p q < ε)) :=
    Nat.min_eq_right hle
  have hlt : L.findIdx (fun q => decide (dist p q < ε)) < L.length := by omega
  refine ⟨hm, by omega, ?_, ?_⟩
  · rw [hm]
    refine ⟨L[L.findIdx (fun q => decide (dist p q < ε))], List.getElem?_eq_getElem hlt, ?_⟩
    have := List.findIdx_getElem (w := hlt)
    simpa using this
  · intro k r hk hr
    rw [hm]
    by_contra hc
    obtain ⟨hkl, hkr⟩ := List.getElem?_eq_some_iff.mp hk
    have := List.not_of_lt_findIdx (Nat.lt_of_not_le hc)
    rw [hkr] at this
    simp [hr] at this

theorem lowest_colocated_eq (dist : P → P → D) (ε : D) (L : List P)
    (hrefl : ∀ p ∈ L, dist p p < ε)
    (hsymm : ∀ p ∈ L, ∀ q ∈ L, dist p q < ε → dist q p < ε)
    (htrans : ∀ p ∈ L, ∀ q ∈ L, ∀ r ∈ L, dist p q < ε → dist q r < ε → dist p r < ε)
    (v w : Nat) (p q : P) (hv : L[v]? = some p) (hw : L[w]? = some q) (hpq : dist p q < ε) :
    lowest_colocated dist ε L v p = lowest_colocated dist ε L w q := by
  have hp : p ∈ L := List.getElem?_mem hv
  have hq : q ∈ L := List.getElem?_mem hw
  rw [(lowest_colocated_spec dist ε L v p hv (hrefl p hp)).1,
    (lowest_colocated_spec dist ε L w q hw (hrefl q hq)).1]
  apply findIdx_congr_mem
  intro r hr
  rw [Bool.eq_iff_iff]
  simp only [decide_eq_true_eq]
  constructor
  · intro h
    exact htrans q hq p hp r hr (hsymm p hp q hq hpq) h
  · intro h
    exact htrans p hp q hq r hr hpq h

theorem fill_nb (ev : List (GMEVertex × P)) :
    ( GeoModelMeshVertices.fill ev).nb = ev.length := by
  simp [GeoModelMeshVertices.fill, GeoModelMeshVertices.nb]

theorem fill_points_getElem_opt (ev : List (GMEVertex × P)) (v : Nat) (e : GMEVertex × P)
    (h : ev[v]? = some e) : ( GeoModelMeshVertices.fill ev).points[v]? = some e.2 := by
  simp [GeoModelMeshVertices.fill, List.getElem?_map, h]

theorem fill_gme_vertices (ev : List (GMEVertex × P)) (v : Nat) (e : GMEVertex × P)
    (h : ev[v]? = some e) : ( GeoModelMeshVertices.fill ev).gme_vertices v = [e.1] := by
  simp [GeoModelMeshVertices.fill, GeoModelMeshVertices.gme_vertices,
    List.getD_eq_getElem?_getD, List.getElem?_map, h]

/-- The index found for the point of an entity vertex is the new index of the
lowest vertex colocated with it. -/
theorem index_of_entity_vertex (dist : P → P → D) (ε : D) (ev : List (GMEVertex × P))
    (hn : ev.length ≤ NO_ID)
    (hrefl : ∀ e ∈ ev, dist e.2 e.2 < ε)
    (hsymm : ∀ e1 ∈ ev, ∀ e2 ∈ ev, dist e1.2 e2.2 < ε → dist e2.2 e1.2 < ε)
    (htrans : ∀ e1 ∈ ev, ∀ e2 ∈ ev, ∀ e3 ∈ ev,
      dist e1.2 e2.2 < ε → dist e2.2 e3.2 < ε → dist e1.2 e3.2 < ε)
    (v : Nat) (e : GMEVertex × P) (hv : ev[v]? = some e) :
    ∃ m em, ev[m]? = some em ∧ m ≤ v ∧ dist e.2 em.2 < ε
      ∧ m = lowest_colocated dist ε (ev.map Prod.snd) v e.2
      ∧ (∀ k ek, ev[k]? = some ek → dist e.2 ek.2 < ε → m ≤ k)
      ∧ is_kept (colocated_to_delete dist ε (ev.map Prod.snd)) m = true
      ∧ (colocated_to_delete dist ε (ev.map Prod.snd)).getD v NO_ID = m
      ∧ ( GeoModelMeshVertices.initialize dist ε ev).index dist ε e.2
          = compacted_index (colocated_to_delete dist ε (ev.map Prod.snd)) m
      ∧ compacted_index (colocated_to_delete dist ε (ev.map Prod.snd)) m
          < ( GeoModelMeshVertices.initialize dist ε ev).nb
      ∧ ( GeoModelMeshVertices.initialize dist ε ev).points[
            compacted_index (colocated_to_delete dist ε (ev.map Prod.snd)) m]? = some em.2 := by
  have hreflL : ∀ p ∈ ev.map Prod.snd, dist p p < ε := by
    intro p hp
    obtain ⟨e', he', rfl⟩ := List.mem_map.mp hp
    exact hrefl e' he'
  have hsymmL : ∀ p ∈ ev.map Prod.snd, ∀ q ∈ ev.map Prod.snd, dist p q < ε → dist q p < ε := by
    intro p hp q hq
    obtain ⟨e1, he1, rfl⟩ := List.mem_map.mp hp
    obtain ⟨e2, he2, rfl⟩ := List.mem_map.mp hq
    exact hsymm e1 he1 e2 he2
  have htransL : ∀ p ∈ ev.map Prod.snd, ∀ q ∈ ev.map Prod.snd, ∀ r ∈ ev.map Prod.snd,
      dist p q < ε → dist q r < ε → dist p r < ε := by
    intro p hp q hq r hr
    obtain ⟨e1, he1, rfl⟩ := List.mem_map.mp hp
    obtain ⟨e2, he2, rfl⟩ := List.mem_map.mp hq
    obtain ⟨e3, he3, rfl⟩ := List.mem_map.mp hr
    exact htrans e1 he1 e2 he2 e3 he3
  have hLget : ∀ (k : Nat) (ek : GMEVertex × P), ev[k]? = some ek → (ev.map Prod.snd)[k]? = some ek.2 := by
    intro k ek hk
    simp [List.getElem?_map, hk]
  have hLv := hLget v e hv
  obtain ⟨-, hm2, ⟨q, hq1, hq2⟩, hm4⟩ :=
    lowest_colocated_spec dist ε (ev.map Prod.snd) v e.2 hLv (hreflL _ (List.getElem?_mem hLv))
  generalize hmdef : lowest_colocated dist ε (ev.map Prod.snd) v e.2 = m at hm2 hq1 hm4
  generalize htd : colocated_to_delete dist ε (ev.map Prod.snd) = td
  have hem : ∃ em, ev[m]? = some em ∧ em.2 = q := by
    rw [List.getElem?_map] at hq1
    cases h : ev[m]? with
    | none => rw [h] at hq1; cases hq1
    | some em =>
      rw [h] at hq1
      exact ⟨em, rfl, Option.some.inj hq1⟩
  obtain ⟨em, hem1, hem2⟩ := hem
  subst hem2
  have hmm : lowest_colocated dist ε (ev.map Prod.snd) m em.2 = m := by
    rw [← lowest_colocated_eq dist ε _ hreflL hsymmL htransL v m e.2 em.2 hLv hq1 hq2, hmdef]
  have hmlt : m < (ev.map Prod.snd).length := (List.getElem?_eq_some_iff.mp hq1).1
  have htdlen : td.length = (ev.map Prod.snd).length := by
    rw [← htd, colocated_to_delete_length]
  have htdm : td.getD m NO_ID = m := by
    rw [← htd, colocated_to_delete_getD dist ε _ m em.2 hq1, hmm]
  have hkept : is_kept td m = true := (is_kept_iff td m).mpr (Or.inr htdm)
  have htdv : td.getD v NO_ID = m := by
    rw [← htd, colocated_to_delete_getD dist ε _ v e.2 hLv, hmdef]
  have hs : GeoModelMeshVertices.initialize dist ε ev
      = (( GeoModelMeshVertices.fill ev).erase_vertices td).1 := by
    rw [← htd]
    rfl
  have hnb0 : ( GeoModelMeshVertices.fill ev).nb = (ev.map Prod.snd).length := rfl
  have hpts0 : ∀ k : Nat, ( GeoModelMeshVertices.fill ev).points[k]? = (ev.map Prod.snd)[k]? :=
    fun k => rfl
  have hpts : ( GeoModelMeshVertices.initialize dist ε ev).points[compacted_index td m]?
      = some em.2 := by
    rw [hs, erase_points td _ m (by omega) hkept, hpts0, hq1]
  have hclt : compacted_index td m < ( GeoModelMeshVertices.initialize dist ε ev).nb := by
    rw [hs, erase_nb]
    exact compacted_index_lt td _ m (by omega) hkept
  refine ⟨m, em, hem1, hm2, hq2, rfl, ?_, hkept, htdv, ?_, hclt, hpts⟩
  · intro k ek hk hd
    exact hm4 k ek.2 (hLget k ek hk) hd
  · have hmem : (compacted_index td m, em.2)
        ∈ ( GeoModelMeshVertices.initialize dist ε ev).points.enum :=
      List.mk_mem_enum_iff_getElem?.mpr hpts
    unfold GeoModelMeshVertices.index
    cases hargmin : ( GeoModelMeshVertices.initialize dist ε ev).points.enum.argmin
        (fun iq => dist e.2 iq.2) with
    | none =>
      rw [List.argmin_eq_none] at hargmin
      rw [hargmin] at hmem
      cases hmem
    | some iq =>
      have hin : iq ∈ ( GeoModelMeshVertices.initialize dist ε ev).points.enum :=
        List.argmin_mem hargmin
      have hle : dist e.2 iq.2 ≤ dist e.2 em.2 :=
        List.le_of_mem_argmin (f := fun iq : Nat × P => dist e.2 iq.2) hmem hargmin
      have hlt : dist e.2 iq.2 < ε := lt_of_le_of_lt hle hq2
      obtain ⟨i, q'⟩ := iq
      have hi : ( GeoModelMeshVertices.initialize dist ε ev).points[i]? = some q' :=
        List.mk_mem_enum_iff_getElem?.mp hin
      have hi_lt : i < (kept_vertices td ( GeoModelMeshVertices.fill ev).nb).length := by
        rw [← erase_nb, ← hs]
        exact (List.getElem?_eq_some_iff.mp hi).1
      obtain ⟨hu, hku, hiu⟩ := filter_range_index_of (is_kept td) _ i _
        (List.getElem?_eq_getElem hi_lt)
      generalize (kept_vertices td ( GeoModelMeshVertices.fill ev).nb)[i] = u at hu hku hiu
      have hiu' : i = compacted_index td u := hiu
      have hpu := erase_points td ( GeoModelMeshVertices.fill ev) u hu hku
      rw [← hs, ← hiu', hi, hpts0] at hpu
      have hlu : lowest_colocated dist ε (ev.map Prod.snd) u q' = u := by
        have h1 := (is_kept_iff td u).mp hku
        rw [← htd, colocated_to_delete_getD dist ε _ u q' hpu.symm] at h1
        have hle := (lowest_colocated_spec dist ε (ev.map Prod.snd) u q' hpu.symm
          (hreflL _ (List.getElem?_mem hpu.symm))).2.1
        have hu2 : u < ev.length := by
          rw [← fill_nb ev]
          exact hu
        rcases h1 with h1 | h1
        · omega
        · exact h1
      have hmu : m = u := by
        rw [← hlu, ← hmdef]
        exact lowest_colocated_eq dist ε _ hreflL hsymmL htransL v u e.2 q' hLv hpu.symm hlt
      simp only [hlt, if_true]
      rw [hiu', hmu]

theorem erase_gme_vertices_mem (td : List Nat) (s : GeoModelMeshVertices P) (v m : Nat)
    (hv : v < s.nb) (hm : m < s.nb) (hk : is_kept td m = true) (htd : merged_with td v = m)
    (r : GMEVertex) (hr : r ∈ s.gme_vertices v) :
    r ∈ (s.erase_vertices td).1.gme_vertices (compacted_index td m) := by
  rw [erase_gme_vertices td s m hm hk, List.mem_append]
  by_cases e : v = m
  · left
    rw [← e]
    exact hr
  · right
    rw [List.mem_flatMap]
    refine ⟨v, ?_, hr⟩
    simp only [merged_into, List.mem_filter, List.mem_range, decide_eq_true_eq]
    exact ⟨hv, e, htd⟩

theorem old2new_eq (td : List Nat) (v m : Nat) (hv : v < NO_ID) (hle : m ≤ v)
    (hk : is_kept td m = true) (htd : td.getD v NO_ID = m) :
    old2new td v = compacted_index td m := by
  rw [old2new, merged_with_target_kept td v m hv hle hk htd]

/-- C6 (amended): let being at distance `< ε` be reflexive, symmetric and
transitive on the points of the entity vertices (no vertex is within `ε` of
two vertices that are not within `ε` of each other). Then after the initial
build, any two entity vertices `p` and `q` at distance `< ε` resolve to the
same unique vertex: `index( p ) = index( q )`, this index is a unique vertex
whose point is the point of the lowest entity vertex colocated with `p`, its
`gme_vertices` contain both entity vertices, and both entities store this
index for them. For example two corners both at (0, 0, 0) give `nb() = 1`, and
`gme_vertices( 0 )` has exactly 2 entries. -/
theorem initialize_resolves_colocated (dist : P → P → D) (ε : D)
    (ev : List (GMEVertex × P)) (hn : ev.length ≤ NO_ID)
    (hrefl : ∀ e ∈ ev, dist e.2 e.2 < ε)
    (hsymm : ∀ e1 ∈ ev, ∀ e2 ∈ ev, dist e1.2 e2.2 < ε → dist e2.2 e1.2 < ε)
    (htrans : ∀ e1 ∈ ev, ∀ e2 ∈ ev, ∀ e3 ∈ ev,
      dist e1.2 e2.2 < ε → dist e2.2 e3.2 < ε → dist e1.2 e3.2 < ε)
    (i j : Nat) (e1 e2 : GMEVertex × P) (h1 : ev[i]? = some e1) (h2 : ev[j]? = some e2)
    (hd : dist e1.2 e2.2 < ε) :
    ( GeoModelMeshVertices.initialize dist ε ev).index dist ε e1.2
        = ( GeoModelMeshVertices.initialize dist ε ev).index dist ε e2.2
      ∧ ( GeoModelMeshVertices.initialize dist ε ev).index dist ε e1.2
          < ( GeoModelMeshVertices.initialize dist ε ev).nb
      ∧ (∃ m em, ev[m]? = some em ∧ m ≤ i ∧ m ≤ j ∧ dist e1.2 em.2 < ε
          ∧ (∀ k ek, ev[k]? = some ek → dist e1.2 ek.2 < ε → m ≤ k)
          ∧ ( GeoModelMeshVertices.initialize dist ε ev).points[
              ( GeoModelMeshVertices.initialize dist ε ev).index dist ε e1.2]? = some em.2)
      ∧ e1.1 ∈ ( GeoModelMeshVertices.initialize dist ε ev).gme_vertices
          (( GeoModelMeshVertices.initialize dist ε ev).index dist ε e1.2)
      ∧ e2.1 ∈ ( GeoModelMeshVertices.initialize dist ε ev).gme_vertices
          (( GeoModelMeshVertices.initialize dist ε ev).index dist ε e1.2)
      ∧ (e1.1, ( GeoModelMeshVertices.initialize dist ε ev).index dist ε e1.2)
          ∈ ( GeoModelMeshVertices.initialize dist ε ev).model_vertex_id_
      ∧ (e2.1, ( GeoModelMeshVertices.initialize dist ε ev).index dist ε e1.2)
          ∈ ( GeoModelMeshVertices.initialize dist ε ev).model_vertex_id_
      ∧ ( GeoModelMeshVertices.initialize length2 1 twoCorners).nb = 1
      ∧ (( GeoModelMeshVertices.initialize length2 1 twoCorners).gme_vertices 0).length = 2 := by
  obtain ⟨m, em, hm1, hm2, hm3, hm4, hm5, hm6, hm7, hm8, hm9, hm10⟩ :=
    index_of_entity_vertex dist ε ev hn hrefl hsymm htrans i e1 h1
  obtain ⟨m', em', hm1', hm2', -, hm4', -, -, hm7', hm8', -, -⟩ :=
    index_of_entity_vertex dist ε ev hn hrefl hsymm htrans j e2 h2
  have hL : ∀ (k : Nat) (ek : GMEVertex × P), ev[k]? = some ek →
      (ev.map Prod.snd)[k]? = some ek.2 := by
    intro k ek hk
    simp [List.getElem?_map, hk]
  have hmm : m = m' := by
    rw [hm4, hm4']
    apply lowest_colocated_eq dist ε _ _ _ _ i j e1.2 e2.2 (hL i e1 h1) (hL j e2 h2) hd
    · intro p hp
      obtain ⟨e', he', rfl⟩ := List.mem_map.mp hp
      exact hrefl e' he'
    · intro p hp q hq
      obtain ⟨a, ha, rfl⟩ := List.mem_map.mp hp
      obtain ⟨b, hb, rfl⟩ := List.mem_map.mp hq
      exact hsymm a ha b hb
    · intro p hp q hq r hr
      obtain ⟨a, ha, rfl⟩ := List.mem_map.mp hp
      obtain ⟨b, hb, rfl⟩ := List.mem_map.mp hq
      obtain ⟨c, hc, rfl⟩ := List.mem_map.mp hr
      exact htrans a ha b hb c hc
  subst hmm
  generalize htd : colocated_to_delete dist ε (ev.map Prod.snd) = td at *
  have hs : GeoModelMeshVertices.initialize dist ε ev
      = (( GeoModelMeshVertices.fill ev).erase_vertices td).1 := by
    rw [← htd]
    rfl
  have hnb0 : ( GeoModelMeshVertices.fill ev).nb = ev.length := fill_nb ev
  have hi : i < ev.length := (List.getElem?_eq_some_iff.mp h1).1
  have hj : j < ev.length := (List.getElem?_eq_some_iff.mp h2).1
  have hml : m < ev.length := by omega
  have hg : ∀ (k : Nat) (ek : GMEVertex × P), ev[k]? = some ek → m ≤ k →
      td.getD k NO_ID = m →
      ek.1 ∈ ( GeoModelMeshVertices.initialize dist ε ev).gme_vertices (compacted_index td m) := by
    intro k ek hk hle hkm
    have hkl : k < ev.length := (List.getElem?_eq_some_iff.mp hk).1
    rw [hs]
    apply erase_gme_vertices_mem td _ k m _ (by omega) hm6
      (merged_with_target_kept td k m (by omega) hle hm6 hkm)
    · rw [fill_gme_vertices ev k ek hk]
      exact List.mem_singleton_self _
    · rw [hnb0]
      exact (List.getElem?_eq_some_iff.mp hk).1
  have hclt : compacted_index td m < NO_ID := by
    have h := compacted_index_lt td ev.length m hml hm6
    have := List.length_filter_le (is_kept td) (List.range ev.length)
    simp only [List.length_range] at this
    unfold kept_vertices at h
    omega
  have ht : ∀ (k : Nat) (ek : GMEVertex × P), ev[k]? = some ek → m ≤ k →
      td.getD k NO_ID = m →
      (ek.1, compacted_index td m)
        ∈ ( GeoModelMeshVertices.initialize dist ε ev).model_vertex_id_ := by
    intro k ek hk hle hkm
    rw [hs]
    simp only [GeoModelMeshVertices.erase_vertices, GeoModelMeshVertices.fill, List.mem_map]
    refine ⟨(ek.1, k), ⟨(k, ek), List.mk_mem_enum_iff_getElem?.mpr hk, rfl⟩, ?_⟩
    have hkl : k < ev.length := (List.getElem?_eq_some_iff.mp hk).1
    have := old2new_eq td k m (by omega) hle hm6 hkm
    simp only [this]
  rw [hm8, hm8']
  exact ⟨rfl, hm9, ⟨m, em, hm1, hm2, hm2', hm3, hm5, hm10⟩, hg i e1 h1 hm2 hm7,
    hg j e2 h2 hm2' hm7',
    ht i e1 h1 hm2 hm7, ht j e2 h2 hm2' hm7', by decide, by decide⟩


end ColocationTheorems

/-- C6 fails as stated: three corners at the abscissas 0, 2 and 5 with `ε = 4`
(squared distances against 16). The second and third corners are at distance
3, and after the build `index` answers 0 for the second and `NO_ID` for the
third: the only unique vertex left is at distance 5 of it. -/
theorem initialize_colocation_not_transitive :
    ¬ (∀ e1 ∈ threeCorners, ∀ e2 ∈ threeCorners, length2 e1.2 e2.2 < 16 →
        ( GeoModelMeshVertices.initialize length2 16 threeCorners).index length2 16 e1.2
          = ( GeoModelMeshVertices.initialize length2 16 threeCorners).index length2 16 e2.2) := by
  decide

/-- Witness of C6 (amended), scenario A of the spec: the two corners both at
(0, 0, 0) resolve to the unique vertex 0. -/
theorem initialize_resolves_colocated_witness :
    twoCorners.length ≤ NO_ID
      ∧ (∀ e ∈ twoCorners, length2 e.2 e.2 < 1)
      ∧ ( GeoModelMeshVertices.initialize length2 1 twoCorners).index length2 1 (0, 0, 0)
          < ( GeoModelMeshVertices.initialize length2 1 twoCorners).nb
      ∧ ( GeoModelMeshVertices.initialize length2 1 twoCorners).index length2 1 (0, 0, 0) = 0 :=
  have w := initialize_resolves_colocated length2 1 twoCorners (by decide) (by decide)
    (by decide) (by decide) 0 1 (⟨0, 0, 0⟩, (0, 0, 0)) (⟨0, 1, 0⟩, (0, 0, 0)) rfl rfl
    (by decide)
  ⟨by decide, by decide, w.2.1, by decide⟩

/-! ## Theorems: the exceptions of the exporters -/

section ExporterExceptionTheorems

variable {P : Type}

/-- C11: `AdeliIOHandler::save` throws the `RINGMeshException` "Adeli supports
only tet meshes" if and only if `mesh.cells.nb()` differs from
`mesh.cells.nb_tet()`, and it throws nothing else; when it throws, nothing has
been written to the stream (no node line, no element line), and when it does
not, the stream holds the lines it returns, which start with `$NOD`. -/
theorem adeli_save_throws_iff (gm : GeoModel P) :
    ( AdeliIOHandler.save gm = Except.error "Adeli supports only tet meshes"
        ↔ gm.cells_nb ≠ gm.cells_nb_tet)
      ∧ ((∃ msg, AdeliIOHandler.save gm = Except.error msg) ↔ gm.cells_nb ≠ gm.cells_nb_tet)
      ∧ (∀ msg, AdeliIOHandler.save gm = Except.error msg → AdeliIOHandler.save_written gm = [])
      ∧ (∀ lines, AdeliIOHandler.save gm = Except.ok lines →
          AdeliIOHandler.save_written gm = lines ∧ lines.head? = some [Token.str "$NOD"]) := by
  by_cases h : gm.cells_nb = gm.cells_nb_tet
  · simp [AdeliIOHandler.save, AdeliIOHandler.save_written, AdeliIOHandler.write_vertices, h]
  · simp [AdeliIOHandler.save, AdeliIOHandler.save_written, h]

/-- Witness of C11: the model with one hexahedron is refused, the model with one
tetrahedron is written. -/
theorem adeli_save_throws_iff_witness :
    AdeliIOHandler.save hexGeoModel = Except.error "Adeli supports only tet meshes"
      ∧ AdeliIOHandler.save_written hexGeoModel = []
      ∧ ¬ (∃ msg, AdeliIOHandler.save exampleGeoModel = Except.error msg) :=
  ⟨(adeli_save_throws_iff hexGeoModel).1.mpr (by decide),
    (adeli_save_throws_iff hexGeoModel).2.2.1 _
      ((adeli_save_throws_iff hexGeoModel).1.mpr (by decide)),
    fun h => absurd ((adeli_save_throws_iff exampleGeoModel).2.1.mp h) (by decide)⟩

/-- C12: `MFEMIOHandler::save` throws the `RINGMeshException` "Export to MFEM
format works only with full tet or full hex format" if and only if
`cells.nb_tet() != cells.nb()` and `cells.nb_hex() != cells.nb()`, and it throws
nothing else; when it throws, the output file has not been opened, so nothing
is written; when it does not, the file holds the lines it returns. -/
theorem mfem_save_throws_iff (m : MeshView P) :
    ( MFEMIOHandler.save m
          = Except.error "Export to MFEM format works only with full tet or full hex format"
        ↔ (m.cells_nb_tet ≠ m.cells.length ∧ m.cells_nb_hex ≠ m.cells.length))
      ∧ ((∃ msg, MFEMIOHandler.save m = Except.error msg)
        ↔ (m.cells_nb_tet ≠ m.cells.length ∧ m.cells_nb_hex ≠ m.cells.length))
      ∧ (∀ msg, MFEMIOHandler.save m = Except.error msg → MFEMIOHandler.save_file m = none)
      ∧ (∀ lines, MFEMIOHandler.save m = Except.ok lines →
          MFEMIOHandler.save_file m = some lines
            ∧ lines.head? = some [Token.str "MFEM mesh v1.0"]) := by
  by_cases h : m.cells_nb_tet ≠ m.cells.length ∧ m.cells_nb_hex ≠ m.cells.length
  · simp [MFEMIOHandler.save, MFEMIOHandler.save_file, h]
  · have h' : ¬ (¬ m.cells_nb_tet = m.cells.length ∧ ¬ m.cells_nb_hex = m.cells.length) := h
    simp only [MFEMIOHandler.save, MFEMIOHandler.save_file, ne_eq, if_neg h',
      MFEMIOHandler.write_header]
    simp [h']

/-- Witness of C12: a tetrahedron and a prism are refused, a single tetrahedron
is written. -/
theorem mfem_save_throws_iff_witness :
    MFEMIOHandler.save mixedMesh
        = Except.error "Export to MFEM format works only with full tet or full hex format"
      ∧ MFEMIOHandler.save_file mixedMesh = none
      ∧ ¬ (∃ msg, MFEMIOHandler.save tetMesh = Except.error msg) :=
  ⟨(mfem_save_throws_iff mixedMesh).1.mpr (by decide),
    (mfem_save_throws_iff mixedMesh).2.2.1 _ ((mfem_save_throws_iff mixedMesh).1.mpr (by decide)),
    fun h => absurd ((mfem_save_throws_iff tetMesh).2.1.mp h) (by decide)⟩

end ExporterExceptionTheorems

/-! ## Theorems: the cell facet centers -/

section CellFacetCenterTheorems

variable {P : Type}

theorem compute_region_cell_facet_centers_length (bary : Nat → Nat → P) (n : Nat) :
    (compute_region_cell_facet_centers bary n).length = 4 * n := by
  induction n with
  | zero => rfl
  | succ k ih =>
    unfold compute_region_cell_facet_centers at ih ⊢
    rw [List.range_succ, List.flatMap_append, List.length_append, ih]
    simp
    omega

theorem compute_region_cell_facet_centers_succ (bary : Nat → Nat → P) (n : Nat) :
    compute_region_cell_facet_centers bary (n + 1)
      = compute_region_cell_facet_centers bary n
        ++ [bary n 0, bary n 1, bary n 2, bary n 3] := by
  unfold compute_region_cell_facet_centers
  rw [List.range_succ, List.flatMap_append]
  simp [List.range_succ]

/-- C19: the center of facet `f` (0 <= f <= 3) of cell `c` is stored at position
`4 c + f` of the vector built by `compute_region_cell_facet_centers`, which has
`4 * nb_cells` entries, and `determine_surface_side_to_add` decodes the index
`4 c + f` to exactly the cell `c` and the local facet `f`: it answers with the
normal of facet `f` of cell `c`. Every index `i` is decoded to the local facet
`i mod 4` and the cell `(i - i mod 4) / 4`. -/
theorem cell_facet_center_id_roundtrip (bary : Nat → Nat → P)
    (same_direction : Nat → Nat → Bool) (nb_cells c f : Nat)
    (hc : c < nb_cells) (hf : f < 4) :
    (compute_region_cell_facet_centers bary nb_cells)[4 * c + f]? = some (bary c f)
      ∧ (compute_region_cell_facet_centers bary nb_cells).length = 4 * nb_cells
      ∧ cell_and_facet_of_center_id (c * 4 + f) = (c, f)
      ∧ determine_surface_side_to_add same_direction (c * 4 + f) = same_direction c f
      ∧ ∀ i : Nat, cell_and_facet_of_center_id i = ((i - i % 4) / 4, i % 4)
          ∧ (cell_and_facet_of_center_id i).1 * 4 + (cell_and_facet_of_center_id i).2 = i := by
  have hdec : cell_and_facet_of_center_id (c * 4 + f) = (c, f) := by
    unfold cell_and_facet_of_center_id
    have h1 : (c * 4 + f) % 4 = f := by omega
    have h2 : (c * 4 + f - f) / 4 = c := by omega
    simp only [h1, h2]
  refine ⟨?_, compute_region_cell_facet_centers_length bary nb_cells, hdec, ?_, ?_⟩
  · induction nb_cells with
    | zero => omega
    | succ n ih =>
      rw [compute_region_cell_facet_centers_succ]
      by_cases hcn : c < n
      · rw [List.getElem?_append_left
          (by rw [compute_region_cell_facet_centers_length]; omega)]
        exact ih hcn
      · have hcn' : c = n := by omega
        subst hcn'
        rw [List.getElem?_append_right
          (by rw [compute_region_cell_facet_centers_length]; omega),
          compute_region_cell_facet_centers_length]
        have h4 : 4 * c + f - 4 * c = f := by omega
        rw [h4]
        have hf' : f = 0 ∨ f = 1 ∨ f = 2 ∨ f = 3 := by omega
        rcases hf' with h | h | h | h <;> subst h <;> rfl
  · unfold determine_surface_side_to_add
    rw [hdec]
  · intro i
    refine ⟨rfl, ?_⟩
    unfold cell_and_facet_of_center_id
    show (i - i % 4) / 4 * 4 + i % 4 = i
    omega

/-- Witness of C19: facet 2 of cell 1 of a region of three cells is at position
6, and 6 is decoded to (1, 2). -/
theorem cell_facet_center_id_roundtrip_witness :
    (compute_region_cell_facet_centers (fun c f => (c, f)) 3)[4 * 1 + 2]? = some (1, 2)
      ∧ cell_and_facet_of_center_id 6 = (1, 2) :=
  have w := cell_facet_center_id_roundtrip (fun c f => (c, f)) (fun _ _ => true) 3 1 2
    (by decide) (by decide)
  ⟨w.1, w.2.2.1⟩

end CellFacetCenterTheorems

/-! ## Theorems: the atoms of a TSolid file -/

section AtomTheorems

variable {P : Type}

/-- C20: on a vertex map as the loader builds it, where the atom refers to a
vertex already read and no vertex is registered in a region after the current
one, `read_and_add_atom_to_region_vertices` adds a point to the current
region's vertex list if and only if the region of the referred vertex is
different from the current region; the added point is
`geomodel.region( referred region ).vertex( referred local id )`, a copy of the
referred vertex, and the atom is mapped to the new last local index of the
current region. Otherwise no point is added and the atom is mapped to the
referred vertex's existing local id, in the current region. In both cases
exactly one `vertex_map` entry is appended, and the new map again registers no
vertex in a region after the current one. -/
theorem read_and_add_atom_adds_iff_other_region (region_vertex : Nat → Nat → P)
    (field2 region_id : Nat) (region_vertices : List P) (vertex_map : VertexMap)
    (hsize : region_vertices.length < index_t_size)
    (hread : index_sub field2 GOCAD_OFFSET < vertex_map.entries.length)
    (hmap : ∀ e ∈ vertex_map.entries, e.2 ≤ region_id) :
    ((read_and_add_atom_to_region_vertices region_vertex field2 region_id region_vertices
          vertex_map).1.length = region_vertices.length + 1
        ↔ vertex_map.region (index_sub field2 GOCAD_OFFSET) ≠ region_id)
      ∧ (vertex_map.region (index_sub field2 GOCAD_OFFSET) ≠ region_id →
          read_and_add_atom_to_region_vertices region_vertex field2 region_id region_vertices
              vertex_map
            = (region_vertices
                ++ [region_vertex (vertex_map.region (index_sub field2 GOCAD_OFFSET))
                      (vertex_map.local_id (index_sub field2 GOCAD_OFFSET))],
                { entries := vertex_map.entries ++ [(region_vertices.length, region_id)] }))
      ∧ (vertex_map.region (index_sub field2 GOCAD_OFFSET) = region_id →
          read_and_add_atom_to_region_vertices region_vertex field2 region_id region_vertices
              vertex_map
            = (region_vertices,
                { entries := vertex_map.entries
                    ++ [(vertex_map.local_id (index_sub field2 GOCAD_OFFSET), region_id)] }))
      ∧ (read_and_add_atom_to_region_vertices region_vertex field2 region_id region_vertices
          vertex_map).2.entries.length = vertex_map.entries.length + 1
      ∧ (∀ e ∈ (read_and_add_atom_to_region_vertices region_vertex field2 region_id
            region_vertices vertex_map).2.entries, e.2 ≤ region_id) := by
  have hmod : region_vertices.length % index_t_size = region_vertices.length :=
    Nat.mod_eq_of_lt hsize
  have hle : vertex_map.region (index_sub field2 GOCAD_OFFSET) ≤ region_id := by
    have hmem : vertex_map.entries.getD (index_sub field2 GOCAD_OFFSET) (NO_ID, NO_ID)
        ∈ vertex_map.entries := by
      rw [List.getD_eq_getElem _ _ hread]
      exact List.getElem_mem _
    exact hmap _ hmem
  by_cases h : vertex_map.region (index_sub field2 GOCAD_OFFSET) < region_id
  · have hne : vertex_map.region (index_sub field2 GOCAD_OFFSET) ≠ region_id := by omega
    have hres : read_and_add_atom_to_region_vertices region_vertex field2 region_id
        region_vertices vertex_map
          = (region_vertices
              ++ [region_vertex (vertex_map.region (index_sub field2 GOCAD_OFFSET))
                    (vertex_map.local_id (index_sub field2 GOCAD_OFFSET))],
              { entries := vertex_map.entries ++ [(region_vertices.length, region_id)] }) := by
      unfold read_and_add_atom_to_region_vertices
      simp [h, hmod, VertexMap.add_vertex]
    rw [hres]
    refine ⟨by simp [hne], fun _ => rfl, fun he => absurd he hne, by simp, ?_⟩
    intro e he
    rcases List.mem_append.mp he with he | he
    · exact hmap e he
    · rw [List.mem_singleton] at he
      rw [he]
  · have heq : vertex_map.region (index_sub field2 GOCAD_OFFSET) = region_id := by omega
    have hres : read_and_add_atom_to_region_vertices region_vertex field2 region_id
        region_vertices vertex_map
          = (region_vertices,
              { entries := vertex_map.entries
                  ++ [(vertex_map.local_id (index_sub field2 GOCAD_OFFSET), region_id)] }) := by
      unfold read_and_add_atom_to_region_vertices
      simp [h, VertexMap.add_vertex, heq]
    rw [hres]
    refine ⟨by simp [heq], fun hne => absurd heq hne, fun _ => rfl, by simp, ?_⟩
    intro e he
    rcases List.mem_append.mp he with he | he
    · exact hmap e he
    · rw [List.mem_singleton] at he
      rw [he]

/-- Witness of C20: in region 1, the atom of Gocad index 2 refers to the vertex
1 of region 0, and its point is added; the atom of Gocad index 3 refers to a
vertex of region 1 itself, and no point is added. -/
theorem read_and_add_atom_adds_iff_other_region_witness :
    (read_and_add_atom_to_region_vertices (fun r v => (r, v)) 2 1 [(1, 0)]
        exampleVertexMap).1 = [(1, 0), (0, 1)]
      ∧ (read_and_add_atom_to_region_vertices (fun r v => (r, v)) 3 1 [(1, 0)]
        exampleVertexMap).1 = [(1, 0)]
      ∧ (read_and_add_atom_to_region_vertices (fun r v => (r, v)) 2 1 [(1, 0)]
        exampleVertexMap).2.entries.length = exampleVertexMap.entries.length + 1 :=
  have w := read_and_add_atom_adds_iff_other_region (fun r v => (r, v)) 2 1 [(1, 0)]
    exampleVertexMap (by decide) (by decide) (by decide)
  ⟨by decide, by decide, w.2.2.2.1⟩

end AtomTheorems

/-! ## Theorems: a surface bounds at most two regions -/

theorem add_surface_sides_regions (side_to_add : Nat → Nat → Bool) (region_id : Nat)
    (colocated : List Nat) :
    ∀ l ∈ (add_surface_sides_to_region_boundaries side_to_add region_id colocated).1,
      l.1 = region_id := by
  intro l hl
  unfold add_surface_sides_to_region_boundaries at hl
  split at hl <;> simp at hl
  · rw [hl]
  · rcases hl with h | h <;> rw [h]

theorem nb_sides_found_zero (neighbors : List (List Nat)) : nb_sides_found neighbors 0 = 0 := by
  simp [nb_sides_found]

theorem nb_sides_found_cons (ns : List Nat) (rest : List (List Nat)) (k : Nat) :
    nb_sides_found (ns :: rest) (k + 1) = ns.length + nb_sides_found rest k := by
  simp [nb_sides_found]

theorem card_regions_append_le (added links : List (Nat × Bool)) (region_id : Nat)
    (h : ∀ l ∈ added, l.1 = region_id) :
    ((added ++ links).map Prod.fst).toFinset.card
      ≤ (if added = [] then 0 else 1) + (links.map Prod.fst).toFinset.card := by
  by_cases he : added = []
  · subst he
    simp
  · rw [if_neg he]
    have hsub : ((added ++ links).map Prod.fst).toFinset
        ⊆ insert region_id (links.map Prod.fst).toFinset := by
      intro x hx
      simp only [List.map_append, List.toFinset_append, Finset.mem_union, List.mem_toFinset,
        List.mem_map] at hx
      simp only [Finset.mem_insert, List.mem_toFinset, List.mem_map]
      rcases hx with ⟨l, hl, rfl⟩ | hx
      · exact Or.inl (h l hl)
      · exact Or.inr hx
    calc ((added ++ links).map Prod.fst).toFinset.card
        ≤ (insert region_id (links.map Prod.fst).toFinset).card := Finset.card_le_card hsub
      _ ≤ (links.map Prod.fst).toFinset.card + 1 := Finset.card_insert_le _ _
      _ = 1 + (links.map Prod.fst).toFinset.card := Nat.add_comm _ _

theorem add_surface_sides_nil_of_length (side_to_add : Nat → Nat → Bool) (region_id : Nat)
    (colocated : List Nat) (h : 3 ≤ colocated.length ∨ colocated.length = 0) :
    (add_surface_sides_to_region_boundaries side_to_add region_id colocated).1 = [] := by
  unfold add_surface_sides_to_region_boundaries
  split
  · simp at h
  · simp at h
  · rfl

theorem add_surface_loop_spec (side_to_add : Nat → Nat → Bool) (neighbors : List (List Nat))
    (hsize : ∀ ns ∈ neighbors, ns.length < NO_ID) (cur nb : Nat)
    (hcur : cur + neighbors.length < index_t_size) :
    ((add_surface_to_region_boundaries_loop side_to_add neighbors cur nb).links.map
        Prod.fst).toFinset.card ≤ 2 - nb
      ∧ (∀ l ∈ (add_surface_to_region_boundaries_loop side_to_add neighbors cur nb).links,
          cur ≤ l.1
            ∧ l.1 < (add_surface_to_region_boundaries_loop side_to_add neighbors cur nb).cur_region)
      ∧ (∃ k, k ≤ neighbors.length
          ∧ (add_surface_to_region_boundaries_loop side_to_add neighbors cur nb).cur_region
              = cur + k
          ∧ (add_surface_to_region_boundaries_loop side_to_add neighbors cur nb).nb_added_surf_sides
              = nb + nb_sides_found neighbors k
          ∧ (∀ j < k, nb + nb_sides_found neighbors j < 2)
          ∧ (k < neighbors.length → 2 ≤ nb + nb_sides_found neighbors k)) := by
  induction neighbors generalizing cur nb with
  | nil =>
    refine ⟨by simp [add_surface_to_region_boundaries_loop], ?_, 0, ?_⟩
    · simp [add_surface_to_region_boundaries_loop]
    · simp [add_surface_to_region_boundaries_loop, nb_sides_found]
  | cons ns rest ih =>
    have hns : ns.length < NO_ID := hsize ns (List.mem_cons_self _ _)
    have hrest : ∀ x ∈ rest, x.length < NO_ID := fun x hx => hsize x (List.mem_cons_of_mem _ hx)
    have hlen : (ns :: rest).length = rest.length + 1 := rfl
    rw [hlen] at hcur
    have hmod : ns.length % index_t_size = ns.length :=
      Nat.mod_eq_of_lt (by unfold NO_ID at hns; unfold index_t_size; omega)
    have hcur1 : index_add cur 1 = cur + 1 := by
      unfold index_add
      exact Nat.mod_eq_of_lt (by omega)
    by_cases hnb : nb < 2
    · have hadd : index_add nb ns.length = nb + ns.length := by
        unfold index_add
        exact Nat.mod_eq_of_lt (by unfold NO_ID at hns; unfold index_t_size; omega)
      by_cases hpos : ns.length > 0
      · obtain ⟨ih1, ih2, k, hk, hkc, hkn, hkj, hkl⟩ :=
          ih hrest (cur + 1) (nb + ns.length) (by omega)
        have hunf : add_surface_to_region_boundaries_loop side_to_add (ns :: rest) cur nb
            = { add_surface_to_region_boundaries_loop side_to_add rest (cur + 1)
                  (nb + ns.length) with
                links := (add_surface_sides_to_region_boundaries side_to_add cur ns).1
                  ++ (add_surface_to_region_boundaries_loop side_to_add rest (cur + 1)
                        (nb + ns.length)).links,
                assert_not_reached :=
                  (add_surface_sides_to_region_boundaries side_to_add cur ns).2
                    || (add_surface_to_region_boundaries_loop side_to_add rest (cur + 1)
                          (nb + ns.length)).assert_not_reached } := by
          rw [add_surface_to_region_boundaries_loop]
          simp only [hnb, if_true, hmod, hpos, hcur1, hadd]
        rw [hunf]
        refine ⟨?_, ?_, k + 1, by omega, ?_, ?_, ?_, ?_⟩
        · have hc := card_regions_append_le
            (add_surface_sides_to_region_boundaries side_to_add cur ns).1
            (add_surface_to_region_boundaries_loop side_to_add rest (cur + 1)
              (nb + ns.length)).links cur (add_surface_sides_regions side_to_add cur ns)
          simp only
          split at hc <;> omega
        · intro l hl
          simp only at hl ⊢
          rcases List.mem_append.mp hl with h | h
          · have := add_surface_sides_regions side_to_add cur ns l h
            omega
          · have := ih2 l h
            omega
        · simp only
          omega
        · simp only
          rw [nb_sides_found_cons]
          omega
        · intro j hj
          cases j with
          | zero => rw [nb_sides_found_zero]; omega
          | succ j =>
            rw [nb_sides_found_cons]
            have := hkj j (by omega)
            omega
        · intro hlt
          rw [nb_sides_found_cons]
          have := hkl (by omega)
          omega
      · have h0 : ns.length = 0 := by omega
        obtain ⟨ih1, ih2, k, hk, hkc, hkn, hkj, hkl⟩ := ih hrest (cur + 1) nb (by omega)
        have hunf : add_surface_to_region_boundaries_loop side_to_add (ns :: rest) cur nb
            = add_surface_to_region_boundaries_loop side_to_add rest (cur + 1) nb := by
          rw [add_surface_to_region_boundaries_loop]
          simp only [hnb, if_true, hmod, hpos, hcur1, if_false]
        rw [hunf]
        refine ⟨ih1, ?_, k + 1, by omega, ?_, ?_, ?_, ?_⟩
        · intro l hl
          have := ih2 l hl
          omega
        · omega
        · rw [nb_sides_found_cons]
          omega
        · intro j hj
          cases j with
          | zero => rw [nb_sides_found_zero]; omega
          | succ j =>
            rw [nb_sides_found_cons]
            have := hkj j (by omega)
            omega
        · intro hlt
          rw [nb_sides_found_cons]
          have := hkl (by omega)
          omega
    · have hunf : add_surface_to_region_boundaries_loop side_to_add (ns :: rest) cur nb
          = { links := [], cur_region := cur, nb_added_surf_sides := nb,
              assert_not_reached := false } := by
        rw [add_surface_to_region_boundaries_loop]
        simp only [hnb, if_false]
      rw [hunf]
      refine ⟨by simp, by simp, 0, by omega, by simp, ?_, by simp, ?_⟩
      · simp [nb_sides_found]
      · intro _
        rw [nb_sides_found_zero]
        omega

theorem add_surface_loop_links_length (side_to_add : Nat → Nat → Bool)
    (neighbors : List (List Nat)) (hsize : ∀ ns ∈ neighbors, ns.length < NO_ID) (cur nb : Nat)
    (hassert :
      (add_surface_to_region_boundaries_loop side_to_add neighbors cur nb).assert_not_reached
        = false) :
    nb + (add_surface_to_region_boundaries_loop side_to_add neighbors cur nb).links.length
      = (add_surface_to_region_boundaries_loop side_to_add neighbors cur nb).nb_added_surf_sides := by
  induction neighbors generalizing cur nb with
  | nil => simp [add_surface_to_region_boundaries_loop]
  | cons ns rest ih =>
    have hns : ns.length < NO_ID := hsize ns (List.mem_cons_self _ _)
    have hrest : ∀ x ∈ rest, x.length < NO_ID := fun x hx => hsize x (List.mem_cons_of_mem _ hx)
    have hmod : ns.length % index_t_size = ns.length :=
      Nat.mod_eq_of_lt (by unfold NO_ID at hns; unfold index_t_size; omega)
    rw [add_surface_to_region_boundaries_loop] at hassert ⊢
    by_cases hnb : nb < 2
    · have hadd : index_add nb ns.length = nb + ns.length := by
        unfold index_add
        exact Nat.mod_eq_of_lt (by unfold NO_ID at hns; unfold index_t_size; omega)
      by_cases hpos : ns.length > 0
      · simp only [hnb, if_true, hmod, hpos, hadd, Bool.or_eq_false_iff] at hassert ⊢
        have h := ih hrest _ _ hassert.2
        rw [List.length_append, ← h]
        have hl : (add_surface_sides_to_region_boundaries side_to_add cur ns).1.length
            = ns.length := by
          have h2 := hassert.1
          unfold add_surface_sides_to_region_boundaries at h2 ⊢
          split at h2 <;> simp at h2 ⊢
        omega
      · simp only [hnb, if_true, hmod, hpos, if_false] at hassert ⊢
        exact ih hrest _ _ hassert
    · simp [hnb]

/-- C18: `add_surface_to_region_boundaries` links a surface to at most two
regions, all of them among the regions it scanned; it scans the regions in
order and stops at the first region after which two surface sides have been
counted (or at the end of the regions), and when no assertion is reached the
number of links made is the number of sides counted. -/
theorem add_surface_to_region_boundaries_at_most_two (side_to_add : Nat → Nat → Bool)
    (neighbors : List (List Nat)) (hregions : neighbors.length < index_t_size)
    (hsize : ∀ ns ∈ neighbors, ns.length < NO_ID) :
    ((add_surface_to_region_boundaries side_to_add neighbors).links.map
        Prod.fst).toFinset.card ≤ 2
      ∧ (∀ l ∈ (add_surface_to_region_boundaries side_to_add neighbors).links,
          l.1 < (add_surface_to_region_boundaries side_to_add neighbors).cur_region)
      ∧ (add_surface_to_region_boundaries side_to_add neighbors).cur_region ≤ neighbors.length
      ∧ (add_surface_to_region_boundaries side_to_add neighbors).nb_added_surf_sides
          = nb_sides_found neighbors
              (add_surface_to_region_boundaries side_to_add neighbors).cur_region
      ∧ (∀ j < (add_surface_to_region_boundaries side_to_add neighbors).cur_region,
          nb_sides_found neighbors j < 2)
      ∧ ((add_surface_to_region_boundaries side_to_add neighbors).cur_region < neighbors.length →
          2 ≤ (add_surface_to_region_boundaries side_to_add neighbors).nb_added_surf_sides)
      ∧ ((add_surface_to_region_boundaries side_to_add neighbors).assert_not_reached = false →
          (add_surface_to_region_boundaries side_to_add neighbors).links.length
            = (add_surface_to_region_boundaries side_to_add neighbors).nb_added_surf_sides) := by
  obtain ⟨h1, h2, k, hk, hkc, hkn, hkj, hkl⟩ :=
    add_surface_loop_spec side_to_add neighbors hsize 0 0 (by omega)
  have hlinks : (add_surface_to_region_boundaries side_to_add neighbors).links
      = (add_surface_to_region_boundaries_loop side_to_add neighbors 0 0).links := rfl
  have hcur : (add_surface_to_region_boundaries side_to_add neighbors).cur_region
      = (add_surface_to_region_boundaries_loop side_to_add neighbors 0 0).cur_region := rfl
  have hadded : (add_surface_to_region_boundaries side_to_add neighbors).nb_added_surf_sides
      = (add_surface_to_region_boundaries_loop side_to_add neighbors 0 0).nb_added_surf_sides :=
    rfl
  rw [hlinks, hcur, hadded, hkc, hkn]
  simp only [Nat.zero_add] at hkj hkl ⊢
  refine ⟨by omega, ?_, hk, trivial, hkj, hkl, ?_⟩
  · intro l hl
    have := h2 l hl
    omega
  · intro hassert
    have hloop : (add_surface_to_region_boundaries_loop side_to_add neighbors 0
        0).assert_not_reached = false := by
      unfold add_surface_to_region_boundaries at hassert
      simp only [Bool.or_eq_false_iff] at hassert
      exact hassert.1
    have := add_surface_loop_links_length side_to_add neighbors hsize 0 0 hloop
    omega

/-- The surface of `exampleNeighbors` is linked to the second and the fourth
region, and the fifth region is not scanned. -/
theorem add_surface_to_region_boundaries_at_most_two_witness :
    (add_surface_to_region_boundaries (fun _ id => decide (id = 5)) exampleNeighbors).links
        = [(1, true), (3, false)]
      ∧ (add_surface_to_region_boundaries (fun _ id => decide (id = 5))
          exampleNeighbors).cur_region = 4
      ∧ ((add_surface_to_region_boundaries (fun _ id => decide (id = 5))
          exampleNeighbors).links.map Prod.fst).toFinset.card ≤ 2 :=
  ⟨by decide, by decide,
    (add_surface_to_region_boundaries_at_most_two (fun _ id => decide (id = 5)) exampleNeighbors
      (by decide) (by decide)).1⟩

/-! ## Theorems: boundaries of the Universe -/

theorem set_surface_side_length (ss : List Bool) (b : Nat × Bool) :
    (set_surface_side ss b).length = ss.length := by
  unfold set_surface_side
  split <;> simp

theorem foldl_set_surface_side_length (bs : List (Nat × Bool)) (ss : List Bool) :
    (bs.foldl set_surface_side ss).length = ss.length := by
  induction bs generalizing ss with
  | nil => rfl
  | cons b bs ih => rw [List.foldl_cons, ih, set_surface_side_length]

theorem set_surface_side_getD (ss : List Bool) (s : Nat) (side : Bool) (n : Nat)
    (hn : 2 * n < index_t_size) (hlen : ss.length = 2 * n) (hs : s < n) (t : Nat) (u : Bool)
    (ht : t < n) :
    (set_surface_side ss (s, side)).getD ((2 * t + (if u then 1 else 0)) % index_t_size) false
      = (ss.getD ((2 * t + (if u then 1 else 0)) % index_t_size) false
          || decide (s = t ∧ side = u)) := by
  have hm : ∀ (a : Nat) (v : Bool), a < n →
      (2 * a + (if v then 1 else 0)) % index_t_size = 2 * a + (if v then 1 else 0) := by
    intro a v ha
    apply Nat.mod_eq_of_lt
    split <;> omega
  rw [hm t u ht]
  unfold set_surface_side
  have h1 : (2 * s + 1) % index_t_size = 2 * s + 1 := Nat.mod_eq_of_lt (by omega)
  have h0 : (2 * s) % index_t_size = 2 * s := Nat.mod_eq_of_lt (by omega)
  simp only [h1, h0, List.getD_eq_getElem?_getD, List.getElem?_set]
  cases side <;> cases u <;> simp
  all_goals
    by_cases hst : s = t
    · subst hst
      have hlt0 : 2 * s < ss.length := by omega
      have hlt1 : 2 * s + 1 < ss.length := by omega
      simp [List.getElem?_set, hlt0, hlt1]
    · have : ¬ (2 * s = 2 * t) := by omega
      have : ¬ (2 * s + 1 = 2 * t + 1) := by omega
      have : ¬ (2 * s + 1 = 2 * t) := by omega
      have : ¬ (2 * s = 2 * t + 1) := by omega
      simp [*]

theorem foldl_set_surface_side_getD (bs : List (Nat × Bool)) (ss : List Bool) (n : Nat)
    (hn : 2 * n < index_t_size) (hlen : ss.length = 2 * n) (hbs : ∀ b ∈ bs, b.1 < n)
    (t : Nat) (u : Bool) (ht : t < n) :
    (bs.foldl set_surface_side ss).getD ((2 * t + (if u then 1 else 0)) % index_t_size) false
      = (ss.getD ((2 * t + (if u then 1 else 0)) % index_t_size) false
          || decide ((t, u) ∈ bs)) := by
  induction bs generalizing ss with
  | nil => simp
  | cons b bs ih =>
    obtain ⟨s, side⟩ := b
    have hs : s < n := hbs (s, side) (List.mem_cons_self _ _)
    rw [List.foldl_cons, ih (set_surface_side ss (s, side))
      (by rw [set_surface_side_length, hlen]) (fun b hb => hbs b (List.mem_cons_of_mem _ hb)),
      set_surface_side_getD ss s side n hn hlen hs t u ht]
    by_cases h : s = t ∧ side = u
    · obtain ⟨rfl, rfl⟩ := h
      simp
    · have hne : ¬ ((t, u) = (s, side)) := by
        intro he
        cases he
        exact h ⟨rfl, rfl⟩
      simp [h, hne]

theorem determine_if_surface_sides_length (regions : List (List (Nat × Bool)))
    (ss : List Bool) : (determine_if_surface_sides_bound_regions regions ss).length = ss.length := by
  unfold determine_if_surface_sides_bound_regions
  induction regions generalizing ss with
  | nil => rfl
  | cons r regions ih => rw [List.foldl_cons, ih, foldl_set_surface_side_length]

theorem determine_if_surface_sides_getD (regions : List (List (Nat × Bool))) (ss : List Bool)
    (n : Nat) (hn : 2 * n < index_t_size) (hlen : ss.length = 2 * n)
    (hidx : ∀ r ∈ regions, ∀ b ∈ r, b.1 < n) (t : Nat) (u : Bool) (ht : t < n) :
    (determine_if_surface_sides_bound_regions regions ss).getD
        ((2 * t + (if u then 1 else 0)) % index_t_size) false
      = (ss.getD ((2 * t + (if u then 1 else 0)) % index_t_size) false
          || decide (∃ r ∈ regions, (t, u) ∈ r)) := by
  unfold determine_if_surface_sides_bound_regions
  induction regions generalizing ss with
  | nil => simp
  | cons r regions ih =>
    rw [List.foldl_cons, ih (r.foldl set_surface_side ss)
      (by rw [foldl_set_surface_side_length, hlen])
      (fun r2 hr2 => hidx r2 (List.mem_cons_of_mem _ hr2)),
      foldl_set_surface_side_getD r ss n hn hlen (hidx r (List.mem_cons_self _ _)) t u ht]
    by_cases h1 : (t, u) ∈ r
    · simp [h1]
    · simp [h1]

theorem flatMap_fst_sublist (l : List Nat) (g : Nat → List (Nat × Bool))
    (hg : ∀ a, g a = [] ∨ ∃ side, g a = [(a, side)]) :
    ((l.flatMap g).map Prod.fst).Sublist l := by
  induction l with
  | nil => simp
  | cons a l ih =>
    rw [List.flatMap_cons, List.map_append]
    rcases hg a with h | ⟨side, h⟩
    · rw [h]
      exact List.Sublist.cons _ ih
    · rw [h]
      exact List.Sublist.cons₂ _ ih

/-- C15: `compute_universe_boundaries` adds the side `side` of the surface `s`
to the boundaries of the Universe exactly when that side occurs among the
boundaries of the regions and the other side does not; so a surface is added
if and only if exactly one of its sides bounds a region, and the surfaces
added are in strictly increasing order, none twice. -/
theorem compute_universe_boundaries_iff_one_side (nb_surfaces : Nat)
    (regions : List (List (Nat × Bool))) (hnb : 2 * nb_surfaces < index_t_size)
    (hidx : ∀ r ∈ regions, ∀ b ∈ r, b.1 < nb_surfaces) :
    (∀ s side, (s, side) ∈ compute_universe_boundaries nb_surfaces regions ↔
        (∃ r ∈ regions, (s, side) ∈ r) ∧ ¬ ∃ r ∈ regions, (s, !side) ∈ r)
      ∧ (∀ s, s ∈ (compute_universe_boundaries nb_surfaces regions).map Prod.fst ↔
          ((∃ r ∈ regions, (s, true) ∈ r) ∧ ¬ ∃ r ∈ regions, (s, false) ∈ r)
            ∨ ((∃ r ∈ regions, (s, false) ∈ r) ∧ ¬ ∃ r ∈ regions, (s, true) ∈ r))
      ∧ ((compute_universe_boundaries nb_surfaces regions).map Prod.fst).Sorted (· < ·)
      ∧ ((compute_universe_boundaries nb_surfaces regions).map Prod.fst).Nodup := by
  have hm0 : ∀ t, t < nb_surfaces → (2 * t) % index_t_size = 2 * t :=
    fun t ht => Nat.mod_eq_of_lt (by omega)
  have hm1 : ∀ t, t < nb_surfaces → (2 * t + 1) % index_t_size = 2 * t + 1 :=
    fun t ht => Nat.mod_eq_of_lt (by omega)
  have hrep : (List.replicate ((2 * nb_surfaces) % index_t_size) false).length
      = 2 * nb_surfaces := by
    rw [List.length_replicate, Nat.mod_eq_of_lt hnb]
  have hfalse : ∀ i, (List.replicate ((2 * nb_surfaces) % index_t_size) false).getD i false
      = false := by
    intro i
    rw [List.getD_eq_getElem?_getD]
    cases h : (List.replicate ((2 * nb_surfaces) % index_t_size) false)[i]? with
    | none => rfl
    | some b =>
      have := List.getElem?_mem h
      rw [List.mem_replicate] at this
      simp [this.2]
  have hplus : ∀ t, t < nb_surfaces →
      (determine_if_surface_sides_bound_regions regions
          (List.replicate ((2 * nb_surfaces) % index_t_size) false)).getD
        ((2 * t + 1) % index_t_size) false = decide (∃ r ∈ regions, (t, true) ∈ r) := by
    intro t ht
    have h := determine_if_surface_sides_getD regions _ nb_surfaces hnb hrep hidx t true ht
    simp only [if_true, hfalse, Bool.false_or] at h
    exact h
  have hminus : ∀ t, t < nb_surfaces →
      (determine_if_surface_sides_bound_regions regions
          (List.replicate ((2 * nb_surfaces) % index_t_size) false)).getD
        ((2 * t) % index_t_size) false = decide (∃ r ∈ regions, (t, false) ∈ r) := by
    intro t ht
    have h := determine_if_surface_sides_getD regions _ nb_surfaces hnb hrep hidx t false ht
    simp only [Bool.false_eq_true, if_false, Nat.add_zero, hfalse, Bool.false_or] at h
    exact h
  have hmem : ∀ s side, (s, side) ∈ compute_universe_boundaries nb_surfaces regions ↔
      (∃ r ∈ regions, (s, side) ∈ r) ∧ ¬ ∃ r ∈ regions, (s, !side) ∈ r := by
    intro s side
    unfold compute_universe_boundaries add_surfaces_to_universe_boundaries
    simp only [List.mem_flatMap, List.mem_range]
    constructor
    · rintro ⟨a, ha, hin⟩
      rw [hplus a ha, hminus a ha] at hin
      by_cases hp : ∃ r ∈ regions, (a, true) ∈ r <;>
        by_cases hq : ∃ r ∈ regions, (a, false) ∈ r <;>
        simp [hp, hq] at hin
      · obtain ⟨rfl, rfl⟩ := hin
        exact ⟨hp, by simpa using hq⟩
      · obtain ⟨rfl, rfl⟩ := hin
        exact ⟨hq, by simpa using hp⟩
    · rintro ⟨⟨r, hr, hin⟩, hnot⟩
      have hs : s < nb_surfaces := hidx r hr _ hin
      refine ⟨s, hs, ?_⟩
      rw [hplus s hs, hminus s hs]
      cases side
      · have hq : ∃ r ∈ regions, (s, false) ∈ r := ⟨r, hr, hin⟩
        have hp : ¬ ∃ r ∈ regions, (s, true) ∈ r := by simpa using hnot
        simp [hp, hq]
      · have hp : ∃ r ∈ regions, (s, true) ∈ r := ⟨r, hr, hin⟩
        have hq : ¬ ∃ r ∈ regions, (s, false) ∈ r := by simpa using hnot
        simp [hp, hq]
  have hsub : ((compute_universe_boundaries nb_surfaces regions).map Prod.fst).Sublist
      (List.range nb_surfaces) := by
    unfold compute_universe_boundaries add_surfaces_to_universe_boundaries
    exact flatMap_fst_sublist _ _ (by
      intro a
      split
      · exact Or.inr ⟨false, rfl⟩
      · split
        · exact Or.inr ⟨true, rfl⟩
        · exact Or.inl rfl)
  refine ⟨hmem, ?_, (List.sorted_lt_range _).sublist hsub, hsub.nodup (List.nodup_range _)⟩
  intro s
  simp only [List.mem_map, Prod.exists, exists_and_right, exists_eq_right]
  constructor
  · rintro ⟨side, h⟩
    have := (hmem s side).mp h
    cases side
    · exact Or.inr (by simpa using this)
    · exact Or.inl (by simpa using this)
  · rintro (h | h)
    · exact ⟨true, (hmem s true).mpr (by simpa using h)⟩
    · exact ⟨false, (hmem s false).mpr (by simpa using h)⟩

/-- In `exampleRegions` the surfaces 0 and 2 bound the Universe and the surface
1, whose two sides bound regions, does not. -/
theorem compute_universe_boundaries_iff_one_side_witness :
    compute_universe_boundaries 3 exampleRegions = [(0, true), (2, false)]
      ∧ ((compute_universe_boundaries 3 exampleRegions).map Prod.fst).Nodup :=
  ⟨by decide,
    (compute_universe_boundaries_iff_one_side 3 exampleRegions (by decide) (by decide)).2.2.2⟩

/-! ## Theorems: the tetrahedra kept by the Tetgen mesher -/

theorem any_neighbor_exterior_iff {D : Type} (tetgen_out_ : tetgenio D) (t : Nat)
    (ht : 4 * t + 4 ≤ index_t_size) :
    (List.range 4).any
        (fun f => tetgen_out_.neighborlist ((t * 4 + f) % index_t_size) == -1) = true
      ↔ has_exterior_facet tetgen_out_ t := by
  unfold has_exterior_facet
  simp only [List.any_eq_true, List.mem_range, beq_iff_eq]
  constructor
  · rintro ⟨f, hf, h⟩
    refine ⟨f, hf, ?_⟩
    rw [Nat.mod_eq_of_lt (by omega), Nat.mul_comm] at h
    exact h
  · rintro ⟨f, hf, h⟩
    refine ⟨f, hf, ?_⟩
    rw [Nat.mod_eq_of_lt (by omega), Nat.mul_comm]
    exact h

section TetsTheorems
variable {D : Type} [DecidableEq D]

theorem foldl_insert_mem (l : List Nat) (p : Nat → Bool) (a : Nat → D) (init : List D) (d : D) :
    d ∈ l.foldl (fun regions t => if p t then regions.insert (a t) else regions) init
      ↔ d ∈ init ∨ ∃ t ∈ l, p t = true ∧ a t = d := by
  induction l generalizing init with
  | nil => simp
  | cons t l ih =>
    rw [List.foldl_cons, ih]
    by_cases hp : p t = true
    · simp only [hp, if_true, List.mem_insert_iff, List.mem_cons, exists_eq_or_imp, true_and]
      constructor
      · rintro ((h | h) | h)
        · exact Or.inr (Or.inl h.symm)
        · exact Or.inl h
        · exact Or.inr (Or.inr h)
      · rintro (h | h | h)
        · exact Or.inl (Or.inr h)
        · exact Or.inl (Or.inl h.symm)
        · exact Or.inr h
    · simp [hp]

theorem foldl_push_back_eq_filter (l : List Nat) (p : Nat → Prop) [DecidablePred p]
    (init : List Nat) :
    l.foldl (fun tets t => if p t then tets ++ [t] else tets) init
      = init ++ l.filter (fun t => decide (p t)) := by
  induction l generalizing init with
  | nil => simp
  | cons t l ih =>
    rw [List.foldl_cons, ih]
    by_cases hp : p t
    · simp [hp]
    · simp [hp]

theorem mem_determine_tet_regions_to_keep (tetgen_out_ : tetgenio D)
    (hsize : 4 * to_index_t tetgen_out_.numberoftetrahedra ≤ index_t_size) (d : D) :
    d ∈ TetgenMesher.determine_tet_regions_to_keep tetgen_out_ []
      ↔ ∃ t, t < to_index_t tetgen_out_.numberoftetrahedra
          ∧ has_exterior_facet tetgen_out_ t ∧ tetgen_out_.tetrahedronattributelist t = d := by
  unfold TetgenMesher.determine_tet_regions_to_keep
  simp only
  rw [foldl_insert_mem]
  simp only [List.not_mem_nil, false_or, List.mem_range]
  constructor
  · rintro ⟨t, ht, hp, ha⟩
    exact ⟨t, ht, (any_neighbor_exterior_iff tetgen_out_ t (by omega)).mp hp, ha⟩
  · rintro ⟨t, ht, hp, ha⟩
    exact ⟨t, ht, (any_neighbor_exterior_iff tetgen_out_ t (by omega)).mpr hp, ha⟩

theorem determine_tets_to_keep_eq_filter (tetgen_out_ : tetgenio D) :
    TetgenMesher.determine_tets_to_keep tetgen_out_
      = (List.range (to_index_t tetgen_out_.numberoftetrahedra)).filter (fun t =>
          decide (tetgen_out_.tetrahedronattributelist t
            ∈ TetgenMesher.determine_tet_regions_to_keep tetgen_out_ [])) := by
  unfold TetgenMesher.determine_tets_to_keep
  simp only
  rw [foldl_push_back_eq_filter]
  simp

theorem resize_length {α : Type} (v : List α) (n : Nat) (fill : α) :
    (resize v n fill).length = n := by
  unfold resize
  rw [List.length_append, List.length_take, List.length_replicate]
  omega

theorem set_four_spec (tets : List Nat) (i : Nat) (h : Nat → Nat)
    (hi : 4 * i + 4 ≤ index_t_size) :
    ((List.range 4).foldl (fun tets v => tets.set ((4 * i + v) % index_t_size) (h v))
        tets).length = tets.length
      ∧ ∀ j, ((List.range 4).foldl
            (fun tets v => tets.set ((4 * i + v) % index_t_size) (h v)) tets).getD j 0
          = if 4 * i ≤ j ∧ j < 4 * i + 4 ∧ j < tets.length then h (j - 4 * i)
            else tets.getD j 0 := by
  have hr : List.range 4 = [0, 1, 2, 3] := by decide
  have h0 : (4 * i + 0) % index_t_size = 4 * i := Nat.mod_eq_of_lt (by omega)
  have h1 : (4 * i + 1) % index_t_size = 4 * i + 1 := Nat.mod_eq_of_lt (by omega)
  have h2 : (4 * i + 2) % index_t_size = 4 * i + 2 := Nat.mod_eq_of_lt (by omega)
  have h3 : (4 * i + 3) % index_t_size = 4 * i + 3 := Nat.mod_eq_of_lt (by omega)
  rw [hr]
  simp only [List.foldl_cons, List.foldl_nil, h0, h1, h2, h3, List.length_set, true_and]
  intro j
  simp only [List.getD_eq_getElem?_getD, List.getElem?_set, List.length_set]
  by_cases hj : j < tets.length
  · by_cases c3 : 4 * i + 3 = j
    · subst c3
      simp [hj]
    · by_cases c2 : 4 * i + 2 = j
      · subst c2
        simp [hj]
      · by_cases c1 : 4 * i + 1 = j
        · subst c1
          simp [hj]
        · by_cases c0 : 4 * i = j
          · subst c0
            simp [hj]
          · have hn : ¬ (4 * i ≤ j ∧ j < 4 * i + 4 ∧ j < tets.length) := by omega
            simp [c0, c1, c2, c3, hn]
  · have hn : ¬ (4 * i ≤ j ∧ j < 4 * i + 4 ∧ j < tets.length) := by omega
    have hnone : tets[j]? = none := List.getElem?_eq_none (by omega)
    rw [if_neg hn, hnone]
    repeat' split
    all_goals first | rfl | omega

theorem fill_tets_spec (g : Nat → Nat → Nat) (n : Nat) (hn : 4 * n ≤ index_t_size)
    (tets : List Nat) :
    ((List.range n).foldl (fun tets i =>
        (List.range 4).foldl (fun tets v => tets.set ((4 * i + v) % index_t_size) (g i v)) tets)
        tets).length = tets.length
      ∧ ∀ j, ((List.range n).foldl (fun tets i =>
            (List.range 4).foldl
              (fun tets v => tets.set ((4 * i + v) % index_t_size) (g i v)) tets) tets).getD j 0
          = if j < 4 * n ∧ j < tets.length then g (j / 4) (j % 4) else tets.getD j 0 := by
  induction n with
  | zero => simp
  | succ n ih =>
    obtain ⟨ihl, ihg⟩ := ih (by omega)
    have hs : List.range (n + 1) = List.range n ++ [n] := List.range_succ n
    rw [hs, List.foldl_append, List.foldl_cons, List.foldl_nil]
    obtain ⟨hl, hg⟩ := set_four_spec ((List.range n).foldl (fun tets i =>
        (List.range 4).foldl (fun tets v => tets.set ((4 * i + v) % index_t_size) (g i v)) tets)
        tets) n (g n) (by omega)
    refine ⟨by rw [hl, ihl], ?_⟩
    intro j
    rw [hg j, ihl, ihg j]
    by_cases hj : j < tets.length
    · by_cases hlt : j < 4 * n
      · have c1 : ¬ (4 * n ≤ j ∧ j < 4 * n + 4 ∧ j < tets.length) := by omega
        have c2 : j < 4 * n ∧ j < tets.length := ⟨hlt, hj⟩
        have c3 : j < 4 * (n + 1) ∧ j < tets.length := ⟨by omega, hj⟩
        rw [if_neg c1, if_pos c2, if_pos c3]
      · by_cases hlt2 : j < 4 * n + 4
        · have c1 : 4 * n ≤ j ∧ j < 4 * n + 4 ∧ j < tets.length := ⟨by omega, hlt2, hj⟩
          have c3 : j < 4 * (n + 1) ∧ j < tets.length := ⟨by omega, hj⟩
          rw [if_pos c1, if_pos c3]
          have e1 : j / 4 = n := by omega
          have e2 : j % 4 = j - 4 * n := by omega
          rw [e1, e2]
        · have c1 : ¬ (4 * n ≤ j ∧ j < 4 * n + 4 ∧ j < tets.length) := by omega
          have c2 : ¬ (j < 4 * n ∧ j < tets.length) := by omega
          have c3 : ¬ (j < 4 * (n + 1) ∧ j < tets.length) := by omega
          rw [if_neg c1, if_neg c2, if_neg c3]
    · have c1 : ¬ (4 * n ≤ j ∧ j < 4 * n + 4 ∧ j < tets.length) := by omega
      have c2 : ¬ (j < 4 * n ∧ j < tets.length) := by omega
      have c3 : ¬ (j < 4 * (n + 1) ∧ j < tets.length) := by omega
      rw [if_neg c1, if_neg c2, if_neg c3]

end TetsTheorems

/-- C13: `determine_tets_to_keep` returns, in strictly increasing order and
without repetition, exactly the tetrahedra whose region attribute is the
attribute of some tetrahedron with a neighbor `-1`; every tetrahedron with an
exterior facet is kept; and `get_result_tetmesh_tets` returns four entries per
kept tetrahedron, the entries `4 i .. 4 i + 3` being the four corners of the
`i`-th kept tetrahedron. -/
theorem tetgen_keeps_tets_of_exterior_regions {D : Type} [DecidableEq D]
    (tetgen_out_ : tetgenio D) (tets : List Nat)
    (hsize : 4 * to_index_t tetgen_out_.numberoftetrahedra < index_t_size) :
    (TetgenMesher.determine_tets_to_keep tetgen_out_).Sorted (· < ·)
      ∧ (TetgenMesher.determine_tets_to_keep tetgen_out_).Nodup
      ∧ (∀ t, t ∈ TetgenMesher.determine_tets_to_keep tetgen_out_ ↔
          t < to_index_t tetgen_out_.numberoftetrahedra
            ∧ ∃ u, u < to_index_t tetgen_out_.numberoftetrahedra
                ∧ has_exterior_facet tetgen_out_ u
                ∧ tetgen_out_.tetrahedronattributelist u
                    = tetgen_out_.tetrahedronattributelist t)
      ∧ (∀ t, t < to_index_t tetgen_out_.numberoftetrahedra →
          has_exterior_facet tetgen_out_ t →
          t ∈ TetgenMesher.determine_tets_to_keep tetgen_out_)
      ∧ (TetgenMesher.get_result_tetmesh_tets tetgen_out_ tets).length
          = 4 * (TetgenMesher.determine_tets_to_keep tetgen_out_).length
      ∧ (∀ i v, i < (TetgenMesher.determine_tets_to_keep tetgen_out_).length → v < 4 →
          (TetgenMesher.get_result_tetmesh_tets tetgen_out_ tets).getD (4 * i + v) 0
            = to_index_t (tetgen_out_.tetrahedronlist
                (4 * (TetgenMesher.determine_tets_to_keep tetgen_out_).getD i 0 + v))) := by
  have hfilter := determine_tets_to_keep_eq_filter tetgen_out_
  have hsub : (TetgenMesher.determine_tets_to_keep tetgen_out_).Sublist
      (List.range (to_index_t tetgen_out_.numberoftetrahedra)) := by
    rw [hfilter]
    exact List.filter_sublist _
  have hmem : ∀ t, t ∈ TetgenMesher.determine_tets_to_keep tetgen_out_ ↔
      t < to_index_t tetgen_out_.numberoftetrahedra
        ∧ ∃ u, u < to_index_t tetgen_out_.numberoftetrahedra
            ∧ has_exterior_facet tetgen_out_ u
            ∧ tetgen_out_.tetrahedronattributelist u
                = tetgen_out_.tetrahedronattributelist t := by
    intro t
    rw [hfilter, List.mem_filter, List.mem_range, decide_eq_true_iff,
      mem_determine_tet_regions_to_keep tetgen_out_ (by omega)]
  have hlen : (TetgenMesher.determine_tets_to_keep tetgen_out_).length
      ≤ to_index_t tetgen_out_.numberoftetrahedra := by
    have := hsub.length_le
    rwa [List.length_range] at this
  have hmodlen : (TetgenMesher.determine_tets_to_keep tetgen_out_).length % index_t_size
      = (TetgenMesher.determine_tets_to_keep tetgen_out_).length :=
    Nat.mod_eq_of_lt (by omega)
  have hmod4 : (4 * (TetgenMesher.determine_tets_to_keep tetgen_out_).length) % index_t_size
      = 4 * (TetgenMesher.determine_tets_to_keep tetgen_out_).length :=
    Nat.mod_eq_of_lt (by omega)
  have hspec := fill_tets_spec
    (fun i v => to_index_t (tetgen_out_.tetrahedronlist
      ((4 * (TetgenMesher.determine_tets_to_keep tetgen_out_).getD i 0 + v) % index_t_size)))
    (TetgenMesher.determine_tets_to_keep tetgen_out_).length (by omega)
    (resize tets (4 * (TetgenMesher.determine_tets_to_keep tetgen_out_).length) 0)
  have hres : TetgenMesher.get_result_tetmesh_tets tetgen_out_ tets
      = (List.range (TetgenMesher.determine_tets_to_keep tetgen_out_).length).foldl
          (fun tets i => (List.range 4).foldl (fun tets v =>
            tets.set ((4 * i + v) % index_t_size)
              (to_index_t (tetgen_out_.tetrahedronlist
                ((4 * (TetgenMesher.determine_tets_to_keep tetgen_out_).getD i 0 + v)
                  % index_t_size)))) tets)
          (resize tets (4 * (TetgenMesher.determine_tets_to_keep tetgen_out_).length) 0) := by
    unfold TetgenMesher.get_result_tetmesh_tets
    simp only [hmodlen, hmod4]
  refine ⟨(List.sorted_lt_range _).sublist hsub, hsub.nodup (List.nodup_range _), hmem, ?_, ?_, ?_⟩
  · intro t ht hext
    exact (hmem t).mpr ⟨ht, t, ht, hext, rfl⟩
  · rw [hres, hspec.1, resize_length]
  · intro i v hi hv
    rw [hres, hspec.2, resize_length]
    have hin : (TetgenMesher.determine_tets_to_keep tetgen_out_).getD i 0
        < to_index_t tetgen_out_.numberoftetrahedra := by
      have hm : (TetgenMesher.determine_tets_to_keep tetgen_out_).getD i 0
          ∈ TetgenMesher.determine_tets_to_keep tetgen_out_ := by
        rw [List.getD_eq_getElem _ _ hi]
        exact List.getElem_mem _
      exact ((hmem _).mp hm).1
    have c : 4 * i + v < 4 * (TetgenMesher.determine_tets_to_keep tetgen_out_).length
        ∧ 4 * i + v < 4 * (TetgenMesher.determine_tets_to_keep tetgen_out_).length :=
      ⟨by omega, by omega⟩
    rw [if_pos c]
    have e1 : (4 * i + v) / 4 = i := by omega
    have e2 : (4 * i + v) % 4 = v := by omega
    simp only [e1, e2]
    rw [Nat.mod_eq_of_lt (by omega)]

/-- Of the four tetrahedra of `exampleTetgenOut` the third, whose region does
not touch the exterior, is dropped, and the corners of the three others are
copied in order. -/
theorem tetgen_keeps_tets_of_exterior_regions_witness :
    TetgenMesher.determine_tets_to_keep exampleTetgenOut = [0, 1, 3]
      ∧ TetgenMesher.get_result_tetmesh_tets exampleTetgenOut []
          = [0, 1, 2, 3, 1, 2, 3, 4, 3, 4, 5, 6]
      ∧ (TetgenMesher.get_result_tetmesh_tets exampleTetgenOut []).length
          = 4 * (TetgenMesher.determine_tets_to_keep exampleTetgenOut).length :=
  ⟨by decide, by decide,
    (tetgen_keeps_tets_of_exterior_regions exampleTetgenOut [] (by decide)).2.2.2.2.1⟩

/-! ## Theorems: unique points of a surface -/

theorem mem_first_occurrences (l : List Nat) (a : Nat) : a ∈ first_occurrences l ↔ a ∈ l := by
  induction l with
  | nil => simp [first_occurrences]
  | cons b l ih =>
    simp only [first_occurrences, List.mem_cons, List.mem_filter, ih, decide_eq_true_iff]
    by_cases h : a = b
    · simp [h]
    · simp [h]

theorem nodup_first_occurrences (l : List Nat) : (first_occurrences l).Nodup := by
  induction l with
  | nil => simp [first_occurrences]
  | cons b l ih =>
    simp only [first_occurrences, List.nodup_cons, List.mem_filter, decide_eq_true_iff]
    exact ⟨fun h => h.2 rfl, ih.filter _⟩

theorem first_occurrences_append_singleton (l : List Nat) (a : Nat) :
    first_occurrences (l ++ [a])
      = if a ∈ l then first_occurrences l else first_occurrences l ++ [a] := by
  induction l with
  | nil => simp [first_occurrences]
  | cons b l ih =>
    have e1 : first_occurrences (b :: l ++ [a])
        = b :: (first_occurrences (l ++ [a])).filter (fun c => decide (c ≠ b)) := rfl
    have e2 : first_occurrences (b :: l)
        = b :: (first_occurrences l).filter (fun c => decide (c ≠ b)) := rfl
    rw [e1, e2, ih]
    by_cases hal : a ∈ l
    · simp [hal]
    · by_cases hab : a = b
      · subst hab
        simp [hal]
      · have hba : ¬ b = a := fun h => hab h.symm
        simp [hal, hab, hba, List.filter_append]

theorem first_occurrences_length_le (l : List Nat) : (first_occurrences l).length ≤ l.length := by
  induction l with
  | nil => simp [first_occurrences]
  | cons b l ih =>
    simp only [first_occurrences, List.length_cons]
    have := List.length_filter_le (fun c => decide (c ≠ b)) (first_occurrences l)
    omega

theorem getD_replicate_self {α : Type} (k x : Nat) (a : α) :
    (List.replicate k a).getD x a = a := by
  rw [List.getD_eq_getElem?_getD]
  cases h : (List.replicate k a)[x]? with
  | none => rfl
  | some b =>
    have := List.getElem?_mem h
    rw [List.mem_replicate] at this
    simp [this.2]

theorem resize_grow_getD {α : Type} (v : List α) (n : Nat) (fill : α) (hn : v.length ≤ n)
    (x : Nat) : (resize v n fill).getD x fill = v.getD x fill := by
  unfold resize
  rw [List.take_of_length_le hn]
  by_cases hx : x < v.length
  · rw [List.getD_append _ _ _ _ hx]
  · rw [List.getD_append_right _ _ _ _ (by omega), getD_replicate_self,
      List.getD_eq_default _ _ (by omega)]

theorem indexOf_first_occurrences_lt (done : List Nat) (x : Nat) (hx : x ∈ done) :
    (first_occurrences done).indexOf x < done.length :=
  Nat.lt_of_lt_of_le (List.indexOf_lt_length.mpr ((mem_first_occurrences done x).mpr hx))
    (first_occurrences_length_le done)

section SurfacePointsTheorems
variable {P : Type}

theorem surface_point_step (region_vertex : Nat → Nat → P) (vertex_map : VertexMap)
    (done : List Nat) (id : Nat) (b : SurfaceVectors P) (hid : id < NO_ID)
    (hlen : done.length < NO_ID)
    (hpoints : b.cur_surf_points
      = (first_occurrences done).map (get_point_from_gocad_id region_vertex vertex_map))
    (hfacets : b.cur_surf_facets = done.map (fun x => (first_occurrences done).indexOf x))
    (hmap : ∀ x, b.gocad_vertices2cur_surf_points.getD x NO_ID
      = if x ∈ done then (first_occurrences done).indexOf x else NO_ID) :
    (get_surface_point_and_facet_from_gocad_index region_vertex vertex_map id b).cur_surf_points
        = (first_occurrences (done ++ [id])).map
            (get_point_from_gocad_id region_vertex vertex_map)
      ∧ (get_surface_point_and_facet_from_gocad_index region_vertex vertex_map id
            b).cur_surf_facets
          = (done ++ [id]).map (fun x => (first_occurrences (done ++ [id])).indexOf x)
      ∧ ∀ x, (get_surface_point_and_facet_from_gocad_index region_vertex vertex_map id
            b).gocad_vertices2cur_surf_points.getD x NO_ID
          = if x ∈ done ++ [id] then (first_occurrences (done ++ [id])).indexOf x
            else NO_ID := by
  have hsz : NO_ID < index_t_size := by decide
  have hm1 : ∀ x, (if id ≥ b.gocad_vertices2cur_surf_points.length then
        resize b.gocad_vertices2cur_surf_points ((id + 1) % index_t_size) NO_ID
      else b.gocad_vertices2cur_surf_points).getD x NO_ID
        = b.gocad_vertices2cur_surf_points.getD x NO_ID := by
    intro x
    split
    · rw [Nat.mod_eq_of_lt (by omega)]
      exact resize_grow_getD _ _ _ (by omega) x
    · rfl
  have hl1 : id < (if id ≥ b.gocad_vertices2cur_surf_points.length then
        resize b.gocad_vertices2cur_surf_points ((id + 1) % index_t_size) NO_ID
      else b.gocad_vertices2cur_surf_points).length := by
    split
    · rw [resize_length, Nat.mod_eq_of_lt (by omega)]
      omega
    · omega
  have hfo := first_occurrences_append_singleton done id
  unfold get_surface_point_and_facet_from_gocad_index
  simp only
  rw [hm1 id, hmap id]
  by_cases hin : id ∈ done
  · have hne : ¬ ((first_occurrences done).indexOf id = NO_ID) := by
      have := indexOf_first_occurrences_lt done id hin
      omega
    rw [if_pos hin] at hfo ⊢
    rw [if_neg hne, hfo]
    refine ⟨hpoints, ?_, ?_⟩
    · simp only [hfacets, List.map_append, List.map_cons, List.map_nil]
    · intro x
      rw [hm1 x, hmap x]
      by_cases hx : x ∈ done
      · simp [hx]
      · have hxid : x ≠ id := fun h => hx (h ▸ hin)
        simp [hx, hxid]
  · rw [if_neg hin] at hfo ⊢
    have hnotin : id ∉ first_occurrences done := fun h => hin ((mem_first_occurrences _ _).mp h)
    have hlenfo : (first_occurrences done).length < NO_ID :=
      Nat.lt_of_le_of_lt (first_occurrences_length_le done) hlen
    have hidx : b.cur_surf_points.length % index_t_size = (first_occurrences done).length := by
      rw [hpoints, List.length_map]
      exact Nat.mod_eq_of_lt (by omega)
    have hself : (first_occurrences done ++ [id]).indexOf id = (first_occurrences done).length := by
      rw [List.indexOf_append_of_not_mem hnotin]
      simp
    have hold : ∀ x ∈ done, (first_occurrences done ++ [id]).indexOf x
        = (first_occurrences done).indexOf x := fun x hx =>
      List.indexOf_append_of_mem ((mem_first_occurrences _ _).mpr hx)
    simp only [if_true, hfo, hidx]
    refine ⟨?_, ?_, ?_⟩
    · rw [hpoints, List.map_append, List.map_cons, List.map_nil]
    · rw [hfacets, List.map_append, List.map_cons, List.map_nil, hself]
      congr 1
      exact List.map_congr_left (fun x hx => (hold x hx).symm)
    · intro x
      rw [List.getD_eq_getElem?_getD, List.getElem?_set]
      by_cases hxid : id = x
      · subst hxid
        simp [hl1, hself]
      · rw [if_neg hxid, ← List.getD_eq_getElem?_getD, hm1 x, hmap x]
        have hxid2 : ¬ x = id := fun h => hxid h.symm
        by_cases hx : x ∈ done
        · simp [hx, hold x hx]
        · simp [hx, hxid2]

theorem surface_points_loop (region_vertex : Nat → Nat → P) (vertex_map : VertexMap)
    (ids done : List Nat) (b : SurfaceVectors P) (hids : ∀ id ∈ ids, id < NO_ID)
    (hlen : (done ++ ids).length < NO_ID)
    (hpoints : b.cur_surf_points
      = (first_occurrences done).map (get_point_from_gocad_id region_vertex vertex_map))
    (hfacets : b.cur_surf_facets = done.map (fun x => (first_occurrences done).indexOf x))
    (hmap : ∀ x, b.gocad_vertices2cur_surf_points.getD x NO_ID
      = if x ∈ done then (first_occurrences done).indexOf x else NO_ID) :
    (ids.foldl (fun b id =>
        get_surface_point_and_facet_from_gocad_index region_vertex vertex_map id b)
        b).cur_surf_points
        = (first_occurrences (done ++ ids)).map
            (get_point_from_gocad_id region_vertex vertex_map)
      ∧ (ids.foldl (fun b id =>
          get_surface_point_and_facet_from_gocad_index region_vertex vertex_map id b)
          b).cur_surf_facets
          = (done ++ ids).map (fun x => (first_occurrences (done ++ ids)).indexOf x) := by
  induction ids generalizing done b with
  | nil => simpa using ⟨hpoints, hfacets⟩
  | cons id ids ih =>
    have hl : (done ++ id :: ids).length = (done ++ [id] ++ ids).length := by simp
    have hstep := surface_point_step region_vertex vertex_map done id b
      (hids id (List.mem_cons_self _ _))
      (by rw [List.length_append, List.length_cons] at hlen; omega) hpoints hfacets hmap
    have h := ih (done ++ [id])
      (get_surface_point_and_facet_from_gocad_index region_vertex vertex_map id b)
      (fun x hx => hids x (List.mem_cons_of_mem _ hx)) (by rw [← hl]; exact hlen)
      hstep.1 hstep.2.1 hstep.2.2
    rw [List.foldl_cons]
    have e : done ++ id :: ids = done ++ [id] ++ ids := by simp
    rw [e]
    exact h

end SurfacePointsTheorems

/-- C17: started on empty vectors, `get_surface_points_and_facets_from_gocad_indices`
gives one facet index per corner and one point per distinct Gocad id, the
points being those of the distinct ids in the order of their first occurrence;
each facet index is a position in the points, there one finds the point of the
Gocad id of the corner, and two corners have the same index if and only if
they have the same Gocad id. -/
theorem surface_points_are_unique {P : Type} (region_vertex : Nat → Nat → P)
    (vertex_map : VertexMap) (ids : List Nat) (hids : ∀ id ∈ ids, id < NO_ID)
    (hlen : ids.length < NO_ID) :
    (get_surface_points_and_facets_from_gocad_indices region_vertex vertex_map ids []
        []).cur_surf_facets.length = ids.length
      ∧ (get_surface_points_and_facets_from_gocad_indices region_vertex vertex_map ids []
          []).cur_surf_points
          = (first_occurrences ids).map (get_point_from_gocad_id region_vertex vertex_map)
      ∧ (get_surface_points_and_facets_from_gocad_indices region_vertex vertex_map ids []
          []).cur_surf_points.length = ids.toFinset.card
      ∧ (∀ (i id : Nat), ids[i]? = some id →
          ∃ k, (get_surface_points_and_facets_from_gocad_indices region_vertex vertex_map ids []
                  []).cur_surf_facets[i]? = some k
            ∧ k < (get_surface_points_and_facets_from_gocad_indices region_vertex vertex_map ids
                  [] []).cur_surf_points.length
            ∧ (get_surface_points_and_facets_from_gocad_indices region_vertex vertex_map ids []
                  []).cur_surf_points[k]?
                = some (get_point_from_gocad_id region_vertex vertex_map id))
      ∧ (∀ (i j a b : Nat), ids[i]? = some a → ids[j]? = some b →
          ((get_surface_points_and_facets_from_gocad_indices region_vertex vertex_map ids []
                []).cur_surf_facets[i]?
              = (get_surface_points_and_facets_from_gocad_indices region_vertex vertex_map ids []
                  []).cur_surf_facets[j]?
            ↔ a = b)) := by
  obtain ⟨hp, hf⟩ := surface_points_loop region_vertex vertex_map ids []
    { gocad_vertices2cur_surf_points := [], cur_surf_points := [], cur_surf_facets := [] }
    hids (by simpa using hlen) (by simp [first_occurrences]) (by simp) (by simp)
  rw [List.nil_append] at hp hf
  have hP : (get_surface_points_and_facets_from_gocad_indices region_vertex vertex_map ids []
      []).cur_surf_points
        = (first_occurrences ids).map (get_point_from_gocad_id region_vertex vertex_map) := hp
  have hF : (get_surface_points_and_facets_from_gocad_indices region_vertex vertex_map ids []
      []).cur_surf_facets = ids.map (fun x => (first_occurrences ids).indexOf x) := hf
  have hfi : ∀ (i id : Nat), ids[i]? = some id →
      (ids.map (fun x => (first_occurrences ids).indexOf x))[i]?
        = some ((first_occurrences ids).indexOf id) := by
    intro i id h
    rw [List.getElem?_map, h]
    rfl
  rw [hP, hF]
  refine ⟨by simp, rfl, ?_, ?_, ?_⟩
  · rw [List.length_map, ← List.toFinset_card_of_nodup (nodup_first_occurrences ids)]
    congr 1
    ext x
    simp [mem_first_occurrences]
  · intro i id h
    have hmem : id ∈ first_occurrences ids :=
      (mem_first_occurrences ids id).mpr (List.getElem?_mem h)
    have hlt : (first_occurrences ids).indexOf id < (first_occurrences ids).length :=
      List.indexOf_lt_length.mpr hmem
    refine ⟨_, hfi i id h, by rw [List.length_map]; exact hlt, ?_⟩
    rw [List.getElem?_map, List.getElem?_eq_getElem hlt, List.getElem_indexOf hlt]
    rfl
  · intro i j a b ha hb
    rw [hfi i a ha, hfi j b hb, Option.some_inj]
    exact List.indexOf_inj ((mem_first_occurrences ids a).mpr (List.getElem?_mem ha))
      ((mem_first_occurrences ids b).mpr (List.getElem?_mem hb))

/-- For the corners `2, 0, 2, 1, 0` read with `exampleVertexMap` the three
points of the ids `2, 0, 1` are built, and the corners index them. -/
theorem surface_points_are_unique_witness :
    (get_surface_points_and_facets_from_gocad_indices (fun r v => (r, v)) exampleVertexMap
        [2, 0, 2, 1, 0] [] []).cur_surf_points = [(1, 0), (0, 0), (0, 1)]
      ∧ (get_surface_points_and_facets_from_gocad_indices (fun r v => (r, v)) exampleVertexMap
          [2, 0, 2, 1, 0] [] []).cur_surf_facets = [0, 1, 0, 2, 1]
      ∧ (get_surface_points_and_facets_from_gocad_indices (fun r v => (r, v)) exampleVertexMap
          [2, 0, 2, 1, 0] [] []).cur_surf_facets.length = [2, 0, 2, 1, 0].length :=
  ⟨by decide, by decide,
    (surface_points_are_unique (fun r v => (r, v)) exampleVertexMap [2, 0, 2, 1, 0]
      (by decide) (by decide)).1⟩

/-! ## Theorems: contacts group the lines by interfaces -/

section ContactsTheorems
variable {G : Type} [LinearOrder G]

theorem set_insert_spec (s : List G) (g : G) (hs : s.Sorted (· ≤ ·)) (hn : s.Nodup) :
    (set_insert s g).Sorted (· ≤ ·) ∧ (set_insert s g).Nodup
      ∧ ∀ x, x ∈ set_insert s g ↔ x = g ∨ x ∈ s := by
  unfold set_insert
  by_cases h : g ∈ s
  · rw [if_pos h]
    refine ⟨hs, hn, fun x => ?_⟩
    constructor
    · exact Or.inr
    · rintro (rfl | hx)
      · exact h
      · exact hx
  · rw [if_neg h]
    refine ⟨hs.orderedInsert g s, ?_, fun x => List.mem_orderedInsert (· ≤ ·)⟩
    exact (List.perm_orderedInsert (· ≤ ·) g s).nodup_iff.mpr (List.nodup_cons.mpr ⟨h, hn⟩)

theorem cur_interfaces_spec_aux (parent_interface : Nat → G) (in_boundary : List Nat)
    (s : List G) (hs : s.Sorted (· ≤ ·)) (hn : s.Nodup) :
    (in_boundary.foldl (fun cur S => set_insert cur (parent_interface S)) s).Sorted (· ≤ ·)
      ∧ (in_boundary.foldl (fun cur S => set_insert cur (parent_interface S)) s).Nodup
      ∧ ∀ x, x ∈ in_boundary.foldl (fun cur S => set_insert cur (parent_interface S)) s
          ↔ x ∈ s ∨ x ∈ in_boundary.map parent_interface := by
  induction in_boundary generalizing s with
  | nil => exact ⟨hs, hn, fun x => by simp⟩
  | cons S rest ih =>
    obtain ⟨h1, h2, h3⟩ := set_insert_spec s (parent_interface S) hs hn
    obtain ⟨i1, i2, i3⟩ := ih (set_insert s (parent_interface S)) h1 h2
    refine ⟨i1, i2, fun x => ?_⟩
    rw [List.foldl_cons, i3, h3, List.map_cons, List.mem_cons]
    tauto

theorem cur_interfaces_spec (parent_interface : Nat → G) (in_boundary : List Nat) :
    (cur_interfaces parent_interface in_boundary).Sorted (· ≤ ·)
      ∧ (cur_interfaces parent_interface in_boundary).Nodup
      ∧ (cur_interfaces parent_interface in_boundary).toFinset
          = interface_set parent_interface in_boundary := by
  obtain ⟨h1, h2, h3⟩ := cur_interfaces_spec_aux parent_interface in_boundary []
    List.sorted_nil List.nodup_nil
  refine ⟨h1, h2, ?_⟩
  ext x
  unfold interface_set
  rw [List.mem_toFinset, List.mem_toFinset]
  unfold cur_interfaces
  rw [h3]
  simp

theorem cur_interfaces_eq_iff (parent_interface : Nat → G) (a b : List Nat) :
    cur_interfaces parent_interface a = cur_interfaces parent_interface b
      ↔ interface_set parent_interface a = interface_set parent_interface b := by
  obtain ⟨a1, a2, a3⟩ := cur_interfaces_spec parent_interface a
  obtain ⟨b1, b2, b3⟩ := cur_interfaces_spec parent_interface b
  constructor
  · intro h
    rw [← a3, ← b3, h]
  · intro h
    apply List.eq_of_perm_of_sorted _ a1 b1
    rw [List.perm_ext_iff_of_nodup a2 b2]
    intro x
    rw [← List.mem_toFinset, ← List.mem_toFinset, a3, b3, h]

theorem std_equal_iff (a b : List G) (h : a.length = b.length) :
    std_equal a b = true ↔ a = b := by
  unfold std_equal
  induction a generalizing b with
  | nil =>
    cases b with
    | nil => simp
    | cons y b => simp at h
  | cons x a ih =>
    cases b with
    | nil => simp at h
    | cons y b =>
      have hl : a.length = b.length := by simpa using h
      simp only [List.zip_cons_cons, List.all_cons, Bool.and_eq_true, beq_iff_eq, ih b hl,
        List.cons.injEq]

theorem find_contact_some (cur : List G) (interfaces : List (List G)) (j r : Nat)
    (h : find_contact cur interfaces j = some r) :
    ∃ c, r = j + c ∧ interfaces[c]? = some cur := by
  induction interfaces generalizing j with
  | nil => simp [find_contact] at h
  | cons s rest ih =>
    rw [find_contact] at h
    split at h
    · rename_i hc
      simp only [Bool.and_eq_true, decide_eq_true_eq] at hc
      have he : cur = s := (std_equal_iff _ _ hc.1).mp hc.2
      refine ⟨0, ?_, by simp [he]⟩
      simpa using h.symm
    · obtain ⟨c, hc1, hc2⟩ := ih (j + 1) h
      exact ⟨c + 1, by omega, by simpa using hc2⟩

theorem find_contact_none (cur : List G) (interfaces : List (List G)) (j : Nat)
    (h : find_contact cur interfaces j = none) : cur ∉ interfaces := by
  induction interfaces generalizing j with
  | nil => simp
  | cons s rest ih =>
    rw [find_contact] at h
    split at h
    · simp at h
    · rename_i hc
      simp only [Bool.and_eq_true, decide_eq_true_eq, not_and] at hc
      intro hm
      rcases List.mem_cons.mp hm with he | hm
      · subst he
        exact hc rfl ((std_equal_iff cur cur rfl).mpr rfl)
      · exact ih (j + 1) h hm

theorem build_contacts_line_spec (parent_interface : Nat → G) (pre : List (List Nat))
    (in_boundary : List Nat) (c : Contacts G) (hn : c.interfaces.Nodup)
    (hmem : ∀ s, s ∈ c.interfaces ↔ ∃ L ∈ pre, cur_interfaces parent_interface L = s)
    (hsnd : c.children.map Prod.snd = List.range pre.length)
    (hchild : ∀ p ∈ c.children, ∃ L, pre[p.2]? = some L
      ∧ c.interfaces[p.1]? = some (cur_interfaces parent_interface L)) :
    (build_contacts_line parent_interface c pre.length in_boundary).interfaces.Nodup
      ∧ (∀ s, s ∈ (build_contacts_line parent_interface c pre.length in_boundary).interfaces
          ↔ ∃ L ∈ pre ++ [in_boundary], cur_interfaces parent_interface L = s)
      ∧ (build_contacts_line parent_interface c pre.length in_boundary).children.map Prod.snd
          = List.range (pre ++ [in_boundary]).length
      ∧ ∀ p ∈ (build_contacts_line parent_interface c pre.length in_boundary).children,
          ∃ L, (pre ++ [in_boundary])[p.2]? = some L
            ∧ (build_contacts_line parent_interface c pre.length in_boundary).interfaces[p.1]?
                = some (cur_interfaces parent_interface L) := by
  have hrange : List.range (pre ++ [in_boundary]).length
      = List.range pre.length ++ [pre.length] := by
    rw [List.length_append, List.length_singleton, List.range_succ]
  have hold : ∀ (k : Nat) (L : List Nat), pre[k]? = some L →
      (pre ++ [in_boundary])[k]? = some L := by
    intro k L h
    have hk : k < pre.length := (List.getElem?_eq_some_iff.mp h).1
    rw [List.getElem?_append_left hk]
    exact h
  have hnew : (pre ++ [in_boundary])[pre.length]? = some in_boundary := by
    rw [List.getElem?_append_right (Nat.le_refl _)]
    simp
  unfold build_contacts_line
  simp only
  cases hf : find_contact (cur_interfaces parent_interface in_boundary) c.interfaces 0 with
  | some j =>
    obtain ⟨k, hk1, hk2⟩ := find_contact_some _ _ _ _ hf
    have hjk : j = k := by omega
    subst hjk
    simp only
    refine ⟨hn, ?_, ?_, ?_⟩
    · intro s
      rw [hmem s]
      constructor
      · rintro ⟨L, hL, h⟩
        exact ⟨L, List.mem_append_left _ hL, h⟩
      · rintro ⟨L, hL, h⟩
        rcases List.mem_append.mp hL with hL | hL
        · exact ⟨L, hL, h⟩
        · rw [List.mem_singleton] at hL
          subst hL
          rw [← h]
          exact (hmem _).mp (List.getElem?_mem hk2)
    · rw [List.map_append, hsnd, hrange]
      rfl
    · intro p hp
      rcases List.mem_append.mp hp with hp | hp
      · obtain ⟨L, h1, h2⟩ := hchild p hp
        exact ⟨L, hold _ _ h1, h2⟩
      · rw [List.mem_singleton] at hp
        subst hp
        exact ⟨in_boundary, hnew, hk2⟩
  | none =>
    have hnot := find_contact_none _ _ _ hf
    simp only
    refine ⟨?_, ?_, ?_, ?_⟩
    · rw [List.nodup_append]
      refine ⟨hn, List.nodup_singleton _, ?_⟩
      intro s hs hs2
      rw [List.mem_singleton] at hs2
      subst hs2
      exact hnot hs
    · intro s
      rw [List.mem_append, hmem s, List.mem_singleton]
      constructor
      · rintro (⟨L, hL, h⟩ | h)
        · exact ⟨L, List.mem_append_left _ hL, h⟩
        · exact ⟨in_boundary, by simp, h.symm⟩
      · rintro ⟨L, hL, h⟩
        rcases List.mem_append.mp hL with hL | hL
        · exact Or.inl ⟨L, hL, h⟩
        · rw [List.mem_singleton] at hL
          subst hL
          exact Or.inr h.symm
    · rw [List.map_append, hsnd, hrange]
      rfl
    · intro p hp
      rcases List.mem_append.mp hp with hp | hp
      · obtain ⟨L, h1, h2⟩ := hchild p hp
        refine ⟨L, hold _ _ h1, ?_⟩
        have hlt : p.1 < c.interfaces.length := (List.getElem?_eq_some_iff.mp h2).1
        rw [List.getElem?_append_left hlt]
        exact h2
      · rw [List.mem_singleton] at hp
        subst hp
        refine ⟨in_boundary, hnew, ?_⟩
        simp only
        rw [List.getElem?_append_right (Nat.le_refl _)]
        simp

theorem build_contacts_loop_spec (parent_interface : Nat → G) (rest pre : List (List Nat))
    (c : Contacts G) (hn : c.interfaces.Nodup)
    (hmem : ∀ s, s ∈ c.interfaces ↔ ∃ L ∈ pre, cur_interfaces parent_interface L = s)
    (hsnd : c.children.map Prod.snd = List.range pre.length)
    (hchild : ∀ p ∈ c.children, ∃ L, pre[p.2]? = some L
      ∧ c.interfaces[p.1]? = some (cur_interfaces parent_interface L)) :
    (build_contacts_loop parent_interface rest pre.length c).interfaces.Nodup
      ∧ (∀ s, s ∈ (build_contacts_loop parent_interface rest pre.length c).interfaces
          ↔ ∃ L ∈ pre ++ rest, cur_interfaces parent_interface L = s)
      ∧ (build_contacts_loop parent_interface rest pre.length c).children.map Prod.snd
          = List.range (pre ++ rest).length
      ∧ ∀ p ∈ (build_contacts_loop parent_interface rest pre.length c).children,
          ∃ L, (pre ++ rest)[p.2]? = some L
            ∧ (build_contacts_loop parent_interface rest pre.length c).interfaces[p.1]?
                = some (cur_interfaces parent_interface L) := by
  induction rest generalizing pre c with
  | nil =>
    rw [build_contacts_loop, List.append_nil]
    exact ⟨hn, hmem, hsnd, hchild⟩
  | cons in_boundary rest ih =>
    obtain ⟨s1, s2, s3, s4⟩ :=
      build_contacts_line_spec parent_interface pre in_boundary c hn hmem hsnd hchild
    have h := ih (pre ++ [in_boundary])
      (build_contacts_line parent_interface c pre.length in_boundary) s1 s2 s3 s4
    have e : pre ++ in_boundary :: rest = pre ++ [in_boundary] ++ rest := by simp
    have el : (pre ++ [in_boundary]).length = pre.length + 1 := by simp
    rw [build_contacts_loop, e, ← el]
    exact h

end ContactsTheorems

/-- C16: `build_contacts` makes every line the child of one contact, exactly
once; two lines are children of the same contact if and only if the sets of
the parent Interfaces of their in-boundary surfaces are equal; and the number
of contacts created is the number of distinct interface sets of the lines. -/
theorem build_contacts_groups_lines_by_interfaces {G : Type} [LinearOrder G]
    (parent_interface : Nat → G) (lines : List (List Nat)) :
    (build_contacts parent_interface lines).children.map Prod.snd = List.range lines.length
      ∧ (∀ p ∈ (build_contacts parent_interface lines).children,
          p.1 < (build_contacts parent_interface lines).interfaces.length)
      ∧ (∀ p ∈ (build_contacts parent_interface lines).children,
          ∀ q ∈ (build_contacts parent_interface lines).children,
          ∀ A B, lines[p.2]? = some A → lines[q.2]? = some B →
            (p.1 = q.1
              ↔ interface_set parent_interface A = interface_set parent_interface B))
      ∧ (build_contacts parent_interface lines).interfaces.length
          = (lines.map (interface_set parent_interface)).toFinset.card := by
  obtain ⟨h1, h2, h3, h4⟩ := build_contacts_loop_spec parent_interface lines []
    { interfaces := [], children := [] } List.nodup_nil (by simp) (by simp) (by simp)
  rw [List.nil_append] at h2 h3 h4
  have hI : (build_contacts_loop parent_interface lines ([] : List (List Nat)).length
      { interfaces := [], children := [] }) = build_contacts parent_interface lines := rfl
  rw [hI] at h1 h2 h3 h4
  refine ⟨h3, ?_, ?_, ?_⟩
  · intro p hp
    obtain ⟨L, _, hL⟩ := h4 p hp
    exact (List.getElem?_eq_some_iff.mp hL).1
  · intro p hp q hq A B hA hB
    obtain ⟨L, hL1, hL2⟩ := h4 p hp
    obtain ⟨M, hM1, hM2⟩ := h4 q hq
    rw [hA] at hL1
    rw [hB] at hM1
    cases hL1
    cases hM1
    rw [← cur_interfaces_eq_iff]
    constructor
    · intro h
      rw [h, hM2] at hL2
      exact (Option.some.inj hL2).symm
    · intro h
      rw [← h] at hM2
      obtain ⟨hp1, hp2⟩ := List.getElem?_eq_some_iff.mp hL2
      obtain ⟨hq1, hq2⟩ := List.getElem?_eq_some_iff.mp hM2
      exact (List.Nodup.getElem_inj_iff h1).mp (hp2.trans hq2.symm)
  · have hset : (build_contacts parent_interface lines).interfaces.toFinset
        = (lines.map (cur_interfaces parent_interface)).toFinset := by
      ext s
      rw [List.mem_toFinset, List.mem_toFinset, h2 s, List.mem_map]
    have himg : (lines.map (interface_set parent_interface)).toFinset
        = (lines.map (cur_interfaces parent_interface)).toFinset.image List.toFinset := by
      ext s
      simp only [List.mem_toFinset, List.mem_map, Finset.mem_image]
      constructor
      · rintro ⟨L, hL, rfl⟩
        exact ⟨_, ⟨L, hL, rfl⟩, (cur_interfaces_spec parent_interface L).2.2⟩
      · rintro ⟨_, ⟨L, hL, rfl⟩, rfl⟩
        exact ⟨L, hL, ((cur_interfaces_spec parent_interface L).2.2).symm⟩
    rw [← List.toFinset_card_of_nodup h1, hset, himg, Finset.card_image_of_injOn]
    intro a ha b hb hab
    simp only [Finset.coe_sort_coe, List.coe_toFinset, Set.mem_setOf_eq, List.mem_map] at ha hb
    obtain ⟨A, _, rfl⟩ := ha
    obtain ⟨B, _, rfl⟩ := hb
    rw [cur_interfaces_eq_iff]
    have hab2 : (cur_interfaces parent_interface A).toFinset
        = (cur_interfaces parent_interface B).toFinset := hab
    rw [(cur_interfaces_spec parent_interface A).2.2,
      (cur_interfaces_spec parent_interface B).2.2] at hab2
    exact hab2

/-- The four lines of `exampleLines` give two contacts: the lines 0, 1 and 3
are the children of the first and the line 2 of the second. -/
theorem build_contacts_groups_lines_by_interfaces_witness :
    (build_contacts exampleParent exampleLines).interfaces = [[0, 1], [2]]
      ∧ (build_contacts exampleParent exampleLines).children
          = [(0, 0), (0, 1), (1, 2), (0, 3)]
      ∧ (build_contacts exampleParent exampleLines).children.map Prod.snd
          = List.range exampleLines.length :=
  ⟨by decide, by decide,
    (build_contacts_groups_lines_by_interfaces exampleParent exampleLines).1⟩

end RINGMesh
